import Mathlib

/-!
# gcfuse: the GameCube disc-image decoder (`gcfs.c`, `gcfs.h`)

A shallow embedding of the parts of `gcfs.c` that decode a disc image:
`BE_32`, `gcfs_recurse_directory`, `gcfs_read` (metadata path) and `gcfs_init`.

Conventions of the embedding

* a byte is a `Fin 256`; the image behind the file descriptor is a `List Byte`
  and a file position is a `Nat`; `read` returns the bytes that are there
  (fewer than asked for at end of file);
* `int` values are `Int`s reduced with `wrap32` after every arithmetic step,
  `unsigned int` values are `Nat`s reduced `% 2^32`;
* a C array is a `List Byte` of the array's length; a read or write outside
  the array is a memory fault, recorded in the result instead of being
  performed;
* `tree_insert` (from `tree.h`, outside this repository's sources) is recorded
  as the list of its calls, in order;
* loops whose termination is not evident carry a fuel argument.
-/

namespace Gcfs

/-- One byte of the image or of a C array. -/
abbrev Byte := Fin 256

/-- The bytes of a string literal of the source (without the final NUL). -/
def bytes (s : String) : List Byte := s.toList.map (fun c => Fin.ofNat c.toNat)

/-- `#define NAME_MAX_SIZE 1024` -/
def NAME_MAX_SIZE : Nat := 1024

/-- `#define METADATA_FILE_MAX_SIZE 2048` (gcfs.h) -/
def METADATA_FILE_MAX_SIZE : Nat := 2048

/-- `#define MAX_MAIN_DOL_FILENAME_SIZE 0x400` -/
def MAX_MAIN_DOL_FILENAME_SIZE : Nat := 0x400

/-- `#define METADATA_FILE_NAME ".metadata"` -/
def METADATA_FILE_NAME : List Byte := bytes ".metadata"

/-- `#define CRLF "\x0D\x0A"` -/
def CRLF : List Byte := [0x0D, 0x0A]

/-- Two's-complement reduction of an integer to the range of a 32-bit `int`. -/
@[irreducible] def wrap32 (x : Int) : Int := (x + 2147483648) % 4294967296 - 2147483648

/-- `isprint` of `<ctype.h>` in the "C" locale: the characters 0x20 .. 0x7E. -/
def isprint (c : Byte) : Bool := decide (0x20 ≤ c.val) && decide (c.val ≤ 0x7E)

/-- `isupper` of `<ctype.h>` in the "C" locale. -/
def isupper (c : Byte) : Bool := decide (0x41 ≤ c.val) && decide (c.val ≤ 0x5A)

/-- `isalnum` of `<ctype.h>` in the "C" locale. -/
def isalnum (c : Byte) : Bool :=
  (decide (0x30 ≤ c.val) && decide (c.val ≤ 0x39)) ||
  (decide (0x41 ≤ c.val) && decide (c.val ≤ 0x5A)) ||
  (decide (0x61 ≤ c.val) && decide (c.val ≤ 0x7A))

/-- `tolower` of `<ctype.h>` in the "C" locale. -/
def tolower (c : Byte) : Byte := if isupper c then Fin.ofNat (c.val + 0x20) else c

/-- The macro `BE_32(x)` of gcfs.h applied to `&x[k]`, as the unsigned 32-bit
value it has once stored in an `unsigned int`; `none` when one of the four
bytes lies outside the array. -/
def BE_32 (x : List Byte) (k : Nat) : Option Nat :=
  match x[k]?, x[k + 1]?, x[k + 2]?, x[k + 3]? with
  | some b0, some b1, some b2, some b3 =>
      some ((b0.val <<< 24) ||| (b1.val <<< 16) ||| (b2.val <<< 8) ||| b3.val)
  | _, _, _, _ => none

/-- `BE_32(&buffer[(i-1) * 12 + k])` with the index computed in `int`. -/
def recordField (buffer : List Byte) (i : Int) (k : Int) : Option Nat :=
  let idx := wrap32 (wrap32 (wrap32 (i - 1) * 12) + k)
  if idx < 0 then none else BE_32 buffer idx.toNat

/-- `read(fd, dst, count)` at file position `pos`: the bytes delivered. -/
def readAt (fd : List Byte) (pos : Nat) (count : Nat) : List Byte :=
  (fd.drop pos).take count

/-- Length of the C string starting at index `k` of an array: the distance to
the first NUL, `none` when there is no NUL before the end of the array. -/
def strlenFrom (a : List Byte) (k : Nat) : Option Nat :=
  let n := ((a.drop k).takeWhile (fun b => b != 0)).length
  if k + n < a.length then some n else none

/-- `a[idx] = b`; `none` when `idx` is outside the array. -/
def store (a : List Byte) (idx : Nat) (b : Byte) : Option (List Byte) :=
  if idx < a.length then some (a.set idx b) else none

/-- One call of `tree_insert(root, name, namelen, offset, size)`. -/
structure TreeEntry where
  name : List Byte
  namelen : Nat
  offset : Nat
  size : Nat
deriving DecidableEq, Repr

/-- Why a run stopped without completing. -/
inductive Fault where
  | outOfFuel
  | recordOutOfBounds (i : Int)
  | nameBufferOverflow (idx : Nat)
  | other
deriving DecidableEq, Repr

/-- One execution of the body of the `for` loop of `gcfs_recurse_directory`:
the loop index and the range of the call it belongs to. -/
structure Visit where
  i : Int
  starting_index : Int
  ending_index : Int
deriving DecidableEq, Repr

/-- The state threaded through `gcfs_recurse_directory`: the shared
`name_buffer`, the `tree_insert` calls made so far, the loop bodies executed
so far, and the fault that stopped the run, if any. -/
structure Walk where
  name_buffer : List Byte
  tree : List TreeEntry
  trace : List Visit
  fault : Option Fault
deriving DecidableEq, Repr

/-- The `do { read(fd, name_buffer + name_index, 1); } while (isprint(...) &&
(name_index++ < NAME_MAX_SIZE - 1))` loop.  The first argument bounds the
number of iterations (the loop body runs at most `NAME_MAX_SIZE` times).
Returns the buffer and `name_index` after the loop, or the index of a byte
outside `name_buffer` that the loop touched. -/
def readName (fd : List Byte) : Nat → Nat → List Byte → Nat → Except Nat (List Byte × Nat)
  | 0, _, name_buffer, name_index => .ok (name_buffer, name_index)
  | n + 1, pos, name_buffer, name_index =>
    if name_buffer.length ≤ name_index then .error name_index else
    let name_buffer :=
      match fd[pos]? with
      | some b => name_buffer.set name_index b
      | none => name_buffer
    let pos := if pos < fd.length then pos + 1 else pos
    if isprint (name_buffer.getD name_index 0) then
      if name_index < NAME_MAX_SIZE - 1 then
        readName fd n pos name_buffer (name_index + 1)
      else .ok (name_buffer, name_index + 1)
    else .ok (name_buffer, name_index)

/-- The bytes of the C string at the start of an array (`strlen` many). -/
def cstring (a : List Byte) : List Byte := a.takeWhile (fun b => b != 0)

/-- Lines 176-183 of `gcfs_recurse_directory`: seek to `filename_offset`, run
the name-reading loop from `starting_name_index`, then
`name_buffer[name_index] = 0`.  An error carries the index of the byte outside
`name_buffer` that was touched. -/
def getFilename (fd : List Byte) (filename_offset : Nat) (name_buffer : List Byte)
    (starting_name_index : Nat) : Except Nat (List Byte × Nat) :=
  match readName fd NAME_MAX_SIZE filename_offset name_buffer starting_name_index with
  | .error idx => .error idx
  | .ok (name_buffer, name_index) =>
    match store name_buffer name_index 0 with
    | none => .error name_index
    | some name_buffer => .ok (name_buffer, name_index)

/-- Lines 186-187: `name_buffer[name_index++] = '/'; name_buffer[name_index] = 0;` -/
def appendSlash (name_buffer : List Byte) (name_index : Nat) : Except Nat (List Byte × Nat) :=
  match store name_buffer name_index 0x2F with
  | none => .error name_index
  | some name_buffer =>
    match store name_buffer (name_index + 1) 0 with
    | none => .error (name_index + 1)
    | some name_buffer => .ok (name_buffer, name_index + 1)

/-- The `for (i = starting_index; i <= ending_index; i++)` loop of
`gcfs_recurse_directory`, entered with loop index `i`.  The recursive call of
the source is the same loop started at `i + 1` with `ending_index = file_size`;
its return value `ending_index - starting_index + 1` is computed at the call
site.  Every execution of the loop body is appended to `trace`. -/
def recurseLoop (buffer fd : List Byte) (filename_base_offset : Nat) :
    Nat → Int → Int → Nat → Int → Walk → Walk
  | 0, _, _, _, _, w => { w with fault := some Fault.outOfFuel }
  | fuel + 1, starting_index, ending_index, starting_name_index, i, w =>
    if ending_index < i then w else
    let w := { w with trace := w.trace ++ [Visit.mk i starting_index ending_index] }
    match recordField buffer i 0, recordField buffer i 4, recordField buffer i 8 with
    | some filename_offset, some file_offset, some file_size =>
      let is_dir := filename_offset &&& 0x01000000
      let filename_offset := filename_offset &&& 0xFEFFFFFF
      let filename_offset := (filename_offset + filename_base_offset) % 4294967296
      match getFilename fd filename_offset w.name_buffer starting_name_index with
      | .error idx => { w with fault := some (Fault.nameBufferOverflow idx) }
      | .ok (name_buffer, name_index) =>
        if is_dir ≠ 0 then
          match appendSlash name_buffer name_index with
          | .error idx => { w with fault := some (Fault.nameBufferOverflow idx) }
          | .ok (name_buffer, name_index) =>
            let sub_start := wrap32 (i + 1)
            let sub_end := wrap32 file_size
            let w := recurseLoop buffer fd filename_base_offset fuel sub_start sub_end
              name_index sub_start { w with name_buffer := name_buffer }
            if w.fault.isSome then w else
            let ret := wrap32 (wrap32 (sub_end - sub_start) + 1)
            let i := wrap32 (i + ret)
            recurseLoop buffer fd filename_base_offset fuel starting_index ending_index
              starting_name_index (wrap32 (i + 1)) w
        else
          let name_buffer_copy := name_buffer
          let entry :=
            TreeEntry.mk (cstring name_buffer_copy) (cstring name_buffer_copy).length
              file_offset file_size
          recurseLoop buffer fd filename_base_offset fuel starting_index ending_index
            starting_name_index (wrap32 (i + 1))
            { w with name_buffer := name_buffer, tree := w.tree ++ [entry] }
    | _, _, _ => { w with fault := some (Fault.recordOutOfBounds i) }

/-- `gcfs_recurse_directory(buffer, starting_index, ending_index, name_buffer,
starting_name_index, fd, filename_base_offset, root)`: the state after the
call and its return value `ending_index - starting_index + 1`. -/
def gcfs_recurse_directory (fuel : Nat) (buffer : List Byte)
    (starting_index ending_index : Int) (starting_name_index : Nat)
    (fd : List Byte) (filename_base_offset : Nat) (w : Walk) : Walk × Int :=
  (recurseLoop buffer fd filename_base_offset fuel starting_index ending_index
      starting_name_index starting_index w,
    wrap32 (wrap32 (ending_index - starting_index) + 1))

/-! ## `gcfs_read` and `gcfs_getattr`, metadata path -/

/-- The fields of `struct gcfsfile` (gcfs.h) that the operations below use:
`size`, `tree` (as the list of `tree_insert` calls that built it), the
`metadata` array and `metadata_size`. -/
structure Gcfsfile where
  size : Nat
  tree : List TreeEntry
  metadata : List Byte
  metadata_size : Int
deriving DecidableEq, Repr

/-- What a call of `gcfs_read` does. -/
inductive ReadResult where
  /-- The metadata branch returned `ret` and left the caller's buffer as `buf`. -/
  | done (buf : List Byte) (ret : Int)
  /-- The call was passed on to `tree_read` (tree.h, outside the sources). -/
  | treeRead
  /-- The `memcpy` ran outside `metadata` or outside the caller's buffer. -/
  | memoryFault
deriving DecidableEq, Repr

/-- `gcfs_read(path, buf, size, offset, fi)`.  `size` is a `size_t` and `offset`
an `off_t` (both 64 bits wide); `offset + size` is computed in `size_t`, the
comparison with `metadata_size` is unsigned, and the returned `size` is
converted to `int`.  `buf` is the caller's buffer, of at least `size` bytes. -/
def gcfs_read (gcfs : Gcfsfile) (path : List Byte) (buf : List Byte) (size : Nat)
    (offset : Int) : ReadResult :=
  if path.drop 1 = METADATA_FILE_NAME then
    if offset ≥ gcfs.metadata_size then ReadResult.done buf 0
    else
      let size :=
        if (offset + (size : Int)) % 18446744073709551616
            ≥ gcfs.metadata_size % 18446744073709551616 then
          ((gcfs.metadata_size - offset) % 18446744073709551616).toNat
        else size
      -- memcpy(buf, get_gcfsfile_from_context()->metadata, size)
      if size ≤ gcfs.metadata.length ∧ size ≤ buf.length then
        ReadResult.done (gcfs.metadata.take size ++ buf.drop size) (wrap32 size)
      else ReadResult.memoryFault
  else ReadResult.treeRead

/-- The `st_size` that `gcfs_getattr` reports for the metadata path. -/
def gcfs_getattr_metadata_size (gcfs : Gcfsfile) : Int := gcfs.metadata_size

/-! ## `gcfs_init` -/

/-- `strlen(a)` for a string held in the array `a`. -/
def strlen (a : List Byte) : Option Nat := strlenFrom a 0

/-- `strcat(dst, src)` where `src` is given by its bytes before the NUL: the
bytes and a NUL are written from index `strlen(dst)` on; `none` when the scan
or the writes leave the array `dst`. -/
def strcat (dst src : List Byte) : Option (List Byte) :=
  match strlen dst with
  | none => none
  | some n =>
    if n + src.length < dst.length then
      some (dst.take n ++ src ++ [0] ++ dst.drop (n + src.length + 1))
    else none

/-- `strncat(dst, src, n)` where `src` is the array the source pointer points
into: at most `n` bytes of it, up to its first NUL, are appended, then a NUL. -/
def strncat (dst src : List Byte) (n : Nat) : Option (List Byte) :=
  strcat dst ((src.take n).takeWhile (fun b => b != 0))

/-- `gamecube_publisher_name(c1, c2)`. -/
def gamecube_publisher_name (c1 c2 : Byte) : List Byte :=
  if c1 = 0x30 ∧ c2 = 0x31 then bytes "Nintendo"
  else if c1 = 0x30 ∧ c2 = 0x38 then bytes "Capcom"
  else if c1 = 0x34 ∧ c2 = 0x31 then bytes "Ubisoft"
  else if c1 = 0x34 ∧ c2 = 0x46 then bytes "Eidos"
  else if c1 = 0x35 ∧ c2 = 0x31 then bytes "Acclaim"
  else if c1 = 0x35 ∧ c2 = 0x32 then bytes "Activision"
  else if c1 = 0x35 ∧ c2 = 0x44 then bytes "Midway"
  else if c1 = 0x35 ∧ c2 = 0x47 then bytes "Hudson"
  else if c1 = 0x36 ∧ c2 = 0x34 then bytes "LucasArts"
  else if c1 = 0x36 ∧ c2 = 0x39 then bytes "Electronic Arts"
  else if c1 = 0x36 ∧ c2 = 0x53 then bytes "TDK Mediactive"
  else if c1 = 0x38 ∧ c2 = 0x50 then bytes "Sega"
  else if c1 = 0x41 ∧ c2 = 0x34 then bytes "Mirage Studios"
  else if c1 = 0x41 ∧ c2 = 0x46 then bytes "Namco"
  else if c1 = 0x42 ∧ c2 = 0x32 then bytes "Bandai"
  else if c1 = 0x44 ∧ c2 = 0x41 then bytes "Tomy"
  else if c1 = 0x45 ∧ c2 = 0x4D then bytes "Konami"
  else bytes "unknown publisher"

/-- `isprint(workspace[i]) ? workspace[i] : '?'` -/
def printableOrQuestion (c : Byte) : Byte := if isprint c then c else 0x3F

/-- The loop `for (i = lo; i < hi; i++) metadata[metadata_size++] = ...` of
`gcfs_init`: the bytes `cs` are stored one after the other from index
`metadata_size` on.  Returns the array and the new `metadata_size`. -/
def storeCodes : List Byte → List Byte → Nat → Option (List Byte × Nat)
  | [], metadata, metadata_size => some (metadata, metadata_size)
  | c :: cs, metadata, metadata_size =>
    match store metadata metadata_size (printableOrQuestion c) with
    | none => none
    | some metadata => storeCodes cs metadata (metadata_size + 1)

/-- Lines 292-298 of `gcfs_init`: `metadata[0] = 0`, the "Game code: " label,
the four code bytes, CRLF.  `metadata` holds, on entry, whatever `malloc`
returned.  `none` when a scan or a write leaves the array. -/
def metadataGameCode (workspace metadata : List Byte) : Option (List Byte) := do
  let metadata ← store metadata 0 0
  let metadata ← strcat metadata (bytes "Game code: ")
  let metadata_size ← strlen metadata
  let (metadata, _) ← storeCodes (workspace.take 4) metadata metadata_size
  strncat metadata CRLF CRLF.length

/-- Lines 299-307 of `gcfs_init`: the "Publisher code: " label, the two code
bytes, the publisher's name in parentheses, CRLF. -/
def metadataPublisher (workspace metadata : List Byte) : Option (List Byte) := do
  let metadata ← strcat metadata (bytes "Publisher code: ")
  let metadata_size ← strlen metadata
  let (metadata, _) ← storeCodes ((workspace.drop 4).take 2) metadata metadata_size
  let metadata ← strcat metadata (bytes " (")
  let metadata ← strcat metadata
    (gamecube_publisher_name (workspace.getD 4 0) (workspace.getD 5 0))
  let metadata ← strcat metadata (bytes ")")
  strncat metadata CRLF CRLF.length

/-- Lines 308-313 of `gcfs_init`: the "Title: " label, the title, CRLF, the
final `metadata[METADATA_FILE_MAX_SIZE - 1] = 0` and `strlen`. -/
def metadataTitle (workspace metadata : List Byte) : Option (List Byte × Nat) := do
  let metadata ← strcat metadata (bytes "Title: ")
  let metadata ← strncat metadata (workspace.drop 32) 0x3E0
  let metadata ← strncat metadata CRLF CRLF.length
  let metadata ← store metadata (METADATA_FILE_MAX_SIZE - 1) 0
  let metadata_size ← strlen metadata
  pure (metadata, metadata_size)

/-- Lines 291-313 of `gcfs_init`: the metadata text is assembled in the
`metadata` array of the freshly allocated `struct gcfsfile`.  Returns the
array and `metadata_size`; `none` when a scan or a write leaves the array. -/
def build_metadata (workspace metadata : List Byte) : Option (List Byte × Nat) :=
  match metadataGameCode workspace metadata with
  | none => none
  | some metadata =>
    match metadataPublisher workspace metadata with
    | none => none
    | some metadata => metadataTitle workspace metadata

/-- Lines 321-334 of `gcfs_init`: the name of the main executable.  The loop
writes one byte to `main_dol_filename[j++]` for a space or an alphanumeric
title byte and nothing for any other; the bytes written are never NUL, so the
`strcat` after `main_dol_filename[j] = 0` appends right behind them, and
`j + 9 ≤ 0x3E0 + 9` stays below `MAX_MAIN_DOL_FILENAME_SIZE`. -/
def main_dol_filename (workspace : List Byte) : List Byte :=
  ((workspace.drop 32).take 0x3E0).filterMap (fun c =>
      if c = 0x20 then some 0x2D
      else if isalnum c then (if isupper c then some (tolower c) else some c)
      else none)
    ++ bytes "-exe.dol"

/-- One iteration of the two section loops of `gcfs_init`: the running
maximum after looking at the section whose offset field is at `offset_at` and
whose size field is at `size_at`; the sum is an `unsigned int` sum. -/
def dolSectionStep (dol_header : List Byte) (offset_at size_at : Nat)
    (max_dol_section_offset : Nat) : Nat :=
  let section_offset := (BE_32 dol_header offset_at).getD 0
  let section_size := (BE_32 dol_header size_at).getD 0
  if (section_offset + section_size) % 4294967296 > max_dol_section_offset then
    (section_offset + section_size) % 4294967296
  else max_dol_section_offset

/-- Lines 348-362 of `gcfs_init`: `max_dol_section_offset` after the loop over
the 7 code sections and the loop over the 10 data sections of the 256-byte
`dol_header`. -/
def max_dol_section_offset (dol_header : List Byte) : Nat :=
  let m := (List.range 7).foldl
    (fun m i => dolSectionStep dol_header (i * 4) (0x90 + i * 4) m) 0
  (List.range 10).foldl
    (fun m i => dolSectionStep dol_header (0x1C + i * 4) (0xAC + i * 4) m) m

/-- How a call of `gcfs_init` ends. -/
inductive InitOutcome where
  /-- `return NULL` -/
  | null
  /-- `return (void *)gcfs` -/
  | context (gcfs : Gcfsfile)
  /-- The run left an array, or ran out of fuel, at this fault. -/
  | stopped (f : Fault)
deriving DecidableEq, Repr

/-- The result of `gcfs_init`: how it ended, the tree at that moment (`none`
when `tree_empty` was never called) and the loop bodies of the directory walk
that were executed. -/
structure InitResult where
  outcome : InitOutcome
  tree : Option (List TreeEntry)
  trace : List Visit
deriving DecidableEq, Repr

/-- `gcfs_init()` on the image `fd` (the file behind `gcfs_fd`, positioned at
0).  `metadata` and `name_buffer` are the initial contents of the `metadata`
array of the `malloc`ed structure and of the local `name_buffer` array.
`malloc` is taken to succeed exactly for sizes that are not negative as an
`int`. -/
def gcfs_init (fuel : Nat) (fd metadata name_buffer : List Byte) : InitResult :=
  -- read(gcfs->fd, workspace, 0x440) != 0x440
  let workspace := readAt fd 0 0x440
  if workspace.length ≠ 0x440 then InitResult.mk InitOutcome.null none [] else
  let size := fd.length
  -- gcfs->tree = tree_empty(); load the metadata
  match build_metadata workspace metadata with
  | none => InitResult.mk (InitOutcome.stopped Fault.other) (some []) []
  | some (metadata, metadata_size) =>
    let tree := [TreeEntry.mk METADATA_FILE_NAME (METADATA_FILE_NAME.length + 1) 0 metadata_size]
    let dol_name := main_dol_filename workspace
    let main_dol_offset := (BE_32 workspace 0x420).getD 0
    -- lseek(gcfs->fd, main_dol_offset, SEEK_SET); read(gcfs->fd, dol_header, 256) != 256
    let dol_header := readAt fd main_dol_offset 256
    if dol_header.length ≠ 256 then InitResult.mk InitOutcome.null (some tree) [] else
    let tree := tree ++
      [TreeEntry.mk dol_name dol_name.length main_dol_offset (max_dol_section_offset dol_header)]
    let fst_chunk := (BE_32 workspace 0x424).getD 0
    -- read(gcfs->fd, workspace, 12) != 12
    let first := readAt fd fst_chunk 12
    if first.length ≠ 12 then InitResult.mk InitOutcome.null (some tree) [] else
    let file_record_count := wrap32 ((BE_32 first 8).getD 0)
    let file_records_size := wrap32 (file_record_count * 12)
    -- file_records = malloc(file_records_size)
    if file_records_size < 0 then InitResult.mk InitOutcome.null (some tree) [] else
    -- memcpy(file_records, workspace, 12)
    if file_records_size < 12 then
      InitResult.mk (InitOutcome.stopped Fault.other) (some tree) [] else
    -- read(gcfs->fd, file_records + 12, file_records_size - 12)
    let rest := readAt fd (fst_chunk + 12) (file_records_size.toNat - 12)
    if rest.length ≠ file_records_size.toNat - 12 then
      InitResult.mk InitOutcome.null (some tree) [] else
    let file_records := first ++ rest
    let filename_base_offset := fst_chunk + 12 + rest.length
    -- name_buffer[0] = 0
    match store name_buffer 0 0 with
    | none => InitResult.mk (InitOutcome.stopped Fault.other) (some tree) []
    | some name_buffer =>
      let w := (gcfs_recurse_directory fuel file_records 2 file_record_count 0 fd
        filename_base_offset (Walk.mk name_buffer tree [] none)).1
      match w.fault with
      | some f => InitResult.mk (InitOutcome.stopped f) (some w.tree) w.trace
      | none =>
        InitResult.mk (InitOutcome.context (Gcfsfile.mk size w.tree metadata metadata_size))
          (some w.tree) w.trace

/-! ## Tables: the static reading of a directory table -/

/-- The directory test of the loop body on record `i`:
`BE_32(&buffer[(i-1) * 12 + 0]) & 0x01000000` is non-zero. -/
def isDirRecord (buffer : List Byte) (i : Int) : Bool :=
  match recordField buffer i 0 with
  | some filename_offset => filename_offset &&& 0x01000000 != 0
  | none => false

/-- The third field of record `i` as the `int ending_index` the loop body
passes to the recursive call. -/
def subtreeEnd (buffer : List Byte) (i : Int) : Int :=
  match recordField buffer i 8 with
  | some file_size => wrap32 file_size
  | none => 0

/-- A table of `N` records is well nested: every directory record `i` among
2..N has `i ≤ field2 ≤ N`, and every directory record `j` inside its range
`i < j ≤ field2` ends inside that range too.  The ranges the walk processes
are `2..N` and the `i+1..field2` of the directories, so this says that a
directory processed inside a range with last index `e` has
`i ≤ field2 ≤ e`. -/
def WellNested (buffer : List Byte) (N : Nat) : Prop :=
  ∀ i : Nat, 2 ≤ i → i ≤ N → isDirRecord buffer i = true →
    (i : Int) ≤ subtreeEnd buffer i ∧ subtreeEnd buffer i ≤ N ∧
    ∀ j : Nat, i + 1 ≤ j → j ≤ N → (j : Int) ≤ subtreeEnd buffer i →
      isDirRecord buffer j = true → subtreeEnd buffer j ≤ subtreeEnd buffer i

instance (buffer : List Byte) (N : Nat) : Decidable (WellNested buffer N) := by
  unfold WellNested; infer_instance

/-- The `unsigned int filename_offset` the loop body seeks to for record `i`:
the first field with the flag bit masked out, plus `filename_base_offset`. -/
def nameOffset (buffer : List Byte) (filename_base_offset : Nat) (i : Int) : Nat :=
  match recordField buffer i 0 with
  | some filename_offset => ((filename_offset &&& 0xFEFFFFFF) + filename_base_offset) % 4294967296
  | none => 0

/-- The second field of record `i` (`file_offset`). -/
def fileOffset (buffer : List Byte) (i : Int) : Nat := (recordField buffer i 4).getD 0

/-- The third field of record `i` (`file_size`). -/
def fileSize (buffer : List Byte) (i : Int) : Nat := (recordField buffer i 8).getD 0

/-- The name of record `i` in the string table: the printable bytes found at
its name offset, up to the first byte that is not printable. -/
def recordName (buffer fd : List Byte) (filename_base_offset : Nat) (i : Int) : List Byte :=
  (fd.drop (nameOffset buffer filename_base_offset i)).takeWhile isprint

/-- The name of record `i` is terminated inside the image: a byte that is not
printable follows it before the end of the file. -/
def NameTerminated (buffer fd : List Byte) (filename_base_offset : Nat) (i : Int) : Prop :=
  nameOffset buffer filename_base_offset i
    + (recordName buffer fd filename_base_offset i).length < fd.length

instance (buffer fd : List Byte) (base : Nat) (i : Int) :
    Decidable (NameTerminated buffer fd base i) := by
  unfold NameTerminated; infer_instance

/-- The directories among the records `lo .. j-1` that enclose record `j`
(those `k` with `k < j ≤ field2 k`), outermost first. -/
def enclosingDirs (buffer : List Byte) (lo j : Nat) : List Nat :=
  (List.range' lo (j - lo)).filter
    (fun k => isDirRecord buffer (k : Nat) && decide ((j : Int) ≤ subtreeEnd buffer (k : Nat)))

/-- The names of the directories among `lo .. j-1` that enclose record `j`,
outermost first, each followed by '/'. -/
def dirPrefixFrom (buffer fd : List Byte) (filename_base_offset : Nat) (lo j : Nat) :
    List Byte :=
  (enclosingDirs buffer lo j).flatMap
    (fun k => recordName buffer fd filename_base_offset (k : Nat) ++ [0x2F])

/-- The path the specification gives record `j`: the names of its enclosing
directories, outermost first, each followed by '/', followed by the record's
own name, starting from the empty prefix at the top level. -/
def specPath (buffer fd : List Byte) (filename_base_offset : Nat) (j : Nat) : List Byte :=
  dirPrefixFrom buffer fd filename_base_offset 2 j
    ++ recordName buffer fd filename_base_offset (j : Nat)

/-- The combined path of record `j` as it stands in `name_buffer`: `specPath`,
plus the '/' appended to a directory. -/
def combinedPath (buffer fd : List Byte) (filename_base_offset : Nat) (j : Nat) : List Byte :=
  specPath buffer fd filename_base_offset j
    ++ (if isDirRecord buffer (j : Nat) then [0x2F] else [])

/-- The file entries the specification expects from a table of `N` records:
one for each record among 2..N whose directory flag is clear, in table order,
with the path of `specPath` and the record's second and third fields. -/
def specEntries (buffer fd : List Byte) (filename_base_offset : Nat) (N : Nat) :
    List TreeEntry :=
  ((List.range' 2 (N - 1)).filter (fun j => !isDirRecord buffer (j : Nat))).map
    (fun j => TreeEntry.mk (specPath buffer fd filename_base_offset j)
      (specPath buffer fd filename_base_offset j).length
      (fileOffset buffer (j : Nat)) (fileSize buffer (j : Nat)))

/-- The records among `i .. e` whose directory flag is clear, in table order. -/
def filesIn (buffer : List Byte) (i e : Nat) : List Nat :=
  (List.range' i (e + 1 - i)).filter (fun j => !isDirRecord buffer (j : Nat))

/-- The entry expected for file record `j` when the walk of the range starting
at `lo` found the prefix `P` in `name_buffer`. -/
def entryFrom (buffer fd : List Byte) (base : Nat) (P : List Byte) (lo j : Nat) : TreeEntry :=
  TreeEntry.mk (P ++ dirPrefixFrom buffer fd base lo j ++ recordName buffer fd base (j : Nat))
    (P ++ dirPrefixFrom buffer fd base lo j ++ recordName buffer fd base (j : Nat)).length
    (fileOffset buffer (j : Nat)) (fileSize buffer (j : Nat))


/-- The four bytes of the big-endian encoding of `n`. -/
def be32 (n : Nat) : List Byte :=
  [Fin.ofNat (n / 16777216), Fin.ofNat (n / 65536), Fin.ofNat (n / 256), Fin.ofNat n]

/-- A 12-byte directory-table record with the three fields given. -/
def record12 (field0 field1 field2 : Nat) : List Byte :=
  be32 field0 ++ be32 field1 ++ be32 field2

/-- The list `l` followed by NUL bytes up to length `n`. -/
def padTo (n : Nat) (l : List Byte) : List Byte := l ++ List.replicate (n - l.length) 0

/-- Example string table: "levels", "level1.dat", "level2.dat", each NUL-terminated. -/
def exStrings : List Byte :=
  bytes "levels" ++ [0] ++ bytes "level1.dat" ++ [0] ++ bytes "level2.dat" ++ [0]

/-- Example table of 4 records: the root, the directory "levels" at index 2
with third field 4, and the files "level1.dat" and "level2.dat" at 3 and 4. -/
def exNested : List Byte :=
  record12 0x01000000 0 4 ++ record12 0x01000000 0 4 ++ record12 7 0x100 10
    ++ record12 18 0x200 20

/-- Example table of 2 records: the root and the file "readme.txt" with
second field 0x1000 and third field 10. -/
def exReadme : List Byte := record12 0x01000000 0 2 ++ record12 0 0x1000 10

/-- Example string table holding "readme.txt". -/
def exReadmeStrings : List Byte := bytes "readme.txt" ++ [0]

/-- Example table of 5 records: the root, the directory "d" at index 2 with
third field 4, and the files "a", "b", "c" at 3, 4 and 5. -/
def exSubtree : List Byte :=
  record12 0x01000000 0 5 ++ record12 0x01000000 0 4 ++ record12 2 0x100 1
    ++ record12 4 0x200 2 ++ record12 6 0x300 3

/-- Example string table "d", "a", "b", "c". -/
def exSubtreeStrings : List Byte := bytes "d" ++ [0] ++ bytes "a" ++ [0] ++ bytes "b" ++ [0]
  ++ bytes "c" ++ [0]

/-- Example boot header (0x440 bytes): game code, publisher code, title, the
main executable at 0x440 and the directory table at 0x540. -/
def exHeader (code title : String) : List Byte :=
  padTo 0x420 (padTo 0x20 (bytes code) ++ bytes title) ++ be32 0x440 ++ be32 0x540
    ++ List.replicate 0x18 0

/-- Example executable header (256 bytes): code sections at 0x100 (size 0x50)
and 0x200 (size 0x60), every other section empty. -/
def exDol : List Byte :=
  padTo 256 (padTo 0x90 (be32 0x100 ++ be32 0x200) ++ be32 0x50 ++ be32 0x60)

/-- Example image: header "GAFE", "01", "Test Game", the executable header,
then the given directory table and string table. -/
def exImage (table strings : List Byte) : List Byte :=
  exHeader "GAFE01" "Test Game" ++ exDol ++ table ++ strings

/-- The table of the nested scenario as the claim words it: 4 records, the
directory "levels" at index 2 with third field 5, the files at 3 and 4. -/
def exNestedEnd5 : List Byte :=
  record12 0x01000000 0 4 ++ record12 0x01000000 0 5 ++ record12 7 0x100 10
    ++ record12 18 0x200 20

/-- The path of the metadata file as FUSE passes it. -/
def exMetadataPath : List Byte := bytes "/.metadata"

/-- Whether `gcfs_init` returned a context. -/
def InitOutcome.isContext : InitOutcome → Bool
  | InitOutcome.context _ => true
  | _ => false

/-- The metadata text for game code "GAFE", publisher code "01" and title
"Test Game". -/
def exMetadataText : List Byte :=
  bytes "Game code: GAFE\r\nPublisher code: 01 (Nintendo)\r\nTitle: Test Game\r\n"

/-- The context `gcfs_init` returns for `exImage exReadme exReadmeStrings`
when the `metadata` array starts out zeroed. -/
def exContext : Gcfsfile :=
  Gcfsfile.mk (exImage exReadme exReadmeStrings).length
    [TreeEntry.mk (bytes ".metadata") 10 0 66,
     TreeEntry.mk (bytes "test-game-exe.dol") 17 0x440 0x260,
     TreeEntry.mk (bytes "readme.txt") 10 0x1000 10]
    (padTo 2048 exMetadataText) 66

/-- The positions, in the 256-byte executable header, of the offset field and
the size field of each of the 17 sections: 7 code sections (offsets at
`0x00 + 4i`, sizes at `0x90 + 4i`) and 10 data sections (offsets at
`0x1C + 4i`, sizes at `0xAC + 4i`). -/
def dolSections : List (Nat × Nat) :=
  (List.range 7).map (fun i => (i * 4, 0x90 + i * 4)) ++
  (List.range 10).map (fun i => (0x1C + i * 4, 0xAC + i * 4))

/-- `offset + size` of every section as an exact integer sum of the two
unsigned 32-bit fields. -/
def exactSectionEnds (dol_header : List Byte) : List Nat :=
  dolSections.map (fun p => (BE_32 dol_header p.1).getD 0 + (BE_32 dol_header p.2).getD 0)

/-- `offset + size` of every section as an `unsigned int` sum, modulo 2^32. -/
def wrappedSectionEnds (dol_header : List Byte) : List Nat :=
  dolSections.map (fun p =>
    ((BE_32 dol_header p.1).getD 0 + (BE_32 dol_header p.2).getD 0) % 4294967296)

/-- The maximum of a list of naturals, 0 for the empty list. -/
def listMax (l : List Nat) : Nat := l.foldr max 0

/-- Example executable header whose first code section has offset 0xFFFFFFFF
and size 2, every other section being empty. -/
def exDolWrap : List Byte := padTo 256 (padTo 0x90 (be32 0xFFFFFFFF) ++ be32 2)

/-- Example image whose executable header is `exDolWrap`. -/
def exImageWrap : List Byte :=
  exHeader "GAFE01" "Test Game" ++ exDolWrap ++ exReadme ++ exReadmeStrings

/-- Example image whose first directory record gives the record count
0x80000002 (2147483650) and is followed by one more record and nothing else. -/
def exImageHugeCount : List Byte :=
  exHeader "GAFE01" "Test Game" ++ exDol ++ record12 0x01000000 0 0x80000002
    ++ record12 0 0 0

/-- Example table: the root and one record whose first field is 0x80000000
(top bit set, bit 24 clear), second field 0x1000, third field 10. -/
def exTopBit : List Byte := record12 0x01000000 0 2 ++ record12 0x80000000 0x1000 10

/-- Example table: the root and one record whose first field is 0x01000000
(top bit clear, bit 24 set) and whose third field is 2. -/
def exBit24 : List Byte := record12 0x01000000 0 2 ++ record12 0x01000000 0 2

/-- Lines 321-332 of `gcfs_init` on the array `main_dol_filename`: the loop
over the title bytes, storing to `main_dol_filename[j++]`.  Returns the array
and `j`; `none` when a store leaves the array. -/
def dolNameLoop : List Byte → List Byte → Nat → Option (List Byte × Nat)
  | [], filename, j => some (filename, j)
  | c :: cs, filename, j =>
    if c = 0x20 then
      match store filename j 0x2D with
      | none => none
      | some filename => dolNameLoop cs filename (j + 1)
    else if isalnum c then
      if isupper c then
        match store filename j (tolower c) with
        | none => none
        | some filename => dolNameLoop cs filename (j + 1)
      else
        match store filename j c with
        | none => none
        | some filename => dolNameLoop cs filename (j + 1)
    else dolNameLoop cs filename j

/-- Lines 321-334 of `gcfs_init` on the array `main_dol_filename` (whose
initial contents are `filename`): the loop, `main_dol_filename[j] = 0` and
`strcat(main_dol_filename, "-exe.dol")`; the result is the string then held
in the array. -/
def main_dol_filename_array (workspace filename : List Byte) : Option (List Byte) :=
  match dolNameLoop ((workspace.drop 32).take 0x3E0) filename 0 with
  | none => none
  | some (filename, j) =>
    match store filename j 0 with
    | none => none
    | some filename =>
      match strcat filename (bytes "-exe.dol") with
      | none => none
      | some filename => some (cstring filename)

/-- What the claim says happens to one title byte: a space becomes '-', an
ASCII uppercase letter its lowercase form, ASCII lowercase letters and digits
are kept, every other byte is dropped. -/
def specSanitize (c : Byte) : Option Byte :=
  if c = 0x20 then some 0x2D
  else if 0x41 ≤ c.val ∧ c.val ≤ 0x5A then some (c + 0x20)
  else if (0x61 ≤ c.val ∧ c.val ≤ 0x7A) ∨ (0x30 ≤ c.val ∧ c.val ≤ 0x39) then some c
  else none

/-- The name the claim gives the boot executable for a title field. -/
def specDolName (title : List Byte) : List Byte :=
  title.filterMap specSanitize ++ bytes "-exe.dol"

/-- A byte of `[a-z0-9-]`. -/
def isNameByte (b : Byte) : Bool :=
  (decide (0x61 ≤ b.val) && decide (b.val ≤ 0x7A)) ||
  (decide (0x30 ≤ b.val) && decide (b.val ≤ 0x39)) || decide (b = 0x2D)

/-- The metadata text as the specification words it: the three labelled lines
built from the boot header `workspace`. -/
def specMetadata (workspace : List Byte) : List Byte :=
  bytes "Game code: " ++ (workspace.take 4).map printableOrQuestion ++ CRLF
    ++ bytes "Publisher code: " ++ ((workspace.drop 4).take 2).map printableOrQuestion
    ++ bytes " (" ++ gamecube_publisher_name (workspace.getD 4 0) (workspace.getD 5 0)
    ++ bytes ")" ++ CRLF
    ++ bytes "Title: " ++ ((workspace.drop 32).take 0x3E0).takeWhile (fun b => b != 0) ++ CRLF

/-- A possible content of the freshly allocated `metadata` array: NUL
everywhere except for fifteen bytes 'A' at indices 15 to 29. -/
def exGarbage : List Byte :=
  List.replicate 15 0 ++ List.replicate 15 0x41 ++ List.replicate 2018 0

/-- A possible content of the freshly allocated `metadata` array: 'A' at
indices 0 to 2039, NUL in the last eight bytes. -/
def exGarbageLong : List Byte := List.replicate 2040 0x41 ++ List.replicate 8 0

/-- The text assembled when the `metadata` array starts out as `exGarbage`. -/
def exGarbageText : List Byte :=
  bytes "Game code: GAFEAAAAAAAAAAAAAAA\r\nPublisher code: 01 (Nintendo)\r\nTitle: Test Game\r\n"

/-- Example table of 2 records: the root and, at index 2, a directory whose
third field is 1, smaller than its own index. -/
def exLoopTable : List Byte := record12 0x01000000 0 2 ++ record12 0x01000000 0 1

/-- Example string table holding "d". -/
def exLoopStrings : List Byte := bytes "d" ++ [0]

/-- Example string table: a name of 1024 bytes 'A', then NUL. -/
def exLongName : List Byte := List.replicate 1024 0x41 ++ [0]

/-- Example table of 2 records: the root and one file whose name is at string
offset 0. -/
def exOneFile : List Byte := record12 0x01000000 0 2 ++ record12 0 0x1000 10

/-- The directory that record `j` lies directly in: the innermost of its
enclosing directories, `none` for a record directly under the root. -/
def parentDir (buffer : List Byte) (j : Nat) : Option Nat :=
  (enclosingDirs buffer 2 j).getLast?

/-- The records among 2..N that lie directly in the same directory (or
directly under the root) have pairwise distinct names. -/
def SiblingNamesDistinct (buffer fd : List Byte) (filename_base_offset N : Nat) : Prop :=
  ∀ j : Nat, 2 ≤ j → j ≤ N → ∀ k : Nat, 2 ≤ k → k ≤ N → j ≠ k →
    parentDir buffer j = parentDir buffer k →
    recordName buffer fd filename_base_offset (j : Nat) ≠
      recordName buffer fd filename_base_offset (k : Nat)

instance (buffer fd : List Byte) (base N : Nat) :
    Decidable (SiblingNamesDistinct buffer fd base N) := by
  unfold SiblingNamesDistinct; infer_instance

/-- No name of a record among 2..N contains '/'. -/
def NoSlashInNames (buffer fd : List Byte) (filename_base_offset N : Nat) : Prop :=
  ∀ j : Nat, 2 ≤ j → j ≤ N →
    (0x2F : Byte) ∉ recordName buffer fd filename_base_offset (j : Nat)

instance (buffer fd : List Byte) (base N : Nat) :
    Decidable (NoSlashInNames buffer fd base N) := by
  unfold NoSlashInNames; infer_instance

/-- Example table of 4 records: the root, the file "a/b" at index 2, the
directory "a" at index 3 with third field 4, and the file "b" at index 4. -/
def exSlash : List Byte :=
  record12 0x01000000 0 4 ++ record12 0 0x100 10 ++ record12 0x01000004 0 4
    ++ record12 6 0x200 20

/-- Example string table: "a/b", "a", "b", each NUL-terminated. -/
def exSlashStrings : List Byte := bytes "a/b" ++ [0] ++ bytes "a" ++ [0] ++ bytes "b" ++ [0]

/-- The big-endian u32 at image offset 0x424: the offset of the directory
table (`fst_chunk`). -/
def directoryTableOffset (fd : List Byte) : Nat := (BE_32 (readAt fd 0 0x440) 0x424).getD 0

/-- The third field of the first record of the directory table: the number of
records `N`, as an unsigned 32-bit value. -/
def recordCount (fd : List Byte) : Nat :=
  (BE_32 (readAt fd (directoryTableOffset fd) 12) 8).getD 0

/-- The `file_records` array of `gcfs_init` for a table of `N` records: the
first record, read on its own, followed by the other `N - 1` records. -/
def directoryTable (fd : List Byte) : List Byte :=
  readAt fd (directoryTableOffset fd) 12
    ++ readAt fd (directoryTableOffset fd + 12) (12 * recordCount fd - 12)

/-- The string table base as the specification words it: the position
immediately after the `N` directory records. -/
def stringTableBase (fd : List Byte) : Nat := directoryTableOffset fd + 12 * recordCount fd

/-- Example boot header: game code "GAFE", publisher code "01", title
"Test Game", executable at 0x440, directory table at 0x1000540. -/
def exFarHeader : List Byte :=
  padTo 0x420 (padTo 0x20 (bytes "GAFE01") ++ bytes "Test Game") ++ be32 0x440
    ++ be32 0x1000540 ++ List.replicate 0x18 0

/-- Example table of 2 records: the root and a file whose first field is
0xFEFFFAC8 (directory flag clear). -/
def exFarTable : List Byte := record12 0x01000000 0 2 ++ record12 0xFEFFFAC8 0x100 10

/-- The 0x1000000 NUL bytes between the executable header and the directory
table of `exFarImage`. -/
@[irreducible] def exFarPadding : List Byte := List.replicate 0x1000000 0

/-- Example image of 0x1000558 bytes: the header, the executable header at
0x440, padding, and the directory table at 0x1000540; the string table, at
0x1000558, is empty. -/
def exFarImage : List Byte := exFarHeader ++ exDol ++ exFarPadding ++ exFarTable

/-- The string `S` is a name read at image offset `filename_offset`: its bytes
are printable, and the `k`-th is the byte of the image at `filename_offset + k`
whenever that offset lies inside the image (`read` behind the end of the image
delivers nothing and the loop goes on with the byte already in the buffer). -/
def NameAt (fd : List Byte) (filename_offset : Nat) (S : List Byte) : Prop :=
  (∀ b ∈ S, isprint b = true) ∧
  ∀ k, k < S.length → filename_offset + k < fd.length → S[k]? = fd[filename_offset + k]?

/-- The directory prefixes of the walk whose loop bodies are `trace`: the empty
prefix, and a prefix extended by the name of a record with the directory flag
set, read at `((field0 with bit 24 cleared) + filename_base_offset) mod 2^32`
by a loop body of the trace, followed by '/'. -/
inductive PathFrom (buffer fd : List Byte) (filename_base_offset : Nat) (trace : List Visit) :
    List Byte → Prop
  | root : PathFrom buffer fd filename_base_offset trace []
  | dir (P S : List Byte) (i : Int) (field0 : Nat) :
      PathFrom buffer fd filename_base_offset trace P →
      (∃ v ∈ trace, v.i = i) → recordField buffer i 0 = some field0 →
      field0 &&& 0x01000000 ≠ 0 →
      NameAt fd (((field0 &&& 0xFEFFFFFF) + filename_base_offset) % 4294967296) S →
      PathFrom buffer fd filename_base_offset trace (P ++ S ++ [0x2F])

/-- The entry `t` comes from a loop body of the walk whose loop bodies are
`trace`: the body executed for a record `i` with the directory flag clear; the
entry carries that record's second and third fields and its name is a
directory prefix of the walk followed by the name read at
`((field0 with bit 24 cleared) + filename_base_offset) mod 2^32`. -/
def EntryFrom (buffer fd : List Byte) (filename_base_offset : Nat) (trace : List Visit)
    (t : TreeEntry) : Prop :=
  ∃ (P S : List Byte) (i : Int) (field0 field1 field2 : Nat),
    PathFrom buffer fd filename_base_offset trace P ∧ (∃ v ∈ trace, v.i = i) ∧
    recordField buffer i 0 = some field0 ∧ recordField buffer i 4 = some field1 ∧
    recordField buffer i 8 = some field2 ∧ field0 &&& 0x01000000 = 0 ∧
    NameAt fd (((field0 &&& 0xFEFFFFFF) + filename_base_offset) % 4294967296) S ∧
    t = TreeEntry.mk (P ++ S) (P ++ S).length field1 field2

/-! ## Basic facts about the embedding -/

theorem wrap32_eq_self (x : Int) (h1 : -2147483648 ≤ x) (h2 : x < 2147483648) : wrap32 x = x := by
  unfold wrap32; omega

theorem BE_32_isSome (x : List Byte) (k : Nat) (h : k + 3 < x.length) : ∃ v, BE_32 x k = some v := by
  unfold BE_32
  have h0 : k < x.length := by omega
  have h1 : k + 1 < x.length := by omega
  have h2 : k + 2 < x.length := by omega
  simp [List.getElem?_eq_getElem, h0, h1, h2, h]

theorem recordField_eq (buffer : List Byte) (i : Nat) (k : Nat)
    (hsz : 12 * i < 2147483648) (hi1 : 1 ≤ i) (hk8 : k ≤ 8) :
    recordField buffer i k = BE_32 buffer ((i - 1) * 12 + k) := by
  unfold recordField
  have e1 : wrap32 ((i : Int) - 1) = (i : Int) - 1 := wrap32_eq_self _ (by omega) (by omega)
  have e2 : wrap32 (((i : Int) - 1) * 12) = ((i : Int) - 1) * 12 :=
    wrap32_eq_self _ (by omega) (by omega)
  have e3 : wrap32 (((i : Int) - 1) * 12 + k) = ((i : Int) - 1) * 12 + k :=
    wrap32_eq_self _ (by omega) (by omega)
  simp only [e1, e2, e3]
  have hneg : ¬ (((i : Int) - 1) * 12 + (k : Int) < 0) := by omega
  have hnat : (((i : Int) - 1) * 12 + (k : Int)).toNat = (i - 1) * 12 + k := by omega
  rw [if_neg hneg, hnat]

theorem recordField_isSome (buffer : List Byte) (N i : Nat) (k : Nat)
    (hlen : buffer.length = 12 * N) (hsz : 12 * N < 2147483648)
    (hi1 : 1 ≤ i) (hi2 : i ≤ N) (hk8 : k ≤ 8) :
    ∃ v, recordField buffer i k = some v := by
  rw [recordField_eq buffer i k (by omega) hi1 hk8]
  have h3 : (i - 1) * 12 + k + 3 < buffer.length := by
    rw [hlen]; omega
  exact BE_32_isSome buffer ((i - 1) * 12 + k) h3

theorem recurseLoop_done (buffer fd : List Byte) (base fuel : Nat) (s e : Int) (sni : Nat)
    (i : Int) (w : Walk) (h : e < i) :
    recurseLoop buffer fd base (fuel + 1) s e sni i w = w := by
  rw [recurseLoop, if_pos h]

/-- The loop body on a decodable record: the unfolding of one iteration. -/
theorem recurseLoop_step (buffer fd : List Byte) (base fuel : Nat) (s e : Int) (sni : Nat)
    (i : Int) (w : Walk) (h : ¬ e < i) (f0 f1 f2 : Nat)
    (h0 : recordField buffer i 0 = some f0) (h4 : recordField buffer i 4 = some f1)
    (h8 : recordField buffer i 8 = some f2) :
    recurseLoop buffer fd base (fuel + 1) s e sni i w =
      match getFilename fd (((f0 &&& 0xFEFFFFFF) + base) % 4294967296) w.name_buffer sni with
      | .error idx =>
        { w with trace := w.trace ++ [Visit.mk i s e], fault := some (Fault.nameBufferOverflow idx) }
      | .ok (name_buffer, name_index) =>
        if f0 &&& 0x01000000 ≠ 0 then
          match appendSlash name_buffer name_index with
          | .error idx =>
            { w with trace := w.trace ++ [Visit.mk i s e],
                     fault := some (Fault.nameBufferOverflow idx) }
          | .ok (name_buffer, name_index) =>
            let sub := recurseLoop buffer fd base fuel (wrap32 (i + 1)) (wrap32 f2)
              name_index (wrap32 (i + 1))
              { w with trace := w.trace ++ [Visit.mk i s e], name_buffer := name_buffer }
            if sub.fault.isSome then sub else
            recurseLoop buffer fd base fuel s e sni
              (wrap32 (wrap32 (i + wrap32 (wrap32 (wrap32 f2 - wrap32 (i + 1)) + 1)) + 1)) sub
        else
          recurseLoop buffer fd base fuel s e sni (wrap32 (i + 1))
            { w with trace := w.trace ++ [Visit.mk i s e], name_buffer := name_buffer,
                     tree := w.tree ++ [TreeEntry.mk (cstring name_buffer)
                        (cstring name_buffer).length f1 f2] } := by
  rw [recurseLoop, if_neg h]
  simp only [h0, h4, h8]


theorem subtreeEnd_eq (buffer : List Byte) (i : Int) (f2 : Nat)
    (h8 : recordField buffer i 8 = some f2) : subtreeEnd buffer i = wrap32 f2 := by
  unfold subtreeEnd; rw [h8]

theorem isDirRecord_eq (buffer : List Byte) (i : Int) (f0 : Nat)
    (h0 : recordField buffer i 0 = some f0) :
    isDirRecord buffer i = true ↔ f0 &&& 0x01000000 ≠ 0 := by
  unfold isDirRecord; rw [h0]; simp

theorem range_split (i f e : Nat) (h1 : i ≤ f) (h2 : f ≤ e) :
    [i] ++ List.range' (i + 1) (f + 1 - (i + 1)) ++ List.range' (f + 1) (e + 1 - (f + 1)) =
      List.range' i (e + 1 - i) := by
  have a : f + 1 - (i + 1) = f - i := by omega
  have b : e + 1 - (f + 1) = e - f := by omega
  have c : e + 1 - i = (e - f) + (f - i) + 1 := by omega
  have d : f + 1 = (i + 1) + (f - i) := by omega
  rw [a, b, c, List.range'_succ, List.append_assoc]
  simp only [List.singleton_append, List.cons.injEq, true_and]
  rw [d, List.range'_append_1]

theorem loop_visits (buffer fd : List Byte) (base N : Nat)
    (hlen : buffer.length = 12 * N) (hsz : 12 * N < 2147483648) (hnest : WellNested buffer N) :
    ∀ (fuel : Nat) (s : Int) (e i sni : Nat) (w : Walk),
      2 ≤ i → i ≤ e + 1 → e ≤ N → e + 2 ≤ fuel + i → w.fault = none →
      (∀ j : Nat, i ≤ j → j ≤ e → isDirRecord buffer j = true → subtreeEnd buffer j ≤ e) →
      (∀ idx, (recurseLoop buffer fd base fuel s e sni i w).fault ≠
        some (Fault.nameBufferOverflow idx)) →
      (recurseLoop buffer fd base fuel s e sni i w).fault = none ∧
      (recurseLoop buffer fd base fuel s e sni i w).trace.map Visit.i =
        w.trace.map Visit.i ++ (List.range' i (e + 1 - i)).map (fun (k : Nat) => (k : Int)) := by
  intro fuel
  induction fuel with
  | zero =>
    intro s e i sni w h2 hie heN hfuel hw hcl hname
    omega
  | succ fuel ih =>
    intro s e i sni w h2 hie heN hfuel hw hcl hname
    by_cases hdone : (e : Int) < (i : Int)
    · rw [recurseLoop_done _ _ _ _ _ _ _ _ _ hdone]
      have : e + 1 - i = 0 := by omega
      simp [hw, this]
    · have hile : i ≤ e := by omega
      obtain ⟨f0, h0⟩ := recordField_isSome buffer N i 0 hlen hsz (by omega) (by omega) (by omega)
      obtain ⟨f1, h4⟩ := recordField_isSome buffer N i 4 hlen hsz (by omega) (by omega) (by omega)
      obtain ⟨f2, h8⟩ := recordField_isSome buffer N i 8 hlen hsz (by omega) (by omega) (by omega)
      simp only [Nat.cast_ofNat, Nat.cast_zero] at h0 h4 h8
      have hstep := recurseLoop_step buffer fd base fuel s e sni i w hdone f0 f1 f2 h0 h4 h8
      rw [hstep] at hname ⊢
      have hi1 : wrap32 ((i : Int) + 1) = ((i + 1 : Nat) : Int) := by
        rw [wrap32_eq_self _ (by omega) (by omega)]; push_cast; rfl
      cases hg : getFilename fd (((f0 &&& 0xFEFFFFFF) + base) % 4294967296) w.name_buffer sni with
      | error idx =>
        rw [hg] at hname
        exact absurd rfl (hname idx)
      | ok p =>
        obtain ⟨nb, ni⟩ := p
        rw [hg] at hname
        simp only at hname ⊢
        by_cases hdir : f0 &&& 0x01000000 ≠ 0
        · rw [if_pos hdir] at hname ⊢
          cases ha : appendSlash nb ni with
          | error idx =>
            rw [ha] at hname
            exact absurd rfl (hname idx)
          | ok q =>
            obtain ⟨nb2, ni2⟩ := q
            rw [ha] at hname
            simp only at hname ⊢
            have hd : isDirRecord buffer i = true := (isDirRecord_eq buffer i f0 h0).2 hdir
            have hse := subtreeEnd_eq buffer i f2 h8
            obtain ⟨hn1, hn2, hn3⟩ := hnest i h2 (by omega) hd
            have hfe := hcl i (le_refl _) hile hd
            rw [hse] at hn1 hn2 hn3 hfe
            obtain ⟨f, hf⟩ : ∃ f : Nat, wrap32 (f2 : Int) = (f : Int) :=
              ⟨(wrap32 (f2 : Int)).toNat, by omega⟩
            rw [hf] at hn1 hn2 hn3 hfe hname ⊢
            have hif : i ≤ f := by omega
            have hfe2 : f ≤ e := by omega
            have hret : wrap32 (wrap32 ((i : Int) + wrap32 (wrap32 ((f : Int) - wrap32 ((i : Int) + 1)) + 1)) + 1)
                = ((f + 1 : Nat) : Int) := by
              rw [wrap32_eq_self ((i : Int) + 1) (by omega) (by omega)]
              rw [wrap32_eq_self ((f : Int) - ((i : Int) + 1)) (by omega) (by omega)]
              rw [wrap32_eq_self ((f : Int) - ((i : Int) + 1) + 1) (by omega) (by omega)]
              rw [wrap32_eq_self ((i : Int) + ((f : Int) - ((i : Int) + 1) + 1)) (by omega) (by omega)]
              rw [wrap32_eq_self _ (by omega) (by omega)]
              push_cast; omega
            rw [hret, hi1] at hname ⊢
            generalize hw1 : Walk.mk nb2 w.tree (w.trace ++ [Visit.mk (i : Int) s (e : Int)])
              w.fault = w1 at hname ⊢
            have hw1f : w1.fault = none := by rw [← hw1]; exact hw
            have hw1t : w1.trace.map Visit.i = w.trace.map Visit.i ++ [(i : Int)] := by
              rw [← hw1]; simp
            have hclsub : ∀ j : Nat, i + 1 ≤ j → j ≤ f → isDirRecord buffer j = true →
                subtreeEnd buffer j ≤ f := by
              intro j hj1 hj2 hjd
              exact hn3 j hj1 (by omega) (by omega) hjd
            have hclrest : ∀ j : Nat, f + 1 ≤ j → j ≤ e → isDirRecord buffer j = true →
                subtreeEnd buffer j ≤ e := by
              intro j hj1 hj2 hjd
              exact hcl j (by omega) hj2 hjd
            by_cases hsub : (recurseLoop buffer fd base fuel ((i + 1 : Nat) : Int) (f : Int) ni2
                ((i + 1 : Nat) : Int) w1).fault.isSome = true
            · rw [if_pos hsub] at hname ⊢
              have := ih ((i + 1 : Nat) : Int) f (i + 1) ni2 w1 (by omega) (by omega) (by omega)
                (by omega) hw1f hclsub hname
              rw [this.1] at hsub
              simp at hsub
            · rw [if_neg hsub] at hname ⊢
              have hsubnone : (recurseLoop buffer fd base fuel ((i + 1 : Nat) : Int) (f : Int) ni2
                ((i + 1 : Nat) : Int) w1).fault = none := by
                simpa using hsub
              have ihsub := ih ((i + 1 : Nat) : Int) f (i + 1) ni2 w1 (by omega) (by omega)
                (by omega) (by omega) hw1f hclsub (by rw [hsubnone]; simp)
              have ihrest := ih s e (f + 1) sni _ (by omega) (by omega) heN (by omega) hsubnone
                hclrest hname
              refine ⟨ihrest.1, ?_⟩
              rw [ihrest.2, ihsub.2, hw1t, ← range_split i f e hif hfe2]
              simp [List.append_assoc]
        · rw [if_neg hdir] at hname ⊢
          rw [hi1] at hname ⊢
          have hclrest : ∀ j : Nat, i + 1 ≤ j → j ≤ e → isDirRecord buffer j = true →
              subtreeEnd buffer j ≤ e := by
            intro j hj1 hj2 hjd
            exact hcl j (by omega) hj2 hjd
          generalize hw2 : Walk.mk nb (w.tree ++ [TreeEntry.mk (cstring nb) (cstring nb).length
            f1 f2]) (w.trace ++ [Visit.mk (i : Int) s (e : Int)]) w.fault = w2 at hname ⊢
          have hw2f : w2.fault = none := by rw [← hw2]; exact hw
          have hw2t : w2.trace.map Visit.i = w.trace.map Visit.i ++ [(i : Int)] := by
            rw [← hw2]; simp
          have ihrest := ih s e (i + 1) sni w2 (by omega) (by omega) heN (by omega) hw2f
            hclrest hname
          refine ⟨ihrest.1, ?_⟩
          rw [ihrest.2, hw2t]
          have : e + 1 - i = (e + 1 - (i + 1)) + 1 := by omega
          rw [this, List.range'_succ]
          simp

/-! ## The name loop and the paths of the walk -/

theorem isprint_ne_zero (c : Byte) (h : isprint c = true) : c ≠ 0 := by
  intro hc
  subst hc
  simp [isprint] at h

/-- The name loop on a terminated name that fits: the printable bytes and the
terminator are stored behind the prefix `P`. -/
theorem readName_spec (fd : List Byte) :
    ∀ (n pos : Nat) (P T : List Byte),
      pos + ((fd.drop pos).takeWhile isprint).length < fd.length →
      ((fd.drop pos).takeWhile isprint).length + 1 ≤ n →
      ((fd.drop pos).takeWhile isprint).length + 1 ≤ T.length →
      P.length + ((fd.drop pos).takeWhile isprint).length ≤ NAME_MAX_SIZE - 1 →
      ∃ t : Byte, readName fd n pos (P ++ T) P.length =
        .ok (P ++ (fd.drop pos).takeWhile isprint ++
              t :: T.drop (((fd.drop pos).takeWhile isprint).length + 1),
             P.length + ((fd.drop pos).takeWhile isprint).length) := by
  intro n
  induction n with
  | zero => intro pos P T h1 h2; omega
  | succ n ih =>
    intro pos P T hterm hn hT hfit
    have hpos : pos < fd.length := by omega
    have hdrop : fd.drop pos = fd[pos] :: fd.drop (pos + 1) := List.drop_eq_getElem_cons hpos
    have hget : fd[pos]? = some fd[pos] := List.getElem?_eq_getElem hpos
    obtain ⟨x, T1, hTx⟩ : ∃ x T1, T = x :: T1 := by
      cases T with
      | nil => simp at hT
      | cons x T1 => exact ⟨x, T1, rfl⟩
    subst hTx
    rw [readName]
    have hlen : ¬ ((P ++ x :: T1).length ≤ P.length) := by simp
    rw [if_neg hlen]
    simp only [hget, if_pos hpos]
    have hset : (P ++ x :: T1).set P.length fd[pos] = P ++ fd[pos] :: T1 := by
      rw [List.set_append_right _ _ (le_refl _)]; simp
    have hgetD : (P ++ fd[pos] :: T1).getD P.length 0 = fd[pos] := by
      rw [List.getD_append_right _ _ _ _ (le_refl _)]; simp
    rw [hset, hgetD]
    by_cases hp : isprint fd[pos] = true
    · rw [if_pos hp]
      have htw : (fd.drop pos).takeWhile isprint =
          fd[pos] :: (fd.drop (pos + 1)).takeWhile isprint := by
        rw [hdrop, List.takeWhile_cons, if_pos hp]
      rw [htw] at hterm hn hT hfit ⊢
      simp only [List.length_cons] at hterm hn hT hfit ⊢
      have hlt : P.length < NAME_MAX_SIZE - 1 := by omega
      rw [if_pos hlt]
      have := ih (pos + 1) (P ++ [fd[pos]]) T1 (by omega) (by omega) (by omega)
        (by simp only [List.length_append, List.length_singleton]; omega)
      obtain ⟨t, ht⟩ := this
      refine ⟨t, ?_⟩
      simp only [List.length_append, List.length_singleton, List.append_assoc,
        List.singleton_append] at ht
      rw [ht]
      simp only [List.drop_succ_cons, List.cons_append, List.append_assoc]
      congr 2
      omega
    · have hp' : isprint fd[pos] = false := by simpa using hp
      have htw : (fd.drop pos).takeWhile isprint = [] := by
        rw [hdrop, List.takeWhile_cons]; simp [hp']
      rw [htw]
      simp [hp']


theorem store_append_cons (A X : List Byte) (t b : Byte) :
    store (A ++ t :: X) A.length b = some (A ++ b :: X) := by
  unfold store
  have h : A.length < (A ++ t :: X).length := by simp
  rw [if_pos h, List.set_append_right _ _ (le_refl _)]
  simp

/-- Lines 176-183 on a terminated name that fits behind the prefix `P`. -/
theorem getFilename_spec (fd : List Byte) (pos : Nat) (P T : List Byte)
    (hterm : pos + ((fd.drop pos).takeWhile isprint).length < fd.length)
    (hlen : (P ++ T).length = NAME_MAX_SIZE)
    (hfit : P.length + ((fd.drop pos).takeWhile isprint).length < NAME_MAX_SIZE) :
    getFilename fd pos (P ++ T) P.length =
      .ok (P ++ (fd.drop pos).takeWhile isprint ++
            0 :: T.drop (((fd.drop pos).takeWhile isprint).length + 1),
           P.length + ((fd.drop pos).takeWhile isprint).length) := by
  have hN : NAME_MAX_SIZE = 1024 := rfl
  rw [List.length_append] at hlen
  obtain ⟨t, ht⟩ := readName_spec fd NAME_MAX_SIZE pos P T hterm (by omega) (by omega) (by omega)
  unfold getFilename
  rw [ht]
  simp only
  have hl : (P ++ (fd.drop pos).takeWhile isprint).length =
      P.length + ((fd.drop pos).takeWhile isprint).length := by simp
  rw [← hl, store_append_cons]

theorem cstring_append_zero (A X : List Byte) (hA : ∀ b ∈ A, b ≠ 0) :
    cstring (A ++ 0 :: X) = A := by
  unfold cstring
  rw [List.takeWhile_append_of_pos (by intro a ha; simpa using hA a ha)]
  simp

theorem takeWhile_isprint_ne_zero (l : List Byte) : ∀ b ∈ l.takeWhile isprint, b ≠ 0 := by
  intro b hb
  exact isprint_ne_zero b (List.mem_takeWhile_imp hb)

/-- Lines 186-187 when two more bytes fit. -/
theorem appendSlash_spec (A X : List Byte) (t y : Byte) :
    appendSlash (A ++ t :: y :: X) A.length = .ok (A ++ 0x2F :: 0 :: X, A.length + 1) := by
  unfold appendSlash
  rw [store_append_cons]
  simp only
  have h : A ++ (0x2F : Byte) :: y :: X = (A ++ [0x2F]) ++ y :: X := by simp
  have hl : A.length + 1 = (A ++ [(0x2F : Byte)]).length := by simp
  rw [h, hl, store_append_cons]
  simp


theorem nameOffset_eq (buffer : List Byte) (base : Nat) (i : Int) (f0 : Nat)
    (h0 : recordField buffer i 0 = some f0) :
    nameOffset buffer base i = ((f0 &&& 0xFEFFFFFF) + base) % 4294967296 := by
  unfold nameOffset; rw [h0]

theorem dirPrefixFrom_ge (buffer fd : List Byte) (base lo j : Nat) (h : j ≤ lo) :
    dirPrefixFrom buffer fd base lo j = [] := by
  unfold dirPrefixFrom enclosingDirs
  have : j - lo = 0 := by omega
  rw [this]
  rfl

theorem dirPrefixFrom_succ (buffer fd : List Byte) (base lo j : Nat) (h : lo < j) :
    dirPrefixFrom buffer fd base lo j =
      (if isDirRecord buffer (lo : Nat) = true ∧ (j : Int) ≤ subtreeEnd buffer (lo : Nat)
        then recordName buffer fd base (lo : Nat) ++ [0x2F] else [])
      ++ dirPrefixFrom buffer fd base (lo + 1) j := by
  unfold dirPrefixFrom enclosingDirs
  have : j - lo = (j - (lo + 1)) + 1 := by omega
  rw [this, List.range'_succ, List.filter_cons]
  by_cases hc : isDirRecord buffer (lo : Nat) = true ∧ (j : Int) ≤ subtreeEnd buffer (lo : Nat)
  · have hb : (isDirRecord buffer (lo : Nat) &&
        decide ((j : Int) ≤ subtreeEnd buffer (lo : Nat))) = true := by
      simp [hc.1, hc.2]
    rw [if_pos hb, if_pos hc, List.flatMap_cons]
  · have hb : ¬ ((isDirRecord buffer (lo : Nat) &&
        decide ((j : Int) ≤ subtreeEnd buffer (lo : Nat))) = true) := by
      simpa using hc
    rw [if_neg hb, if_neg hc, List.nil_append]

/-- Directories that end before `j` contribute nothing to the prefix of `j`. -/
theorem dirPrefixFrom_skip (buffer fd : List Byte) (base j hi : Nat) :
    ∀ (d lo : Nat), lo + d = hi → hi ≤ j →
      (∀ k : Nat, lo ≤ k → k < hi → isDirRecord buffer (k : Nat) = true →
        subtreeEnd buffer (k : Nat) < (j : Int)) →
      dirPrefixFrom buffer fd base lo j = dirPrefixFrom buffer fd base hi j := by
  intro d
  induction d with
  | zero => intro lo h1 _ _; simp at h1; rw [h1]
  | succ d ih =>
    intro lo h1 h2 h3
    rw [dirPrefixFrom_succ buffer fd base lo j (by omega)]
    have hc : ¬ (isDirRecord buffer (lo : Nat) = true ∧
        (j : Int) ≤ subtreeEnd buffer (lo : Nat)) := by
      intro hc
      have := h3 lo (le_refl _) (by omega) hc.1
      omega
    rw [if_neg hc, List.nil_append]
    exact ih (lo + 1) (by omega) h2 (fun k hk1 hk2 hk3 => h3 k (by omega) hk2 hk3)


theorem filesIn_empty (buffer : List Byte) (i e : Nat) (h : e < i) : filesIn buffer i e = [] := by
  unfold filesIn
  have : e + 1 - i = 0 := by omega
  rw [this]; rfl

theorem mem_filesIn (buffer : List Byte) (i e j : Nat) (h : j ∈ filesIn buffer i e) :
    i ≤ j ∧ j ≤ e := by
  unfold filesIn at h
  have := (List.mem_range'_1.1 (List.mem_filter.1 h).1)
  omega

theorem filesIn_file (buffer : List Byte) (i e : Nat) (h : i ≤ e)
    (hf : isDirRecord buffer (i : Nat) = false) :
    filesIn buffer i e = i :: filesIn buffer (i + 1) e := by
  unfold filesIn
  have : e + 1 - i = (e + 1 - (i + 1)) + 1 := by omega
  rw [this, List.range'_succ, List.filter_cons]
  simp [hf]

theorem filesIn_dir (buffer : List Byte) (i f e : Nat) (h1 : i ≤ f) (h2 : f ≤ e)
    (hd : isDirRecord buffer (i : Nat) = true) :
    filesIn buffer i e = filesIn buffer (i + 1) f ++ filesIn buffer (f + 1) e := by
  unfold filesIn
  rw [← range_split i f e h1 h2, List.filter_append, List.filter_append]
  simp [hd]


theorem fileOffset_eq (buffer : List Byte) (i : Int) (f1 : Nat)
    (h4 : recordField buffer i 4 = some f1) : fileOffset buffer i = f1 := by
  unfold fileOffset; rw [h4]; rfl

theorem fileSize_eq (buffer : List Byte) (i : Int) (f2 : Nat)
    (h8 : recordField buffer i 8 = some f2) : fileSize buffer i = f2 := by
  unfold fileSize; rw [h8]; rfl

theorem entryFrom_congr (buffer fd : List Byte) (base : Nat) (P Q : List Byte) (lo lo2 j : Nat)
    (h : P ++ dirPrefixFrom buffer fd base lo j = Q ++ dirPrefixFrom buffer fd base lo2 j) :
    entryFrom buffer fd base P lo j = entryFrom buffer fd base Q lo2 j := by
  unfold entryFrom
  rw [h]

/-- The walk of a range of a well-nested table whose names are terminated and
fit: the state after the loop. -/
theorem loop_paths (buffer fd : List Byte) (base N : Nat)
    (hlen : buffer.length = 12 * N) (hsz : 12 * N < 2147483648) (hnest : WellNested buffer N) :
    ∀ (fuel : Nat) (s : Int) (e i : Nat) (P T : List Byte) (tree : List TreeEntry)
      (trace : List Visit),
      2 ≤ i → i ≤ e + 1 → e ≤ N → e + 2 ≤ fuel + i →
      (P ++ T).length = NAME_MAX_SIZE → (∀ b ∈ P, b ≠ 0) →
      (∀ j : Nat, i ≤ j → j ≤ e → isDirRecord buffer (j : Nat) = true →
        subtreeEnd buffer (j : Nat) ≤ e) →
      (∀ j : Nat, i ≤ j → j ≤ e → NameTerminated buffer fd base (j : Nat) ∧
         P.length + (dirPrefixFrom buffer fd base i j).length
           + (recordName buffer fd base (j : Nat)).length
           + (if isDirRecord buffer (j : Nat) = true then 1 else 0) < NAME_MAX_SIZE) →
      ∃ (T' : List Byte) (trace' : List Visit),
        recurseLoop buffer fd base fuel s e P.length i (Walk.mk (P ++ T) tree trace none) =
          Walk.mk (P ++ T')
            (tree ++ (filesIn buffer i e).map (entryFrom buffer fd base P i)) trace' none
        ∧ T'.length = T.length := by
  intro fuel
  induction fuel with
  | zero =>
    intro s e i P T tree trace h2 hie heN hfuel hPT hP hcl hnames
    omega
  | succ fuel ih =>
    intro s e i P T tree trace h2 hie heN hfuel hPT hP hcl hnames
    by_cases hdone : (e : Int) < (i : Int)
    · rw [recurseLoop_done _ _ _ _ _ _ _ _ _ hdone, filesIn_empty buffer i e (by omega)]
      exact ⟨T, trace, by simp, rfl⟩
    · have hile : i ≤ e := by omega
      obtain ⟨f0, h0⟩ := recordField_isSome buffer N i 0 hlen hsz (by omega) (by omega) (by omega)
      obtain ⟨f1, h4⟩ := recordField_isSome buffer N i 4 hlen hsz (by omega) (by omega) (by omega)
      obtain ⟨f2, h8⟩ := recordField_isSome buffer N i 8 hlen hsz (by omega) (by omega) (by omega)
      simp only [Nat.cast_ofNat, Nat.cast_zero] at h0 h4 h8
      rw [recurseLoop_step buffer fd base fuel s e P.length i _ hdone f0 f1 f2 h0 h4 h8]
      simp only
      have hi1 : wrap32 ((i : Int) + 1) = ((i + 1 : Nat) : Int) := by
        rw [wrap32_eq_self _ (by omega) (by omega)]; push_cast; rfl
      obtain ⟨hterm, hfit⟩ := hnames i (le_refl _) hile
      rw [dirPrefixFrom_ge buffer fd base i i (le_refl _)] at hfit
      unfold NameTerminated at hterm
      rw [← nameOffset_eq buffer base i f0 h0]
      generalize hpos : nameOffset buffer base (i : Nat) = pos at hterm
      have hname : recordName buffer fd base (i : Nat) = (fd.drop pos).takeWhile isprint := by
        unfold recordName; rw [hpos]
      generalize hnm : recordName buffer fd base (i : Nat) = name at hterm hfit hname
      simp only [List.length_nil, Nat.add_zero] at hfit
      have hPTl := hPT
      rw [List.length_append] at hPTl
      have hgf := getFilename_spec fd pos P T (by rw [← hname]; exact hterm) hPT
        (by rw [← hname]; omega)
      rw [← hname] at hgf
      rw [hgf]
      simp only
      have hA : ∀ b ∈ P ++ name, b ≠ 0 := by
        intro b hb
        rcases List.mem_append.1 hb with h | h
        · exact hP b h
        · rw [hname] at h; exact takeWhile_isprint_ne_zero _ b h
      by_cases hdir : f0 &&& 0x01000000 ≠ 0
      · rw [if_pos hdir]
        have hd : isDirRecord buffer (i : Nat) = true := (isDirRecord_eq buffer i f0 h0).2 hdir
        rw [if_pos hd] at hfit
        have hse := subtreeEnd_eq buffer i f2 h8
        obtain ⟨hn1, hn2, hn3⟩ := hnest i h2 (by omega) hd
        have hfe := hcl i (le_refl _) hile hd
        obtain ⟨f, hf⟩ : ∃ f : Nat, wrap32 (f2 : Int) = (f : Int) := by
          rw [hse] at hn1
          have hge : 0 ≤ wrap32 (f2 : Int) := le_trans (Int.natCast_nonneg i) hn1
          exact ⟨(wrap32 (f2 : Int)).toNat, (Int.toNat_of_nonneg hge).symm⟩
        rw [hse, hf] at hn1 hn2 hfe
        have hif : i ≤ f := by omega
        have hfe2 : f ≤ e := by omega
        have hret : wrap32 (wrap32 ((i : Int) + wrap32 (wrap32 (wrap32 (f2 : Int)
            - wrap32 ((i : Int) + 1)) + 1)) + 1) = ((f + 1 : Nat) : Int) := by
          rw [hf, wrap32_eq_self ((i : Int) + 1) (by omega) (by omega)]
          rw [wrap32_eq_self ((f : Int) - ((i : Int) + 1)) (by omega) (by omega)]
          rw [wrap32_eq_self ((f : Int) - ((i : Int) + 1) + 1) (by omega) (by omega)]
          rw [wrap32_eq_self ((i : Int) + ((f : Int) - ((i : Int) + 1) + 1)) (by omega)
            (by omega)]
          rw [wrap32_eq_self _ (by omega) (by omega)]
          push_cast; omega
        obtain ⟨y, X1, hX⟩ : ∃ y X1, T.drop (name.length + 1) = y :: X1 := by
          cases hT : T.drop (name.length + 1) with
          | nil =>
            have := congrArg List.length hT
            simp only [List.length_drop, List.length_nil] at this
            omega
          | cons y X1 => exact ⟨y, X1, rfl⟩
        have hXl : X1.length + 1 = T.length - (name.length + 1) := by
          have := congrArg List.length hX
          simp only [List.length_drop, List.length_cons] at this
          omega
        rw [hX]
        have hAl : P.length + name.length = (P ++ name).length := by simp
        rw [hAl, appendSlash_spec (P ++ name) X1 0 y]
        simp only
        rw [hret, hi1, hf]
        clear hret
        have hPq : P ++ name ++ (0x2F : Byte) :: 0 :: X1 = (P ++ name ++ [0x2F]) ++ 0 :: X1 := by
          simp
        have hPl : (P ++ name).length + 1 = (P ++ name ++ [(0x2F : Byte)]).length := by
          rw [List.length_append (P ++ name), List.length_singleton]
        rw [hPq, hPl]
        have hP' : ∀ b ∈ P ++ name ++ [(0x2F : Byte)], b ≠ 0 := by
          intro b hb
          rcases List.mem_append.1 hb with h | h
          · exact hA b h
          · simp at h; rw [h]; decide
        have hpre : ∀ j : Nat, i + 1 ≤ j → j ≤ f →
            dirPrefixFrom buffer fd base i j = name ++ [0x2F] ++ dirPrefixFrom buffer fd base (i + 1) j := by
          intro j hj1 hj2
          have hc : isDirRecord buffer (i : Nat) = true ∧
              (j : Int) ≤ subtreeEnd buffer (i : Nat) := by
            refine ⟨hd, ?_⟩
            rw [hse, hf]
            exact_mod_cast hj2
          have hlt : i < j := by omega
          rw [dirPrefixFrom_succ buffer fd base i j hlt, if_pos hc, hnm]
        have hskip : ∀ j : Nat, f + 1 ≤ j →
            dirPrefixFrom buffer fd base i j = dirPrefixFrom buffer fd base (f + 1) j := by
          intro j hj1
          have hd1 : i + (f + 1 - i) = f + 1 := by omega
          refine dirPrefixFrom_skip buffer fd base j (f + 1) (f + 1 - i) i hd1 hj1 ?_
          intro k hk1 hk2 hk3
          have hj : (f : Int) + 1 ≤ (j : Int) := by exact_mod_cast hj1
          by_cases hki : k = i
          · rw [hki, hse, hf]
            omega
          · have hk4 : i + 1 ≤ k := by omega
            have hk5 : k ≤ N := by omega
            have hk6 : (k : Int) ≤ subtreeEnd buffer (i : Nat) := by
              rw [hse, hf]; exact_mod_cast (show k ≤ f by omega)
            have := hn3 k hk4 hk5 hk6 hk3
            rw [hse, hf] at this
            omega
        obtain ⟨T1, trace1, hsub, hT1⟩ := ih ((i + 1 : Nat) : Int) f (i + 1)
          (P ++ name ++ [0x2F]) (0 :: X1) tree (trace ++ [Visit.mk (i : Int) s (e : Int)])
          (by omega) (by omega) (by omega) (by omega)
          (by simp only [List.length_append, List.length_cons, List.length_nil]; omega) hP'
          (by
            intro j hj1 hj2 hjd
            have := hn3 j hj1 (by omega) (by rw [hse, hf]; omega) hjd
            rw [hse, hf] at this
            exact this)
          (by
            intro j hj1 hj2
            obtain ⟨ht, hl⟩ := hnames j (by omega) (by omega)
            refine ⟨ht, ?_⟩
            rw [hpre j hj1 hj2] at hl
            simp only [List.length_append, List.length_cons, List.length_nil] at hl ⊢
            omega)
        rw [hsub]
        simp only [Option.isSome_none, Bool.false_eq_true, if_false]
        have hPq2 : P ++ name ++ [(0x2F : Byte)] ++ T1 = P ++ (name ++ 0x2F :: T1) := by simp
        rw [hPq2]
        obtain ⟨T2, trace2, hrest, hT2⟩ := ih s e (f + 1) P (name ++ 0x2F :: T1)
          (tree ++ (filesIn buffer (i + 1) f).map
            (entryFrom buffer fd base (P ++ name ++ [0x2F]) (i + 1))) trace1
          (by omega) (by omega) heN (by omega)
          (by
            simp only [List.length_append, List.length_cons, List.length_nil] at hT1 ⊢
            omega) hP
          (fun j hj1 hj2 hjd => hcl j (by omega) hj2 hjd)
          (by
            intro j hj1 hj2
            obtain ⟨ht, hl⟩ := hnames j (by omega) (by omega)
            refine ⟨ht, ?_⟩
            rw [hskip j hj1] at hl
            exact hl)
        rw [hrest]
        refine ⟨T2, trace2, ?_, ?_⟩
        · rw [filesIn_dir buffer i f e hif hfe2 hd, List.map_append, List.append_assoc]
          congr 2
          congr 1
          · apply List.map_congr_left
            intro j hj
            obtain ⟨hj1, hj2⟩ := mem_filesIn buffer (i + 1) f j hj
            apply entryFrom_congr
            rw [hpre j hj1 hj2]
            simp
          · apply List.map_congr_left
            intro j hj
            obtain ⟨hj1, hj2⟩ := mem_filesIn buffer (f + 1) e j hj
            apply entryFrom_congr
            rw [hskip j hj1]
        · rw [hT2]
          simp only [List.length_append, List.length_cons, List.length_nil] at hT1 ⊢
          omega
      · rw [if_neg hdir]
        have hd : isDirRecord buffer (i : Nat) = false := by
          have := (isDirRecord_eq buffer i f0 h0).not.2 hdir
          simpa using this
        rw [hi1]
        rw [cstring_append_zero (P ++ name) _ hA]
        have hnext : ∀ j : Nat, i + 1 ≤ j →
            dirPrefixFrom buffer fd base i j = dirPrefixFrom buffer fd base (i + 1) j := by
          intro j hj1
          rw [dirPrefixFrom_succ buffer fd base i j (by omega)]
          have : ¬ (isDirRecord buffer (i : Nat) = true ∧
              (j : Int) ≤ subtreeEnd buffer (i : Nat)) := by
            rw [hd]; simp
          rw [if_neg this, List.nil_append]
        have hPq : P ++ name ++ (0 : Byte) :: T.drop (name.length + 1) =
            P ++ (name ++ 0 :: T.drop (name.length + 1)) := by simp
        rw [hPq]
        obtain ⟨T2, trace2, hrest, hT2⟩ := ih s e (i + 1) P
          (name ++ 0 :: T.drop (name.length + 1))
          (tree ++ [TreeEntry.mk (P ++ name) (P ++ name).length f1 f2])
          (trace ++ [Visit.mk (i : Int) s (e : Int)])
          (by omega) (by omega) heN (by omega)
          (by
            simp only [List.length_append, List.length_cons, List.length_drop]
            rw [hd] at hfit
            simp only [Bool.false_eq_true, if_false] at hfit
            omega) hP
          (fun j hj1 hj2 hjd => hcl j (by omega) hj2 hjd)
          (by
            intro j hj1 hj2
            obtain ⟨ht, hl⟩ := hnames j (by omega) (by omega)
            refine ⟨ht, ?_⟩
            rw [hnext j hj1] at hl
            exact hl)
        rw [hrest]
        refine ⟨T2, trace2, ?_, ?_⟩
        · rw [filesIn_file buffer i e hile hd, List.map_cons, List.append_assoc]
          congr 2
          simp only [List.singleton_append]
          congr 1
          · unfold entryFrom
            rw [dirPrefixFrom_ge buffer fd base i i (le_refl _), hnm,
              fileOffset_eq buffer i f1 h4, fileSize_eq buffer i f2 h8]
            simp
          · apply List.map_congr_left
            intro j hj
            obtain ⟨hj1, hj2⟩ := mem_filesIn buffer (i + 1) e j hj
            apply entryFrom_congr
            rw [hnext j hj1]
        · rw [hT2]
          simp only [List.length_append, List.length_cons, List.length_drop]
          rw [hd] at hfit
          simp only [Bool.false_eq_true, if_false] at hfit
          omega

/-- C1: For a well-nested table of `N` records the walk
`gcfs_recurse_directory(records, 2, N, ...)`, run with enough fuel and without
touching a byte outside `name_buffer`, completes, and the loop bodies it
executes are those of the indices 2, 3, ..., N, each exactly once and in this
order; no other index is read, and for `N = 1` nothing is processed. -/
theorem C1_walk_visits_each_record_once (buffer fd : List Byte) (base N fuel : Nat)
    (name_buffer : List Byte) (tree : List TreeEntry)
    (hN : 1 ≤ N) (hlen : buffer.length = 12 * N) (hsz : 12 * N < 2147483648)
    (hnest : WellNested buffer N) (hfuel : N ≤ fuel)
    (hname : ∀ idx, (gcfs_recurse_directory fuel buffer 2 N 0 fd base
      (Walk.mk name_buffer tree [] none)).1.fault ≠ some (Fault.nameBufferOverflow idx)) :
    (gcfs_recurse_directory fuel buffer 2 N 0 fd base
      (Walk.mk name_buffer tree [] none)).1.fault = none ∧
    (gcfs_recurse_directory fuel buffer 2 N 0 fd base
      (Walk.mk name_buffer tree [] none)).1.trace.map Visit.i =
        (List.range' 2 (N - 1)).map (fun (k : Nat) => (k : Int)) := by
  have hcl : ∀ j : Nat, 2 ≤ j → j ≤ N → isDirRecord buffer (j : Nat) = true →
      subtreeEnd buffer (j : Nat) ≤ N := fun j h1 h2 h3 => (hnest j h1 h2 h3).2.1
  have h2N : 2 ≤ N + 1 := by omega
  have hf : N + 2 ≤ fuel + 2 := by omega
  have h := loop_visits buffer fd base N hlen hsz hnest fuel 2 N 2 0
    (Walk.mk name_buffer tree [] none) (le_refl _) h2N (le_refl _) hf rfl hcl hname
  have hr : N + 1 - 2 = N - 1 := by omega
  rw [hr] at h
  exact ⟨h.1, by simpa using h.2⟩

/-- Witness of C1 on the table `exNested`: the walk visits 2, 3, 4. -/
theorem C1_witness :
    (gcfs_recurse_directory 4 exNested 2 (4 : Nat) 0 exStrings 0
      (Walk.mk (List.replicate 1024 0) [] [] none)).1.fault = none ∧
    (gcfs_recurse_directory 4 exNested 2 (4 : Nat) 0 exStrings 0
      (Walk.mk (List.replicate 1024 0) [] [] none)).1.trace.map Visit.i =
        (List.range' 2 (4 - 1)).map (fun (k : Nat) => (k : Int)) :=
  C1_walk_visits_each_record_once exNested exStrings 0 4 4 (List.replicate 1024 0) []
    (by decide) (by decide) (by decide) (by decide!) (by decide)
    (by
      have h : (gcfs_recurse_directory 4 exNested 2 (4 : Nat) 0 exStrings 0
        (Walk.mk (List.replicate 1024 0) [] [] none)).1.fault = none := by decide!
      intro idx
      rw [h]
      exact fun h => Option.noConfusion h)

theorem specEntries_eq (buffer fd : List Byte) (base N : Nat) :
    (filesIn buffer 2 N).map (entryFrom buffer fd base [] 2) = specEntries buffer fd base N := by
  unfold specEntries filesIn entryFrom specPath
  have hr : N + 1 - 2 = N - 1 := by omega
  rw [hr]
  simp

/-- The entries `specEntries` gives for `exNested`. -/
theorem exNested_specEntries : specEntries exNested exStrings 0 4 =
    [TreeEntry.mk (bytes "levels/level1.dat") 17 0x100 10,
     TreeEntry.mk (bytes "levels/level2.dat") 17 0x200 20] := by decide!

/-- The loop body on a record that cannot be decoded inside `buffer`. -/
theorem recurseLoop_oob (buffer fd : List Byte) (base fuel : Nat) (s e : Int) (sni : Nat)
    (i : Int) (w : Walk) (h : ¬ e < i)
    (hnone : recordField buffer i 0 = none ∨ recordField buffer i 4 = none ∨
      recordField buffer i 8 = none) :
    recurseLoop buffer fd base (fuel + 1) s e sni i w =
      { w with trace := w.trace ++ [Visit.mk i s e],
               fault := some (Fault.recordOutOfBounds i) } := by
  rw [recurseLoop, if_neg h]
  cases h0 : recordField buffer i 0 <;> cases h4 : recordField buffer i 4 <;>
    cases h8 : recordField buffer i 8 <;> simp_all

/-- Every record is decodable in all three fields or in none that matters:
the case split used by the lemmas on arbitrary tables. -/
theorem recordField_cases (buffer : List Byte) (i : Int) :
    (∃ f0 f1 f2, recordField buffer i 0 = some f0 ∧ recordField buffer i 4 = some f1 ∧
      recordField buffer i 8 = some f2) ∨
    (recordField buffer i 0 = none ∨ recordField buffer i 4 = none ∨
      recordField buffer i 8 = none) := by
  cases h0 : recordField buffer i 0 <;> cases h4 : recordField buffer i 4 <;>
    cases h8 : recordField buffer i 8 <;> simp

/-- On every table and from every state: as long as the run leaves no array,
the `tree_insert` calls added by the loop are, in order, one for each loop
body executed on a record whose directory flag is clear, with the record's
second and third fields as offset and size. -/
theorem loop_inserts (buffer fd : List Byte) (base : Nat) :
    ∀ (fuel : Nat) (s e : Int) (sni : Nat) (i : Int) (w : Walk),
      ((recurseLoop buffer fd base fuel s e sni i w).fault = none ∨
        (recurseLoop buffer fd base fuel s e sni i w).fault = some Fault.outOfFuel) →
      ∃ new : List Visit,
        (recurseLoop buffer fd base fuel s e sni i w).trace = w.trace ++ new ∧
        (recurseLoop buffer fd base fuel s e sni i w).tree.map (fun t => (t.offset, t.size)) =
          w.tree.map (fun t => (t.offset, t.size)) ++
            (new.filter (fun v => !isDirRecord buffer v.i)).map
              (fun v => (fileOffset buffer v.i, fileSize buffer v.i)) := by
  intro fuel
  induction fuel with
  | zero =>
    intro s e sni i w _
    exact ⟨[], by simp [recurseLoop]⟩
  | succ fuel ih =>
    intro s e sni i w hf
    by_cases hdone : e < i
    · rw [recurseLoop_done _ _ _ _ _ _ _ _ _ hdone]
      exact ⟨[], by simp⟩
    · rcases recordField_cases buffer i with ⟨f0, f1, f2, h0, h4, h8⟩ | hnone
      · rw [recurseLoop_step buffer fd base fuel s e sni i w hdone f0 f1 f2 h0 h4 h8] at hf ⊢
        cases hg : getFilename fd (((f0 &&& 0xFEFFFFFF) + base) % 4294967296) w.name_buffer sni with
        | error idx =>
          rw [hg] at hf
          simp at hf
        | ok p =>
          obtain ⟨nb, ni⟩ := p
          rw [hg] at hf
          simp only at hf ⊢
          by_cases hdir : f0 &&& 0x01000000 ≠ 0
          · rw [if_pos hdir] at hf ⊢
            have hd : isDirRecord buffer i = true := (isDirRecord_eq buffer i f0 h0).2 hdir
            cases ha : appendSlash nb ni with
            | error idx =>
              rw [ha] at hf
              simp at hf
            | ok q =>
              obtain ⟨nb2, ni2⟩ := q
              rw [ha] at hf
              simp only at hf ⊢
              generalize hw1 : Walk.mk nb2 w.tree (w.trace ++ [Visit.mk i s e]) w.fault = w1
                at hf ⊢
              have hw1t : w1.trace = w.trace ++ [Visit.mk i s e] := by rw [← hw1]
              have hw1r : w1.tree = w.tree := by rw [← hw1]
              by_cases hsub : (recurseLoop buffer fd base fuel (wrap32 (i + 1)) (wrap32 f2) ni2
                  (wrap32 (i + 1)) w1).fault.isSome = true
              · rw [if_pos hsub] at hf ⊢
                obtain ⟨new, ht, hk⟩ := ih _ _ _ _ w1 hf
                refine ⟨Visit.mk i s e :: new, ?_, ?_⟩
                · rw [ht, hw1t]; simp
                · rw [hk, hw1r]
                  simp [hd]
              · rw [if_neg hsub] at hf ⊢
                have hsn : (recurseLoop buffer fd base fuel (wrap32 (i + 1)) (wrap32 f2) ni2
                    (wrap32 (i + 1)) w1).fault = none := by simpa using hsub
                obtain ⟨new1, ht1, hk1⟩ := ih _ _ _ _ w1 (Or.inl hsn)
                obtain ⟨new2, ht2, hk2⟩ := ih _ _ _ _ _ hf
                refine ⟨Visit.mk i s e :: (new1 ++ new2), ?_, ?_⟩
                · rw [ht2, ht1, hw1t]; simp
                · rw [hk2, hk1, hw1r]
                  simp [hd]
          · rw [if_neg hdir] at hf ⊢
            have hd : isDirRecord buffer i = false := by
              have := (isDirRecord_eq buffer i f0 h0).not.2 hdir
              simpa using this
            obtain ⟨new2, ht2, hk2⟩ := ih _ _ _ _ _ hf
            refine ⟨Visit.mk i s e :: new2, ?_, ?_⟩
            · rw [ht2]; simp
            · rw [hk2]
              simp [hd, fileOffset_eq buffer i f1 h4, fileSize_eq buffer i f2 h8]
      · rw [recurseLoop_oob buffer fd base fuel s e sni i w hdone hnone] at hf
        simp at hf

/-- C3: On every directory table and from every state, a run of
`gcfs_recurse_directory` that leaves no array makes exactly one `tree_insert`
for each processed record whose directory flag is clear, in the order of
processing, with offset the record's second field and size its third field
(both decoded by `BE_32`), and none for a processed directory record. -/
theorem C3_one_insert_per_file_record (fuel : Nat) (buffer fd : List Byte) (base : Nat)
    (s e : Int) (sni : Nat) (w : Walk)
    (hrun : (gcfs_recurse_directory fuel buffer s e sni fd base w).1.fault = none ∨
      (gcfs_recurse_directory fuel buffer s e sni fd base w).1.fault = some Fault.outOfFuel) :
    (gcfs_recurse_directory fuel buffer s e sni fd base w).1.tree.map
        (fun t => (t.offset, t.size)) =
      w.tree.map (fun t => (t.offset, t.size)) ++
        (((gcfs_recurse_directory fuel buffer s e sni fd base w).1.trace.drop
            w.trace.length).filter (fun v => !isDirRecord buffer v.i)).map
          (fun v => (fileOffset buffer v.i, fileSize buffer v.i)) := by
  obtain ⟨new, ht, hk⟩ := loop_inserts buffer fd base fuel s e sni s w hrun
  unfold gcfs_recurse_directory
  simp only
  rw [hk, ht, List.drop_left]

/-- Witness of C3: the root plus the file record "readme.txt" with second
field 0x1000 and third field 10 yields exactly the entry
(readme.txt, 0x1000, 10). -/
theorem C3_witness :
    (gcfs_recurse_directory 2 exReadme 2 2 0 exReadmeStrings 0
        (Walk.mk (List.replicate 1024 0) [] [] none)).1.tree.map
        (fun t => (t.offset, t.size)) =
      ([] : List TreeEntry).map (fun t => (t.offset, t.size)) ++
        (((gcfs_recurse_directory 2 exReadme 2 2 0 exReadmeStrings 0
            (Walk.mk (List.replicate 1024 0) [] [] none)).1.trace.drop
            ([] : List Visit).length).filter (fun v => !isDirRecord exReadme v.i)).map
          (fun v => (fileOffset exReadme v.i, fileSize exReadme v.i)) ∧
    (gcfs_recurse_directory 2 exReadme 2 2 0 exReadmeStrings 0
        (Walk.mk (List.replicate 1024 0) [] [] none)).1.tree =
      [TreeEntry.mk (bytes "readme.txt") 10 0x1000 10] :=
  ⟨C3_one_insert_per_file_record 2 exReadme exReadmeStrings 0 2 2 0
      (Walk.mk (List.replicate 1024 0) [] [] none) (Or.inl (by decide!)),
    by decide!⟩

/-- The loop only ever appends to the trace. -/
theorem loop_trace_extends (buffer fd : List Byte) (base : Nat) :
    ∀ (fuel : Nat) (s e : Int) (sni : Nat) (i : Int) (w : Walk),
      ∃ new : List Visit,
        (recurseLoop buffer fd base fuel s e sni i w).trace = w.trace ++ new := by
  intro fuel
  induction fuel with
  | zero =>
    intro s e sni i w
    exact ⟨[], by simp [recurseLoop]⟩
  | succ fuel ih =>
    intro s e sni i w
    by_cases hdone : e < i
    · rw [recurseLoop_done _ _ _ _ _ _ _ _ _ hdone]
      exact ⟨[], by simp⟩
    · rcases recordField_cases buffer i with ⟨f0, f1, f2, h0, h4, h8⟩ | hnone
      · rw [recurseLoop_step buffer fd base fuel s e sni i w hdone f0 f1 f2 h0 h4 h8]
        cases hg : getFilename fd (((f0 &&& 0xFEFFFFFF) + base) % 4294967296) w.name_buffer sni with
        | error idx => exact ⟨[Visit.mk i s e], rfl⟩
        | ok p =>
          obtain ⟨nb, ni⟩ := p
          simp only
          by_cases hdir : f0 &&& 0x01000000 ≠ 0
          · rw [if_pos hdir]
            cases ha : appendSlash nb ni with
            | error idx => exact ⟨[Visit.mk i s e], rfl⟩
            | ok q =>
              obtain ⟨nb2, ni2⟩ := q
              simp only
              generalize hw1 : Walk.mk nb2 w.tree (w.trace ++ [Visit.mk i s e]) w.fault = w1
              have hw1t : w1.trace = w.trace ++ [Visit.mk i s e] := by rw [← hw1]
              obtain ⟨new1, ht1⟩ := ih (wrap32 (i + 1)) (wrap32 f2) ni2 (wrap32 (i + 1)) w1
              by_cases hsub : (recurseLoop buffer fd base fuel (wrap32 (i + 1)) (wrap32 f2) ni2
                  (wrap32 (i + 1)) w1).fault.isSome = true
              · rw [if_pos hsub]
                exact ⟨Visit.mk i s e :: new1, by rw [ht1, hw1t]; simp⟩
              · rw [if_neg hsub]
                obtain ⟨new2, ht2⟩ := ih s e sni
                  (wrap32 (wrap32 (i + wrap32 (wrap32 (wrap32 f2 - wrap32 (i + 1)) + 1)) + 1))
                  (recurseLoop buffer fd base fuel (wrap32 (i + 1)) (wrap32 f2) ni2
                    (wrap32 (i + 1)) w1)
                exact ⟨Visit.mk i s e :: (new1 ++ new2), by rw [ht2, ht1, hw1t]; simp⟩
          · rw [if_neg hdir]
            obtain ⟨new2, ht2⟩ := ih s e sni (wrap32 (i + 1))
              (Walk.mk nb (w.tree ++ [TreeEntry.mk (cstring nb) (cstring nb).length f1 f2])
                (w.trace ++ [Visit.mk i s e]) w.fault)
            exact ⟨Visit.mk i s e :: new2, by rw [ht2]; simp⟩
      · rw [recurseLoop_oob buffer fd base fuel s e sni i w hdone hnone]
        exact ⟨[Visit.mk i s e], rfl⟩

/-- A loop entered inside its range first executes the body for its index. -/
theorem loop_trace_first (buffer fd : List Byte) (base fuel : Nat) (s e : Int) (sni : Nat)
    (i : Int) (w : Walk) (h : ¬ e < i) :
    ∃ rest : List Visit,
      (recurseLoop buffer fd base (fuel + 1) s e sni i w).trace =
        w.trace ++ Visit.mk i s e :: rest := by
  rcases recordField_cases buffer i with ⟨f0, f1, f2, h0, h4, h8⟩ | hnone
  · rw [recurseLoop_step buffer fd base fuel s e sni i w h f0 f1 f2 h0 h4 h8]
    cases hg : getFilename fd (((f0 &&& 0xFEFFFFFF) + base) % 4294967296) w.name_buffer sni with
    | error idx => exact ⟨[], rfl⟩
    | ok p =>
      obtain ⟨nb, ni⟩ := p
      simp only
      by_cases hdir : f0 &&& 0x01000000 ≠ 0
      · rw [if_pos hdir]
        cases ha : appendSlash nb ni with
        | error idx => exact ⟨[], rfl⟩
        | ok q =>
          obtain ⟨nb2, ni2⟩ := q
          simp only
          generalize hw1 : Walk.mk nb2 w.tree (w.trace ++ [Visit.mk i s e]) w.fault = w1
          have hw1t : w1.trace = w.trace ++ [Visit.mk i s e] := by rw [← hw1]
          obtain ⟨new1, ht1⟩ := loop_trace_extends buffer fd base fuel (wrap32 (i + 1))
            (wrap32 f2) ni2 (wrap32 (i + 1)) w1
          by_cases hsub : (recurseLoop buffer fd base fuel (wrap32 (i + 1)) (wrap32 f2) ni2
              (wrap32 (i + 1)) w1).fault.isSome = true
          · rw [if_pos hsub]
            exact ⟨new1, by rw [ht1, hw1t]; simp⟩
          · rw [if_neg hsub]
            obtain ⟨new2, ht2⟩ := loop_trace_extends buffer fd base fuel s e sni
              (wrap32 (wrap32 (i + wrap32 (wrap32 (wrap32 f2 - wrap32 (i + 1)) + 1)) + 1))
              (recurseLoop buffer fd base fuel (wrap32 (i + 1)) (wrap32 f2) ni2
                (wrap32 (i + 1)) w1)
            exact ⟨new1 ++ new2, by rw [ht2, ht1, hw1t]; simp⟩
      · rw [if_neg hdir]
        obtain ⟨new2, ht2⟩ := loop_trace_extends buffer fd base fuel s e sni (wrap32 (i + 1))
          (Walk.mk nb (w.tree ++ [TreeEntry.mk (cstring nb) (cstring nb).length f1 f2])
            (w.trace ++ [Visit.mk i s e]) w.fault)
        exact ⟨new2, by rw [ht2]; simp⟩
  · rw [recurseLoop_oob buffer fd base fuel s e sni i w h hnone]
    exact ⟨[], rfl⟩


/-- C4 as amended: in a well-nested table, for a directory record at index `i`
with third field `f`, the recursive call the loop body makes for it is
`gcfs_recurse_directory(buffer, i + 1, f, ...)`; it completes, processes
exactly the records `i < j ≤ f` (in order), and returns `f - i`; the loop of
the caller then resumes at index `f + 1`, and when `f + 1 ≤ e` the next loop
body it executes is that of record `f + 1`. -/
theorem C4_subtree_end_is_inclusive (buffer fd : List Byte) (base N fuel : Nat)
    (s : Int) (e i sni : Nat) (w : Walk)
    (hlen : buffer.length = 12 * N) (hsz : 12 * N < 2147483648) (hnest : WellNested buffer N)
    (h2 : 2 ≤ i) (hie : i ≤ e) (heN : e ≤ N) (hfuel : e + 1 ≤ fuel + i) (hw : w.fault = none)
    (hcl : ∀ j : Nat, i ≤ j → j ≤ e → isDirRecord buffer (j : Nat) = true →
      subtreeEnd buffer (j : Nat) ≤ e)
    (hd : isDirRecord buffer (i : Nat) = true)
    (hname : ∀ idx, (recurseLoop buffer fd base (fuel + 1) s e sni i w).fault ≠
      some (Fault.nameBufferOverflow idx)) :
    ∃ (f ni : Nat) (w1 : Walk),
      subtreeEnd buffer (i : Nat) = (f : Int) ∧ i ≤ f ∧ f ≤ e ∧
      w1.trace = w.trace ++ [Visit.mk i s e] ∧ w1.tree = w.tree ∧
      (gcfs_recurse_directory fuel buffer ((i : Int) + 1) f ni fd base w1).1.fault = none ∧
      (gcfs_recurse_directory fuel buffer ((i : Int) + 1) f ni fd base w1).1.trace.map Visit.i =
        w1.trace.map Visit.i ++ (List.range' (i + 1) (f - i)).map (fun (k : Nat) => (k : Int)) ∧
      (gcfs_recurse_directory fuel buffer ((i : Int) + 1) f ni fd base w1).2 = (f : Int) - i ∧
      recurseLoop buffer fd base (fuel + 1) s e sni i w =
        recurseLoop buffer fd base fuel s e sni ((f : Int) + 1)
          (gcfs_recurse_directory fuel buffer ((i : Int) + 1) f ni fd base w1).1 ∧
      (f + 1 ≤ e → ∃ rest : List Visit,
        (recurseLoop buffer fd base (fuel + 1) s e sni i w).trace =
          (gcfs_recurse_directory fuel buffer ((i : Int) + 1) f ni fd base w1).1.trace ++
            Visit.mk ((f : Int) + 1) s e :: rest) := by
  have hdone : ¬ ((e : Int) < (i : Int)) := by omega
  obtain ⟨f0, h0⟩ := recordField_isSome buffer N i 0 hlen hsz (by omega) (by omega) (by omega)
  obtain ⟨f1, h4⟩ := recordField_isSome buffer N i 4 hlen hsz (by omega) (by omega) (by omega)
  obtain ⟨f2, h8⟩ := recordField_isSome buffer N i 8 hlen hsz (by omega) (by omega) (by omega)
  simp only [Nat.cast_ofNat, Nat.cast_zero] at h0 h4 h8
  have hstep := recurseLoop_step buffer fd base fuel s e sni i w hdone f0 f1 f2 h0 h4 h8
  have hdir : f0 &&& 0x01000000 ≠ 0 := (isDirRecord_eq buffer i f0 h0).1 hd
  have hse := subtreeEnd_eq buffer i f2 h8
  obtain ⟨hn1, hn2, hn3⟩ := hnest i h2 (by omega) hd
  have hfe := hcl i (le_refl _) hie hd
  obtain ⟨f, hf⟩ : ∃ f : Nat, wrap32 (f2 : Int) = (f : Int) := by
    rw [hse] at hn1
    have hge : 0 ≤ wrap32 (f2 : Int) := le_trans (Int.natCast_nonneg i) hn1
    exact ⟨(wrap32 (f2 : Int)).toNat, (Int.toNat_of_nonneg hge).symm⟩
  rw [hse, hf] at hn1 hn2 hfe
  have hif : i ≤ f := by omega
  have hfe2 : f ≤ e := by omega
  have hi1 : wrap32 ((i : Int) + 1) = (i : Int) + 1 := wrap32_eq_self _ (by omega) (by omega)
  have hret0 : wrap32 (wrap32 ((f : Int) - ((i : Int) + 1)) + 1) = (f : Int) - i := by
    rw [wrap32_eq_self ((f : Int) - ((i : Int) + 1)) (by omega) (by omega)]
    rw [wrap32_eq_self _ (by omega) (by omega)]
    omega
  have hret : wrap32 (wrap32 ((i : Int) + ((f : Int) - i)) + 1) = (f : Int) + 1 := by
    rw [wrap32_eq_self ((i : Int) + ((f : Int) - i)) (by omega) (by omega)]
    rw [wrap32_eq_self _ (by omega) (by omega)]
    omega
  rw [hstep] at hname
  cases hg : getFilename fd (((f0 &&& 0xFEFFFFFF) + base) % 4294967296) w.name_buffer sni with
  | error idx =>
    rw [hg] at hname
    exact absurd rfl (hname idx)
  | ok p =>
    obtain ⟨nb, ni⟩ := p
    rw [hg] at hname hstep
    simp only at hname hstep
    rw [if_pos hdir] at hname hstep
    cases ha : appendSlash nb ni with
    | error idx =>
      rw [ha] at hname
      exact absurd rfl (hname idx)
    | ok q =>
      obtain ⟨nb2, ni2⟩ := q
      rw [ha] at hname hstep
      simp only at hname hstep
      rw [hf, hi1, hret0, hret] at hname hstep
      clear hret hret0
      generalize hw1 : Walk.mk nb2 w.tree (w.trace ++ [Visit.mk (i : Int) s (e : Int)])
        w.fault = w1 at hname hstep
      have hw1f : w1.fault = none := by rw [← hw1]; exact hw
      have hw1t : w1.trace = w.trace ++ [Visit.mk (i : Int) s (e : Int)] := by rw [← hw1]
      have hw1r : w1.tree = w.tree := by rw [← hw1]
      have hclsub : ∀ j : Nat, i + 1 ≤ j → j ≤ f → isDirRecord buffer (j : Nat) = true →
          subtreeEnd buffer (j : Nat) ≤ f := by
        intro j hj1 hj2 hjd
        have hjN : j ≤ N := by omega
        have hjf : (j : Int) ≤ subtreeEnd buffer (i : Nat) := by
          rw [hse, hf]; exact_mod_cast hj2
        have := hn3 j hj1 hjN hjf hjd
        rw [hse, hf] at this
        exact this
      have hcast : ((i + 1 : Nat) : Int) = (i : Int) + 1 := by push_cast; rfl
      have hsubnone : (recurseLoop buffer fd base fuel ((i : Int) + 1) (f : Int) ni2
          ((i : Int) + 1) w1).fault = none := by
        by_cases hsub : (recurseLoop buffer fd base fuel ((i : Int) + 1) (f : Int) ni2
            ((i : Int) + 1) w1).fault.isSome = true
        · rw [if_pos hsub] at hname
          have h12 : 2 ≤ i + 1 := by omega
          have h13 : i + 1 ≤ f + 1 := by omega
          have h14 : f ≤ N := by omega
          have h15 : f + 2 ≤ fuel + (i + 1) := by omega
          have := loop_visits buffer fd base N hlen hsz hnest fuel ((i : Int) + 1) f (i + 1)
            ni2 w1 h12 h13 h14 h15 hw1f hclsub (by rw [hcast]; exact hname)
          rw [hcast] at this
          exact this.1
        · simpa using hsub
      have h12 : 2 ≤ i + 1 := by omega
      have h13 : i + 1 ≤ f + 1 := by omega
      have h14 : f ≤ N := by omega
      have h15 : f + 2 ≤ fuel + (i + 1) := by omega
      have hvis := loop_visits buffer fd base N hlen hsz hnest fuel ((i : Int) + 1) f (i + 1)
        ni2 w1 h12 h13 h14 h15 hw1f hclsub (by rw [hcast, hsubnone]; simp)
      rw [hcast] at hvis
      have hsome : ¬ ((recurseLoop buffer fd base fuel ((i : Int) + 1) (f : Int) ni2
          ((i : Int) + 1) w1).fault.isSome = true) := by rw [hsubnone]; simp
      rw [if_neg hsome] at hstep
      have hfi : f + 1 - (i + 1) = f - i := by omega
      refine ⟨f, ni2, w1, by rw [hse, hf], hif, hfe2, hw1t, hw1r, ?_, ?_, ?_, ?_, ?_⟩
      · exact hsubnone
      · unfold gcfs_recurse_directory
        simp only
        rw [hvis.2, hfi]
      · unfold gcfs_recurse_directory
        simp only
        rw [wrap32_eq_self ((f : Int) - ((i : Int) + 1)) (by omega) (by omega)]
        rw [wrap32_eq_self _ (by omega) (by omega)]
        omega
      · unfold gcfs_recurse_directory
        simp only
        exact hstep
      · intro hfe3
        unfold gcfs_recurse_directory
        simp only
        rw [hstep]
        obtain ⟨fuel', hfuel'⟩ : ∃ fuel', fuel = fuel' + 1 := ⟨fuel - 1, by omega⟩
        have hnd : ¬ ((e : Int) < (f : Int) + 1) := by omega
        rw [hfuel'] at hsubnone hvis hstep ⊢
        have := loop_trace_first buffer fd base fuel' s e sni ((f : Int) + 1)
          (recurseLoop buffer fd base (fuel' + 1) ((i : Int) + 1) (f : Int) ni2
            ((i : Int) + 1) w1) hnd
        exact this

/-- Witness of C4 as amended, on `exSubtree`: for the directory at index 2
(third field 4) the recursive call processes records 3 and 4. -/
theorem C4_witness :
    ∃ (f ni : Nat) (w1 : Walk),
      subtreeEnd exSubtree ((2 : Nat) : Int) = (f : Int) ∧ 2 ≤ f ∧ f ≤ 5 ∧
      w1.trace = [] ++ [Visit.mk ((2 : Nat) : Int) 2 ((5 : Nat) : Int)] ∧ w1.tree = [] ∧
      (gcfs_recurse_directory 4 exSubtree (((2 : Nat) : Int) + 1) f ni exSubtreeStrings 0
        w1).1.fault = none ∧
      (gcfs_recurse_directory 4 exSubtree (((2 : Nat) : Int) + 1) f ni exSubtreeStrings 0
        w1).1.trace.map Visit.i =
        w1.trace.map Visit.i ++ (List.range' (2 + 1) (f - 2)).map (fun (k : Nat) => (k : Int)) ∧
      (gcfs_recurse_directory 4 exSubtree (((2 : Nat) : Int) + 1) f ni exSubtreeStrings 0
        w1).2 = (f : Int) - (2 : Nat) ∧
      recurseLoop exSubtree exSubtreeStrings 0 (4 + 1) 2 (5 : Nat) 0 (2 : Nat)
          (Walk.mk (List.replicate 1024 0) [] [] none) =
        recurseLoop exSubtree exSubtreeStrings 0 4 2 (5 : Nat) 0 ((f : Int) + 1)
          (gcfs_recurse_directory 4 exSubtree (((2 : Nat) : Int) + 1) f ni exSubtreeStrings 0
            w1).1 ∧
      (f + 1 ≤ 5 → ∃ rest : List Visit,
        (recurseLoop exSubtree exSubtreeStrings 0 (4 + 1) 2 (5 : Nat) 0 (2 : Nat)
          (Walk.mk (List.replicate 1024 0) [] [] none)).trace =
          (gcfs_recurse_directory 4 exSubtree (((2 : Nat) : Int) + 1) f ni exSubtreeStrings 0
            w1).1.trace ++ Visit.mk ((f : Int) + 1) 2 ((5 : Nat) : Int) :: rest) :=
  C4_subtree_end_is_inclusive exSubtree exSubtreeStrings 0 5 4 2 5 2 0
    (Walk.mk (List.replicate 1024 0) [] [] none)
    (by decide) (by decide) (by decide!) (by decide) (by decide) (by decide) (by decide) rfl
    (by decide!) (by decide!)
    (by
      have h : (recurseLoop exSubtree exSubtreeStrings 0 (4 + 1) 2 (5 : Nat) 0 (2 : Nat)
          (Walk.mk (List.replicate 1024 0) [] [] none)).fault = none := by decide!
      intro idx
      rw [h]
      exact fun h => Option.noConfusion h)

/-- Counterexample to C4 as stated, on `exSubtree` (directory at index 2 with
third field 4, files at 3, 4, 5): the records processed inside the recursive
call for the directory (the loop bodies of the call with `starting_index` 3)
are 3 and 4, so record 4 = field2 is a descendant and not the next sibling;
the loop of the caller processes 2 and then 5. -/
theorem C4_counterexample :
    subtreeEnd exSubtree 2 = 4 ∧
    ((gcfs_recurse_directory 5 exSubtree 2 5 0 exSubtreeStrings 0
        (Walk.mk (List.replicate 1024 0) [] [] none)).1.trace.filter
        (fun v => v.starting_index = 3)).map Visit.i = [3, 4] ∧
    ((gcfs_recurse_directory 5 exSubtree 2 5 0 exSubtreeStrings 0
        (Walk.mk (List.replicate 1024 0) [] [] none)).1.trace.filter
        (fun v => v.starting_index = 2)).map Visit.i = [2, 5] := by
  decide!

theorem isContext_iff (o : InitOutcome) :
    o.isContext = true ↔ ∃ gcfs, o = InitOutcome.context gcfs := by
  cases o <;> simp [InitOutcome.isContext]

/-- Counterexample to C5 as stated: on the image whose table is the root, the
directory "levels" at index 2 with third field 5, and the two files at 3 and
4, `gcfs_init` goes on to read a record 5 outside the 4-record table, and the
names it inserts for the two files are "levels/level1.dat" and
"levels/level2.dat", without a leading '/'. -/
theorem C5_counterexample :
    (gcfs_init 10 (exImage exNestedEnd5 exStrings) (List.replicate 2048 0)
      (List.replicate 1024 0)).outcome = InitOutcome.stopped (Fault.recordOutOfBounds 5) ∧
    (((gcfs_init 10 (exImage exNestedEnd5 exStrings) (List.replicate 2048 0)
      (List.replicate 1024 0)).tree.getD []).drop 2).map TreeEntry.name =
        [bytes "levels/level1.dat", bytes "levels/level2.dat"] ∧
    (((gcfs_init 10 (exImage exNestedEnd5 exStrings) (List.replicate 2048 0)
      (List.replicate 1024 0)).tree.getD []).drop 2).map TreeEntry.name ≠
        [bytes "/levels/level1.dat", bytes "/levels/level2.dat"] := by
  decide!

/-- The context `gcfs_init` returns holds the tree at the end of the walk and
the length of the image. -/
theorem gcfs_init_context (fuel : Nat) (fd metadata name_buffer : List Byte) (r : InitResult)
    (hr : gcfs_init fuel fd metadata name_buffer = r) (g : Gcfsfile)
    (hg : r.outcome = InitOutcome.context g) :
    r.tree = some g.tree ∧ g.size = fd.length := by
  unfold gcfs_init at hr
  dsimp only at hr
  split at hr
  · rw [← hr] at hg; cases hg
  · split at hr
    · rw [← hr] at hg; cases hg
    · split at hr
      · rw [← hr] at hg; cases hg
      · split at hr
        · rw [← hr] at hg; cases hg
        · split at hr
          · rw [← hr] at hg; cases hg
          · split at hr
            · rw [← hr] at hg; cases hg
            · split at hr
              · rw [← hr] at hg; cases hg
              · split at hr
                · rw [← hr] at hg; cases hg
                · split at hr
                  · rw [← hr] at hg; cases hg
                  · rw [← hr] at hg ⊢
                    cases hg
                    exact ⟨rfl, rfl⟩

/-- The run of `gcfs_init` on the image with the table `exNested`. -/
theorem exNested_init :
    gcfs_init 10 (exImage exNested exStrings) (List.replicate 2048 0) (List.replicate 1024 0) =
      InitResult.mk
        (InitOutcome.context (Gcfsfile.mk (exImage exNested exStrings).length
          [TreeEntry.mk (bytes ".metadata") 10 0 66,
           TreeEntry.mk (bytes "test-game-exe.dol") 17 0x440 0x260,
           TreeEntry.mk (bytes "levels/level1.dat") 17 0x100 10,
           TreeEntry.mk (bytes "levels/level2.dat") 17 0x200 20]
          (padTo 2048 exMetadataText) 66))
        (some [TreeEntry.mk (bytes ".metadata") 10 0 66,
           TreeEntry.mk (bytes "test-game-exe.dol") 17 0x440 0x260,
           TreeEntry.mk (bytes "levels/level1.dat") 17 0x100 10,
           TreeEntry.mk (bytes "levels/level2.dat") 17 0x200 20])
        [Visit.mk 2 2 4, Visit.mk 3 3 4, Visit.mk 4 3 4] := by
  decide!

theorem exNested_init_isContext :
    (gcfs_init 10 (exImage exNested exStrings) (List.replicate 2048 0)
      (List.replicate 1024 0)).outcome.isContext = true := by
  rw [exNested_init]
  rfl

theorem exNested_init_tree :
    ((gcfs_init 10 (exImage exNested exStrings) (List.replicate 2048 0)
      (List.replicate 1024 0)).tree.getD []).drop 2 =
        [TreeEntry.mk (bytes "levels/level1.dat") 17 0x100 10,
         TreeEntry.mk (bytes "levels/level2.dat") 17 0x200 20] := by
  rw [exNested_init]
  rfl

/-- C5 as amended: on the image whose table is the root, the directory
"levels" at index 2 with third field 4 (the last index of its subtree), and
the files "level1.dat" and "level2.dat" at 3 and 4, `gcfs_init` returns a
context and the entries it inserts from the table are named
"levels/level1.dat" and "levels/level2.dat". -/
theorem C5_nested_scenario :
    (∃ gcfs, (gcfs_init 10 (exImage exNested exStrings) (List.replicate 2048 0)
      (List.replicate 1024 0)).outcome = InitOutcome.context gcfs) ∧
    ((gcfs_init 10 (exImage exNested exStrings) (List.replicate 2048 0)
      (List.replicate 1024 0)).tree.getD []).drop 2 =
        [TreeEntry.mk (bytes "levels/level1.dat") 17 0x100 10,
         TreeEntry.mk (bytes "levels/level2.dat") 17 0x200 20] :=
  And.intro ((isContext_iff _).1 exNested_init_isContext) exNested_init_tree

/-- The example context is the one `gcfs_init` builds from the example image. -/
theorem exContext_from_init :
    (gcfs_init 10 (exImage exReadme exReadmeStrings) (List.replicate 2048 0)
      (List.replicate 1024 0)).outcome = InitOutcome.context exContext := by
  decide!

/-- C6, the code at the failing input: a read of 4 bytes of the metadata file
at offset 11 stores the first 4 bytes of the blob ("Game") in the caller's
buffer, not the bytes 11..14 ("GAFE"). -/
theorem C6_read_copies_from_blob_start :
    gcfs_read exContext exMetadataPath (List.replicate 4 0) 4 11 =
      ReadResult.done (bytes "Game") 4 ∧
    (exContext.metadata.drop 11).take 4 = bytes "GAFE" := by
  decide!

/-- What the metadata branch of `gcfs_read` stores, for every request: the
first `n` bytes of the blob, whatever the offset. -/
theorem gcfs_read_metadata_buffer (gcfs : Gcfsfile) (path buf buf' : List Byte) (size : Nat)
    (offset ret : Int) (hlt : offset < gcfs.metadata_size)
    (h : gcfs_read gcfs path buf size offset = ReadResult.done buf' ret) :
    ∃ n, buf' = gcfs.metadata.take n ++ buf.drop n := by
  unfold gcfs_read at h
  by_cases hp : path.drop 1 = METADATA_FILE_NAME
  · rw [if_pos hp, if_neg (not_le.2 hlt)] at h
    simp only at h
    split_ifs at h <;> (cases h; exact ⟨_, rfl⟩)
  · rw [if_neg hp] at h
    exact ReadResult.noConfusion h

/-- C7: For every context whose blob of length `S = metadata_size` lies inside
the `metadata` array, and every read of the metadata path at `(offset, size)`
with `0 ≤ offset` (an `off_t`) and a buffer of `size` bytes, `gcfs_read`
returns 0 when `offset ≥ S` and `min(size, S - offset)` otherwise, so that a
read that starts inside the blob has `offset + count ≤ S`. -/
theorem C7_metadata_read_count (gcfs : Gcfsfile) (path buf : List Byte) (size : Nat)
    (offset : Int) (hpath : path.drop 1 = METADATA_FILE_NAME)
    (hS0 : 0 ≤ gcfs.metadata_size) (hS1 : gcfs.metadata_size ≤ gcfs.metadata.length)
    (hS2 : gcfs.metadata_size < 2147483648)
    (hoff0 : 0 ≤ offset) (hoff1 : offset < 9223372036854775808)
    (hsize : size < 9223372036854775808) (hbuf : size ≤ buf.length) :
    ∃ buf' ret, gcfs_read gcfs path buf size offset = ReadResult.done buf' ret ∧
      ret = (if offset ≥ gcfs.metadata_size then 0
              else min (size : Int) (gcfs.metadata_size - offset)) ∧
      (offset < gcfs.metadata_size → offset + ret ≤ gcfs.metadata_size) := by
  unfold gcfs_read
  rw [if_pos hpath]
  by_cases hge : offset ≥ gcfs.metadata_size
  · rw [if_pos hge]
    exact ⟨buf, 0, rfl, by rw [if_pos hge], fun h => by omega⟩
  · rw [if_neg hge]
    simp only
    have hm1 : (offset + (size : Int)) % 18446744073709551616 = offset + size := by omega
    have hm2 : gcfs.metadata_size % 18446744073709551616 = gcfs.metadata_size := by omega
    have hm3 : (gcfs.metadata_size - offset) % 18446744073709551616
        = gcfs.metadata_size - offset := by omega
    rw [hm1, hm2, hm3]
    by_cases hclamp : offset + (size : Int) ≥ gcfs.metadata_size
    · rw [if_pos hclamp]
      have hn : ((gcfs.metadata_size - offset).toNat : Int) = gcfs.metadata_size - offset := by
        omega
      have hle : (gcfs.metadata_size - offset).toNat ≤ gcfs.metadata.length ∧
          (gcfs.metadata_size - offset).toNat ≤ buf.length := by omega
      rw [if_pos hle, hn]
      refine ⟨_, _, rfl, ?_, fun _ => ?_⟩
      · rw [wrap32_eq_self _ (by omega) (by omega), if_neg hge]; omega
      · rw [wrap32_eq_self _ (by omega) (by omega)]; omega
    · rw [if_neg hclamp]
      have hle : size ≤ gcfs.metadata.length ∧ size ≤ buf.length := by omega
      rw [if_pos hle]
      refine ⟨_, _, rfl, ?_, fun _ => ?_⟩
      · rw [wrap32_eq_self _ (by omega) (by omega), if_neg hge]; omega
      · rw [wrap32_eq_self _ (by omega) (by omega)]; omega

/-- Witness of C7: reading 100 bytes at offset 60 of the 66-byte example blob
returns 6. -/
theorem C7_witness :
    ∃ buf' ret, gcfs_read exContext exMetadataPath (List.replicate 100 0) 100 60 =
        ReadResult.done buf' ret ∧
      ret = (if (60 : Int) ≥ exContext.metadata_size then 0
              else min ((100 : Nat) : Int) (exContext.metadata_size - 60)) ∧
      ((60 : Int) < exContext.metadata_size → 60 + ret ≤ exContext.metadata_size) :=
  C7_metadata_read_count exContext exMetadataPath (List.replicate 100 0) 100 60
    (by decide!) (by decide) (by decide!) (by decide) (by decide) (by decide) (by decide)
    (by decide!)

theorem foldl_running_max (l : List Nat) (m : Nat) :
    l.foldl (fun m x => if x > m then x else m) m = max m (listMax l) := by
  induction l generalizing m with
  | nil => simp [listMax]
  | cons a l ih =>
    rw [List.foldl_cons, ih]
    unfold listMax
    rw [List.foldr_cons]
    split_ifs with h
    · omega
    · omega

/-- The two section loops compute the maximum of the 17 wrapped sums. -/
theorem max_dol_section_offset_eq (dol_header : List Byte) :
    max_dol_section_offset dol_header = listMax (wrappedSectionEnds dol_header) := by
  have h1 : ∀ (l : List Nat) (f g : Nat → Nat) (m : Nat),
      l.foldl (fun m i => dolSectionStep dol_header (f i) (g i) m) m =
        (l.map (fun i => ((BE_32 dol_header (f i)).getD 0 + (BE_32 dol_header (g i)).getD 0)
          % 4294967296)).foldl (fun m x => if x > m then x else m) m := by
    intro l f g
    induction l with
    | nil => intro m; rfl
    | cons a l ih =>
      intro m
      rw [List.foldl_cons, List.map_cons, List.foldl_cons, ih]
      rfl
  unfold max_dol_section_offset
  simp only
  rw [h1 (List.range 7) (fun i => i * 4) (fun i => 0x90 + i * 4),
    h1 (List.range 10) (fun i => 0x1C + i * 4) (fun i => 0xAC + i * 4),
    ← List.foldl_append, foldl_running_max]
  unfold wrappedSectionEnds dolSections
  simp only [List.map_append, List.map_map]
  rw [Nat.zero_max]
  rfl


theorem BE_32_lt (x : List Byte) (k v : Nat) (h : BE_32 x k = some v) : v < 4294967296 := by
  unfold BE_32 at h
  split at h
  · rename_i b0 b1 b2 b3 _ _ _ _
    injection h with h
    rw [← h]
    have h0 := b0.isLt
    have h1 := b1.isLt
    have h2 := b2.isLt
    have h3 := b3.isLt
    have e0 : b0.val <<< 24 < 2 ^ 32 := by rw [Nat.shiftLeft_eq]; omega
    have e1 : b1.val <<< 16 < 2 ^ 32 := by rw [Nat.shiftLeft_eq]; omega
    have e2 : b2.val <<< 8 < 2 ^ 32 := by rw [Nat.shiftLeft_eq]; omega
    have e3 : b3.val < 2 ^ 32 := by omega
    exact Nat.or_lt_two_pow (Nat.or_lt_two_pow (Nat.or_lt_two_pow e0 e1) e2) e3
  · exact Option.noConfusion h

theorem recordField_lt (buffer : List Byte) (i k : Int) (v : Nat)
    (h : recordField buffer i k = some v) : v < 4294967296 := by
  unfold recordField at h
  simp only at h
  split at h
  · exact Option.noConfusion h
  · exact BE_32_lt _ _ _ h

/-- The loop only ever appends to the tree, and what it appends are entries
whose offset and size are unsigned 32-bit values. -/
theorem loop_tree_extends (buffer fd : List Byte) (base : Nat) :
    ∀ (fuel : Nat) (s e : Int) (sni : Nat) (i : Int) (w : Walk),
      ∃ new : List TreeEntry,
        (recurseLoop buffer fd base fuel s e sni i w).tree = w.tree ++ new ∧
        ∀ t ∈ new, t.offset < 4294967296 ∧ t.size < 4294967296 := by
  intro fuel
  induction fuel with
  | zero =>
    intro s e sni i w
    exact ⟨[], by simp [recurseLoop]⟩
  | succ fuel ih =>
    intro s e sni i w
    by_cases hdone : e < i
    · rw [recurseLoop_done _ _ _ _ _ _ _ _ _ hdone]
      exact ⟨[], by simp⟩
    · rcases recordField_cases buffer i with ⟨f0, f1, f2, h0, h4, h8⟩ | hnone
      · rw [recurseLoop_step buffer fd base fuel s e sni i w hdone f0 f1 f2 h0 h4 h8]
        cases hg : getFilename fd (((f0 &&& 0xFEFFFFFF) + base) % 4294967296) w.name_buffer sni with
        | error idx => exact ⟨[], by simp⟩
        | ok p =>
          obtain ⟨nb, ni⟩ := p
          simp only
          by_cases hdir : f0 &&& 0x01000000 ≠ 0
          · rw [if_pos hdir]
            cases ha : appendSlash nb ni with
            | error idx => exact ⟨[], by simp⟩
            | ok q =>
              obtain ⟨nb2, ni2⟩ := q
              simp only
              generalize hw1 : Walk.mk nb2 w.tree (w.trace ++ [Visit.mk i s e]) w.fault = w1
              have hw1r : w1.tree = w.tree := by rw [← hw1]
              obtain ⟨new1, ht1, hb1⟩ := ih (wrap32 (i + 1)) (wrap32 f2) ni2 (wrap32 (i + 1)) w1
              by_cases hsub : (recurseLoop buffer fd base fuel (wrap32 (i + 1)) (wrap32 f2) ni2
                  (wrap32 (i + 1)) w1).fault.isSome = true
              · rw [if_pos hsub]
                exact ⟨new1, by rw [ht1, hw1r], hb1⟩
              · rw [if_neg hsub]
                obtain ⟨new2, ht2, hb2⟩ := ih s e sni
                  (wrap32 (wrap32 (i + wrap32 (wrap32 (wrap32 f2 - wrap32 (i + 1)) + 1)) + 1))
                  (recurseLoop buffer fd base fuel (wrap32 (i + 1)) (wrap32 f2) ni2
                    (wrap32 (i + 1)) w1)
                refine ⟨new1 ++ new2, by rw [ht2, ht1, hw1r]; simp, ?_⟩
                intro t ht
                rcases List.mem_append.1 ht with h | h
                · exact hb1 t h
                · exact hb2 t h
          · rw [if_neg hdir]
            obtain ⟨new2, ht2, hb2⟩ := ih s e sni (wrap32 (i + 1))
              (Walk.mk nb (w.tree ++ [TreeEntry.mk (cstring nb) (cstring nb).length f1 f2])
                (w.trace ++ [Visit.mk i s e]) w.fault)
            refine ⟨TreeEntry.mk (cstring nb) (cstring nb).length f1 f2 :: new2,
              by rw [ht2]; simp, ?_⟩
            intro t ht
            rcases List.mem_cons.1 ht with h | h
            · rw [h]
              exact ⟨recordField_lt buffer i 4 f1 h4, recordField_lt buffer i 8 f2 h8⟩
            · exact hb2 t h
      · rw [recurseLoop_oob buffer fd base fuel s e sni i w hdone hnone]
        exact ⟨[], by simp⟩

/-- The tree `gcfs_init` leaves behind: nothing, the empty tree, the metadata
entry alone, or the metadata entry, the entry of the main executable and
entries from the directory table whose offset and size are 32-bit values. -/
theorem gcfs_init_tree (fuel : Nat) (fd metadata name_buffer : List Byte) (r : InitResult)
    (hr : gcfs_init fuel fd metadata name_buffer = r) :
    r.tree = none ∨ r.tree = some [] ∨ (∃ m, r.tree = some [m]) ∨
    (∃ m new, r.tree =
      some ([m] ++ [TreeEntry.mk (main_dol_filename (readAt fd 0 0x440))
          (main_dol_filename (readAt fd 0 0x440)).length
          ((BE_32 (readAt fd 0 0x440) 0x420).getD 0)
          (max_dol_section_offset (readAt fd ((BE_32 (readAt fd 0 0x440) 0x420).getD 0) 256))]
        ++ new) ∧
      (readAt fd ((BE_32 (readAt fd 0 0x440) 0x420).getD 0) 256).length = 256 ∧
      (readAt fd 0 0x440).length = 0x440 ∧
      ∀ t ∈ new, t.offset < 4294967296 ∧ t.size < 4294967296) := by
  unfold gcfs_init at hr
  dsimp only at hr
  split at hr
  · rw [← hr]; exact Or.inl rfl
  · rename_i hws
    split at hr
    · rw [← hr]; exact Or.inr (Or.inl rfl)
    · split at hr
      · rw [← hr]; exact Or.inr (Or.inr (Or.inl ⟨_, rfl⟩))
      · rename_i hdol
        have hws' : (readAt fd 0 0x440).length = 0x440 := by simpa using hws
        have hdol' : (readAt fd ((BE_32 (readAt fd 0 0x440) 0x420).getD 0) 256).length = 256 := by
          simpa using hdol
        refine Or.inr (Or.inr (Or.inr ?_))
        split at hr
        · rw [← hr]; exact ⟨_, [], rfl, hdol', hws', by simp⟩
        · split at hr
          · rw [← hr]; exact ⟨_, [], rfl, hdol', hws', by simp⟩
          · split at hr
            · rw [← hr]; exact ⟨_, [], rfl, hdol', hws', by simp⟩
            · split at hr
              · rw [← hr]; exact ⟨_, [], rfl, hdol', hws', by simp⟩
              · split at hr
                · rw [← hr]; exact ⟨_, [], rfl, hdol', hws', by simp⟩
                · rename_i nb _
                  unfold gcfs_recurse_directory at hr
                  dsimp only at hr
                  obtain ⟨new, ht, hb⟩ := loop_tree_extends
                    (readAt fd ((BE_32 (readAt fd 0 0x440) 0x424).getD 0) 12 ++
                      readAt fd ((BE_32 (readAt fd 0 0x440) 0x424).getD 0 + 12)
                        ((wrap32 (wrap32 ((BE_32 (readAt fd
                          ((BE_32 (readAt fd 0 0x440) 0x424).getD 0) 12) 8).getD 0 : Nat)
                            * 12)).toNat - 12))
                    fd _ fuel 2 _ 0 2 (Walk.mk nb _ [] none)
                  split at hr
                  · rw [← hr]; exact ⟨_, new, by rw [ht], hdol', hws', hb⟩
                  · rw [← hr]; exact ⟨_, new, by rw [ht], hdol', hws', hb⟩


theorem BE_32_take (l : List Byte) (n k : Nat) (h : k + 3 < n) :
    BE_32 (l.take n) k = BE_32 l k := by
  unfold BE_32
  have h0 : k < n := by omega
  have h1 : k + 1 < n := by omega
  have h2 : k + 2 < n := by omega
  simp only [List.getElem?_take, h0, h1, h2, h, if_true]

/-- C8 as amended: the entry `gcfs_init` inserts for the boot executable (the
second `tree_insert`) has offset `mainExecutableOffset`, the big-endian u32 at
image offset 0x420, and size the maximum, over the 7 code sections and the 10
data sections of the 256-byte header read there, of `offset + size` taken
modulo 2^32 (0 if every section is empty). -/
theorem C8_executable_entry (fuel : Nat) (fd metadata name_buffer : List Byte)
    (t : List TreeEntry) (e : TreeEntry)
    (ht : (gcfs_init fuel fd metadata name_buffer).tree = some t) (he : t[1]? = some e) :
    e.offset = (BE_32 fd 0x420).getD 0 ∧ (readAt fd e.offset 256).length = 256 ∧
    e.size = listMax (wrappedSectionEnds (readAt fd e.offset 256)) := by
  have hws : BE_32 (readAt fd 0 0x440) 0x420 = BE_32 fd 0x420 := by
    unfold readAt
    rw [List.drop_zero]
    exact BE_32_take fd 0x440 0x420 (by decide)
  rcases gcfs_init_tree fuel fd metadata name_buffer _ rfl with h | h | ⟨m, h⟩ | ⟨m, new, h, hdol, _, _⟩
  · rw [h] at ht; exact Option.noConfusion ht
  · rw [h] at ht
    injection ht with ht
    rw [← ht] at he
    simp at he
  · rw [h] at ht
    injection ht with ht
    rw [← ht] at he
    simp at he
  · rw [h] at ht
    injection ht with ht
    rw [← ht] at he
    simp only [List.singleton_append, List.cons_append, List.getElem?_cons_succ,
      List.getElem?_cons_zero, List.nil_append] at he
    injection he with he
    rw [← he]
    simp only
    rw [hws] at hdol ⊢
    exact ⟨rfl, hdol, max_dol_section_offset_eq _⟩

/-- Witness of C8 as amended, on the example image. -/
theorem C8_witness :
    (TreeEntry.mk (bytes "test-game-exe.dol") 17 0x440 0x260).offset =
      (BE_32 (exImage exReadme exReadmeStrings) 0x420).getD 0 ∧
    (readAt (exImage exReadme exReadmeStrings)
      (TreeEntry.mk (bytes "test-game-exe.dol") 17 0x440 0x260).offset 256).length = 256 ∧
    (TreeEntry.mk (bytes "test-game-exe.dol") 17 0x440 0x260).size =
      listMax (wrappedSectionEnds (readAt (exImage exReadme exReadmeStrings)
        (TreeEntry.mk (bytes "test-game-exe.dol") 17 0x440 0x260).offset 256)) :=
  C8_executable_entry 10 (exImage exReadme exReadmeStrings) (List.replicate 2048 0)
    (List.replicate 1024 0) exContext.tree
    (TreeEntry.mk (bytes "test-game-exe.dol") 17 0x440 0x260)
    (gcfs_init_context 10 (exImage exReadme exReadmeStrings) (List.replicate 2048 0)
      (List.replicate 1024 0) _ rfl exContext exContext_from_init).1 (by decide!)

/-- Counterexample to C8 as stated: for the header `exDolWrap`, whose first
code section has offset 0xFFFFFFFF and size 2, the entry inserted for the
boot executable has size 1, while the maximum of the exact sums of the
section fields is 4294967297. -/
theorem C8_counterexample :
    ((gcfs_init 10 exImageWrap (List.replicate 2048 0) (List.replicate 1024 0)).tree.getD [])[1]?
      = some (TreeEntry.mk (bytes "test-game-exe.dol") 17 0x440 1) ∧
    readAt exImageWrap 0x440 256 = exDolWrap ∧
    listMax (exactSectionEnds exDolWrap) = 4294967297 := by
  decide!

/-- C9, the code at the failing input: the first directory record announces
N = 2147483650 records, 12 bytes follow it (far fewer than (N-1)*12), and
`gcfs_init` returns a context all the same: `file_record_count * 12` is
computed as an `int`, which gives 24. -/
theorem C9_accepts_truncated_table :
    (gcfs_init 10 exImageHugeCount (List.replicate 2048 0)
      (List.replicate 1024 0)).outcome.isContext = true ∧
    (BE_32 (readAt exImageHugeCount 0x540 12) 8).getD 0 = 2147483650 ∧
    exImageHugeCount.length - (0x540 + 12) = 12 ∧
    12 < (2147483650 - 1) * 12 := by
  decide!

/-- The bytes `read` delivers: as many as asked for, or what is left. -/
theorem readAt_length (fd : List Byte) (pos count : Nat) :
    (readAt fd pos count).length = min count (fd.length - pos) := by
  unfold readAt
  rw [List.length_take, List.length_drop]

/-- The part of C9 that holds: `gcfs_init` returns no context when the image
is shorter than 0x440 bytes (and then no tree is created and nothing is
inserted), when fewer than 256 bytes are available at `mainExecutableOffset`,
when fewer than 12 bytes are available at `directoryTableOffset`, and when the
record count `N` has `1 ≤ N`, `12 * N ≤ INT_MAX` and fewer than `(N-1)*12`
bytes follow the first record. -/
theorem gcfs_init_rejects_short_reads (fuel : Nat) (fd metadata name_buffer : List Byte) :
    (fd.length < 0x440 →
      gcfs_init fuel fd metadata name_buffer = InitResult.mk InitOutcome.null none []) ∧
    (fd.length - (BE_32 fd 0x420).getD 0 < 256 →
      (gcfs_init fuel fd metadata name_buffer).outcome.isContext = false) ∧
    (fd.length - (BE_32 fd 0x424).getD 0 < 12 →
      (gcfs_init fuel fd metadata name_buffer).outcome.isContext = false) ∧
    (∀ N : Nat, (BE_32 (readAt fd ((BE_32 fd 0x424).getD 0) 12) 8).getD 0 = N → 1 ≤ N →
      12 * N < 2147483648 →
      fd.length - ((BE_32 fd 0x424).getD 0 + 12) < (N - 1) * 12 →
      (gcfs_init fuel fd metadata name_buffer).outcome.isContext = false) := by
  have key : ∀ r, gcfs_init fuel fd metadata name_buffer = r →
      (fd.length < 0x440 → r = InitResult.mk InitOutcome.null none []) ∧
      (fd.length - (BE_32 fd 0x420).getD 0 < 256 → r.outcome.isContext = false) ∧
      (fd.length - (BE_32 fd 0x424).getD 0 < 12 → r.outcome.isContext = false) ∧
      (∀ N : Nat, (BE_32 (readAt fd ((BE_32 fd 0x424).getD 0) 12) 8).getD 0 = N → 1 ≤ N →
        12 * N < 2147483648 →
        fd.length - ((BE_32 fd 0x424).getD 0 + 12) < (N - 1) * 12 →
        r.outcome.isContext = false) := by
    intro r hr
    unfold gcfs_init at hr
    dsimp only at hr
    have hl0 := readAt_length fd 0 0x440
    split at hr
    · rw [← hr]
      exact ⟨fun _ => rfl, fun _ => rfl, fun _ => rfl, fun _ _ _ _ _ => rfl⟩
    · rename_i hws
      have hws' : (readAt fd 0 0x440).length = 0x440 := by simpa using hws
      have hlen : 0x440 ≤ fd.length := by
        rw [hws'] at hl0
        omega
      have hw1 : BE_32 (readAt fd 0 0x440) 0x420 = BE_32 fd 0x420 := by
        unfold readAt
        rw [List.drop_zero]
        exact BE_32_take fd 0x440 0x420 (by decide)
      have hw2 : BE_32 (readAt fd 0 0x440) 0x424 = BE_32 fd 0x424 := by
        unfold readAt
        rw [List.drop_zero]
        exact BE_32_take fd 0x440 0x424 (by decide)
      rw [hw1, hw2] at hr
      refine ⟨fun h => absurd h (by omega), ?_⟩
      split at hr
      · rw [← hr]
        exact ⟨fun _ => rfl, fun _ => rfl, fun _ _ _ _ _ => rfl⟩
      · have hl1 := readAt_length fd ((BE_32 fd 0x420).getD 0) 256
        split at hr
        · rw [← hr]
          exact ⟨fun _ => rfl, fun _ => rfl, fun _ _ _ _ _ => rfl⟩
        · rename_i hdol
          have hdol' : (readAt fd ((BE_32 fd 0x420).getD 0) 256).length = 256 := by
            simpa using hdol
          rw [hdol'] at hl1
          refine ⟨fun h => absurd h (by omega), ?_⟩
          have hl2 := readAt_length fd ((BE_32 fd 0x424).getD 0) 12
          split at hr
          · rw [← hr]
            exact ⟨fun _ => rfl, fun _ _ _ _ _ => rfl⟩
          · rename_i hfirst
            have hfirst' : (readAt fd ((BE_32 fd 0x424).getD 0) 12).length = 12 := by
              simpa using hfirst
            rw [hfirst'] at hl2
            refine ⟨fun h => absurd h (by omega), ?_⟩
            intro N hN h1 h2 h3
            have hn : ((N : Int) * 12).toNat - 12 = (N - 1) * 12 := by omega
            have hl3 := readAt_length fd ((BE_32 fd 0x424).getD 0 + 12) ((N - 1) * 12)
            have hb1 : -2147483648 ≤ (N : Int) := by omega
            have hb2 : (N : Int) < 2147483648 := by omega
            have hb3 : -2147483648 ≤ (N : Int) * 12 := by omega
            have hb4 : (N : Int) * 12 < 2147483648 := by omega
            have hne : ¬ ((readAt fd ((BE_32 fd 0x424).getD 0 + 12) ((N - 1) * 12)).length
                = (N - 1) * 12) := by
              rw [hl3]; omega
            have hc : wrap32 ((N : Nat) : Int) = (N : Int) := wrap32_eq_self _ hb1 hb2
            have hs : wrap32 ((N : Int) * 12) = (N : Int) * 12 := wrap32_eq_self _ hb3 hb4
            split at hr
            · rw [← hr]; rfl
            · split at hr
              · rw [← hr]; rfl
              · split at hr
                · rw [← hr]; rfl
                · rename_i hrest
                  rw [hN, hc, hs, hn] at hrest
                  exact absurd (by simpa using hrest) hne
  exact key _ rfl

theorem and_flag_ne_zero_iff (f0 : Nat) : f0 &&& 0x01000000 ≠ 0 ↔ f0.testBit 24 = true := by
  have h : (0x01000000 : Nat) = 2 ^ 24 := by norm_num
  rw [h, Nat.and_two_pow]
  cases f0.testBit 24 <;> simp

/-- C10 as amended: a decodable record is treated as a directory exactly when
bit 24 of its first field (mask 0x01000000, the low bit of the most
significant byte) is set: then the loop body appends '/' and makes the
recursive call, inserting nothing itself; otherwise it is treated as a file:
the loop body makes one `tree_insert` and goes on with the next index. -/
theorem C10_directory_flag_is_bit_24 (buffer fd : List Byte) (base fuel : Nat) (s e : Int)
    (sni : Nat) (i : Int) (w : Walk) (f0 f1 f2 : Nat) (h : ¬ e < i)
    (h0 : recordField buffer i 0 = some f0) (h4 : recordField buffer i 4 = some f1)
    (h8 : recordField buffer i 8 = some f2) :
    (isDirRecord buffer i = true ↔ f0.testBit 24 = true) ∧
    (f0.testBit 24 = true → ∀ nb ni nb2 ni2,
      getFilename fd (((f0 &&& 0xFEFFFFFF) + base) % 4294967296) w.name_buffer sni
        = .ok (nb, ni) →
      appendSlash nb ni = .ok (nb2, ni2) →
      recurseLoop buffer fd base (fuel + 1) s e sni i w =
        (if (recurseLoop buffer fd base fuel (wrap32 (i + 1)) (wrap32 f2) ni2 (wrap32 (i + 1))
              (Walk.mk nb2 w.tree (w.trace ++ [Visit.mk i s e]) w.fault)).fault.isSome
          then recurseLoop buffer fd base fuel (wrap32 (i + 1)) (wrap32 f2) ni2 (wrap32 (i + 1))
              (Walk.mk nb2 w.tree (w.trace ++ [Visit.mk i s e]) w.fault)
          else recurseLoop buffer fd base fuel s e sni
              (wrap32 (wrap32 (i + wrap32 (wrap32 (wrap32 f2 - wrap32 (i + 1)) + 1)) + 1))
              (recurseLoop buffer fd base fuel (wrap32 (i + 1)) (wrap32 f2) ni2 (wrap32 (i + 1))
                (Walk.mk nb2 w.tree (w.trace ++ [Visit.mk i s e]) w.fault)))) ∧
    (f0.testBit 24 = false → ∀ nb ni,
      getFilename fd (((f0 &&& 0xFEFFFFFF) + base) % 4294967296) w.name_buffer sni
        = .ok (nb, ni) →
      recurseLoop buffer fd base (fuel + 1) s e sni i w =
        recurseLoop buffer fd base fuel s e sni (wrap32 (i + 1))
          (Walk.mk nb (w.tree ++ [TreeEntry.mk (cstring nb) (cstring nb).length f1 f2])
            (w.trace ++ [Visit.mk i s e]) w.fault)) := by
  have hstep := recurseLoop_step buffer fd base fuel s e sni i w h f0 f1 f2 h0 h4 h8
  refine ⟨(isDirRecord_eq buffer i f0 h0).trans (and_flag_ne_zero_iff f0), ?_, ?_⟩
  · intro hb nb ni nb2 ni2 hg ha
    have hdir : f0 &&& 0x01000000 ≠ 0 := (and_flag_ne_zero_iff f0).2 hb
    rw [hstep, hg]
    simp only
    rw [if_pos hdir, ha]
  · intro hb nb ni hg
    have hdir : ¬ (f0 &&& 0x01000000 ≠ 0) := by
      rw [and_flag_ne_zero_iff, hb]; simp
    rw [hstep, hg]
    simp only
    rw [if_neg hdir]

/-- Witness of C10 as amended, at the file record of `exReadme`. -/
theorem C10_witness :
    (isDirRecord exReadme 2 = true ↔ (0 : Nat).testBit 24 = true) ∧
    ((0 : Nat).testBit 24 = true → ∀ nb ni nb2 ni2,
      getFilename exReadmeStrings ((((0 : Nat) &&& 0xFEFFFFFF) + 0) % 4294967296)
        (Walk.mk (List.replicate 1024 0) [] [] none).name_buffer 0 = .ok (nb, ni) →
      appendSlash nb ni = .ok (nb2, ni2) →
      recurseLoop exReadme exReadmeStrings 0 (1 + 1) 2 2 0 2
          (Walk.mk (List.replicate 1024 0) [] [] none) =
        (if (recurseLoop exReadme exReadmeStrings 0 1 (wrap32 (2 + 1)) (wrap32 (10 : Nat)) ni2
              (wrap32 (2 + 1))
              (Walk.mk nb2 [] ([] ++ [Visit.mk 2 2 2]) none)).fault.isSome
          then recurseLoop exReadme exReadmeStrings 0 1 (wrap32 (2 + 1)) (wrap32 (10 : Nat)) ni2
              (wrap32 (2 + 1)) (Walk.mk nb2 [] ([] ++ [Visit.mk 2 2 2]) none)
          else recurseLoop exReadme exReadmeStrings 0 1 2 2 0
              (wrap32 (wrap32 (2 + wrap32 (wrap32 (wrap32 (10 : Nat) - wrap32 (2 + 1)) + 1)) + 1))
              (recurseLoop exReadme exReadmeStrings 0 1 (wrap32 (2 + 1)) (wrap32 (10 : Nat)) ni2
                (wrap32 (2 + 1)) (Walk.mk nb2 [] ([] ++ [Visit.mk 2 2 2]) none)))) ∧
    ((0 : Nat).testBit 24 = false → ∀ nb ni,
      getFilename exReadmeStrings ((((0 : Nat) &&& 0xFEFFFFFF) + 0) % 4294967296)
        (Walk.mk (List.replicate 1024 0) [] [] none).name_buffer 0 = .ok (nb, ni) →
      recurseLoop exReadme exReadmeStrings 0 (1 + 1) 2 2 0 2
          (Walk.mk (List.replicate 1024 0) [] [] none) =
        recurseLoop exReadme exReadmeStrings 0 1 2 2 0 (wrap32 (2 + 1))
          (Walk.mk nb ([] ++ [TreeEntry.mk (cstring nb) (cstring nb).length 0x1000 10])
            ([] ++ [Visit.mk 2 2 2]) none)) :=
  C10_directory_flag_is_bit_24 exReadme exReadmeStrings 0 1 2 2 0 2
    (Walk.mk (List.replicate 1024 0) [] [] none) 0 0x1000 10 (by decide)
    (by decide!) (by decide!) (by decide!)

/-- Counterexample to C10 as stated: a record whose first field 0x80000000 has
the top bit set is treated as a file (one `tree_insert` with its second and
third fields, no recursive call), and a record whose first field 0x01000000
has the top bit clear is treated as a directory (no `tree_insert`). -/
theorem C10_counterexample :
    (0x80000000 : Nat).testBit 31 = true ∧
    (gcfs_recurse_directory 3 exTopBit 2 2 0 exReadmeStrings 0
        (Walk.mk (List.replicate 1024 0) [] [] none)).1.tree.map
        (fun t => (t.offset, t.size)) = [(0x1000, 10)] ∧
    (gcfs_recurse_directory 3 exTopBit 2 2 0 exReadmeStrings 0
        (Walk.mk (List.replicate 1024 0) [] [] none)).1.fault = none ∧
    (0x01000000 : Nat).testBit 31 = false ∧
    (gcfs_recurse_directory 3 exBit24 2 2 0 exReadmeStrings 0
        (Walk.mk (List.replicate 1024 0) [] [] none)).1.tree = [] ∧
    (gcfs_recurse_directory 3 exBit24 2 2 0 exReadmeStrings 0
        (Walk.mk (List.replicate 1024 0) [] [] none)).1.fault = none := by
  decide!

theorem sanitize_eq_spec : ∀ c : Byte,
    (if c = 0x20 then some (0x2D : Byte)
      else if isalnum c then (if isupper c then some (tolower c) else some c)
      else none) = specSanitize c := by
  decide!

theorem specSanitize_all : ∀ c : Byte,
    (specSanitize c).all (fun b => isNameByte b && b != 0) = true := by
  decide!

theorem specSanitize_isNameByte (c b : Byte) (h : specSanitize c = some b) :
    isNameByte b = true ∧ b ≠ 0 := by
  have := specSanitize_all c
  rw [h] at this
  simpa using this

theorem main_dol_filename_eq_spec (workspace : List Byte) :
    main_dol_filename workspace = specDolName ((workspace.drop 32).take 0x3E0) := by
  unfold main_dol_filename specDolName
  congr 1
  apply congrArg (fun f => List.filterMap f ((workspace.drop 32).take 0x3E0))
  funext c
  exact sanitize_eq_spec c


/-- The loop of lines 321-332 stores the sanitized bytes one after the other
behind what is already in the array. -/
theorem dolNameLoop_spec : ∀ (cs P T : List Byte),
    (cs.filterMap specSanitize).length ≤ T.length →
    dolNameLoop cs (P ++ T) P.length =
      some (P ++ cs.filterMap specSanitize ++ T.drop (cs.filterMap specSanitize).length,
        P.length + (cs.filterMap specSanitize).length) := by
  intro cs
  induction cs with
  | nil => intro P T _; simp [dolNameLoop]
  | cons c cs ih =>
    intro P T hT
    have hs := sanitize_eq_spec c
    have key : ∀ b : Byte, specSanitize c = some b →
        (match store (P ++ T) P.length b with
          | none => none
          | some filename => dolNameLoop cs filename (P.length + 1)) =
        some (P ++ (c :: cs).filterMap specSanitize ++
            T.drop ((c :: cs).filterMap specSanitize).length,
          P.length + ((c :: cs).filterMap specSanitize).length) := by
      intro b hb
      rw [List.filterMap_cons, hb] at hT ⊢
      simp only [List.length_cons] at hT ⊢
      obtain ⟨x, T1, hTx⟩ : ∃ x T1, T = x :: T1 := by
        cases T with
        | nil => simp at hT
        | cons x T1 => exact ⟨x, T1, rfl⟩
      subst hTx
      rw [store_append_cons]
      simp only
      have hP : P ++ b :: T1 = (P ++ [b]) ++ T1 := by simp
      have hl : P.length + 1 = (P ++ [b]).length := by simp
      rw [hP, hl, ih (P ++ [b]) T1 (by simpa using hT)]
      have e1 : (List.filterMap specSanitize cs).length + 1 =
          1 + (List.filterMap specSanitize cs).length := Nat.add_comm _ _
      simp only [List.length_append, List.length_singleton, List.append_assoc,
        List.singleton_append, List.drop_succ_cons, Nat.add_assoc, e1]
      rw [← e1, List.drop_succ_cons]
    rw [dolNameLoop]
    by_cases h1 : c = 0x20
    · rw [if_pos h1] at hs ⊢
      exact key _ hs.symm
    · rw [if_neg h1] at hs ⊢
      by_cases h2 : isalnum c = true
      · rw [if_pos h2] at hs ⊢
        by_cases h3 : isupper c = true
        · rw [if_pos h3] at hs ⊢
          exact key _ hs.symm
        · rw [if_neg h3] at hs ⊢
          exact key _ hs.symm
      · rw [if_neg h2] at hs ⊢
        rw [List.filterMap_cons, ← hs] at hT ⊢
        exact ih P T hT

theorem suffix_ne_zero : ∀ b ∈ bytes "-exe.dol", b ≠ 0 := by decide!

theorem strlen_append_zero (A R : List Byte) (hA : ∀ b ∈ A, b ≠ 0) :
    strlen (A ++ 0 :: R) = some A.length := by
  unfold strlen strlenFrom
  simp only [List.drop_zero, Nat.zero_add]
  have : (A ++ 0 :: R).takeWhile (fun b => b != 0) = A := cstring_append_zero A R hA
  rw [this, if_pos (by simp)]

/-- `strcat` onto a string that leaves room in its array. -/
theorem strcat_append_zero (A R src : List Byte) (hA : ∀ b ∈ A, b ≠ 0)
    (hroom : src.length ≤ R.length) :
    strcat (A ++ 0 :: R) src = some (A ++ src ++ 0 :: R.drop src.length) := by
  unfold strcat
  rw [strlen_append_zero A R hA]
  simp only
  have hlt : A.length + src.length < (A ++ 0 :: R).length := by
    simp only [List.length_append, List.length_cons]; omega
  rw [if_pos hlt]
  have h1 : (A ++ 0 :: R).take A.length = A := by simp
  have h2 : (A ++ (0 : Byte) :: R).drop (A.length + src.length + 1) = R.drop src.length := by
    have : A.length + src.length + 1 = A.length + (src.length + 1) := by omega
    rw [this, List.drop_append, List.drop_succ_cons]
  rw [h1, h2]
  simp

/-- The array model of lines 321-334 yields `main_dol_filename`, whatever the
`main_dol_filename` array held before: nothing is stored outside the array
and the `strcat` lands right behind the sanitized title. -/
theorem main_dol_filename_array_eq (workspace filename : List Byte)
    (hlen : filename.length = MAX_MAIN_DOL_FILENAME_SIZE) :
    main_dol_filename_array workspace filename = some (main_dol_filename workspace) := by
  have hM : MAX_MAIN_DOL_FILENAME_SIZE = 1024 := rfl
  rw [main_dol_filename_eq_spec]
  unfold main_dol_filename_array specDolName
  generalize hcs : (workspace.drop 32).take 0x3E0 = cs
  have hcl : cs.length ≤ 0x3E0 := by rw [← hcs]; simp
  have hout : (cs.filterMap specSanitize).length ≤ 0x3E0 :=
    le_trans (List.length_filterMap_le _ _) hcl
  have hnz : ∀ b ∈ cs.filterMap specSanitize, b ≠ 0 := by
    intro b hb
    obtain ⟨c, _, hc⟩ := List.mem_filterMap.1 hb
    exact (specSanitize_isNameByte c b hc).2
  have h := dolNameLoop_spec cs [] filename (by omega)
  simp only [List.nil_append, List.length_nil, Nat.zero_add] at h
  rw [h]
  simp only
  obtain ⟨x, R, hR⟩ : ∃ x R, filename.drop (cs.filterMap specSanitize).length = x :: R := by
    cases hT : filename.drop (cs.filterMap specSanitize).length with
    | nil =>
      have := congrArg List.length hT
      simp only [List.length_drop, List.length_nil] at this
      omega
    | cons x R => exact ⟨x, R, rfl⟩
  have hRl : R.length + 1 = filename.length - (cs.filterMap specSanitize).length := by
    have := congrArg List.length hR
    simp only [List.length_drop, List.length_cons] at this
    omega
  rw [hR, store_append_cons]
  simp only
  have hsrc : (bytes "-exe.dol").length = 8 := by decide
  rw [strcat_append_zero _ R (bytes "-exe.dol") hnz (by omega)]
  simp only
  rw [cstring_append_zero]
  intro b hb
  rcases List.mem_append.1 hb with h | h
  · exact hnz b h
  · exact suffix_ne_zero b h

theorem exReadme_init_tree :
    (gcfs_init 10 (exImage exReadme exReadmeStrings) (List.replicate 2048 0)
      (List.replicate 1024 0)).tree = some exContext.tree :=
  (gcfs_init_context 10 (exImage exReadme exReadmeStrings) (List.replicate 2048 0)
    (List.replicate 1024 0) _ rfl exContext exContext_from_init).1

theorem title_field (fd : List Byte) :
    ((readAt fd 0 0x440).drop 32).take 0x3E0 = (fd.drop 32).take 0x3E0 := by
  unfold readAt
  rw [List.drop_zero, List.drop_take, List.take_take]
  rfl

/-- C11: whenever `gcfs_init` inserts the boot-executable entry (the second
insert), its name is the title field (the 0x3E0 bytes at image offset 0x20)
scanned in order with each space turned into '-', each ASCII uppercase letter
into its lowercase form, ASCII lowercase letters and digits kept, every other
byte dropped, followed by "-exe.dol"; the recorded name length is the length of
that string; everything before the suffix is drawn from [a-z0-9-]; the
`main_dol_filename` array of 1024 bytes, whatever it held before, receives
exactly that string without a store outside it; and a title "Test Game"
followed by NUL padding gives "test-game-exe.dol". -/
theorem C11_executable_name_is_sanitized_title (fuel : Nat)
    (fd metadata name_buffer : List Byte) (t : List TreeEntry) (e : TreeEntry)
    (ht : (gcfs_init fuel fd metadata name_buffer).tree = some t)
    (he : t[1]? = some e) :
    e.name = specDolName ((fd.drop 32).take 0x3E0) ∧
    ((fd.drop 32).take 0x3E0).length = 0x3E0 ∧
    e.namelen = e.name.length ∧
    (∀ b ∈ ((fd.drop 32).take 0x3E0).filterMap specSanitize, isNameByte b = true) ∧
    (∀ filename : List Byte, filename.length = MAX_MAIN_DOL_FILENAME_SIZE →
      main_dol_filename_array (readAt fd 0 0x440) filename = some e.name) ∧
    specDolName (padTo 0x3E0 (bytes "Test Game")) = bytes "test-game-exe.dol" := by
  have hname : main_dol_filename (readAt fd 0 0x440) =
      specDolName ((fd.drop 32).take 0x3E0) := by
    rw [main_dol_filename_eq_spec, title_field]
  have hbytes : ∀ b ∈ ((fd.drop 32).take 0x3E0).filterMap specSanitize,
      isNameByte b = true := by
    intro b hb
    obtain ⟨c, _, hc⟩ := List.mem_filterMap.1 hb
    exact (specSanitize_isNameByte c b hc).1
  have hex : specDolName (padTo 0x3E0 (bytes "Test Game")) = bytes "test-game-exe.dol" := by
    decide!
  rcases gcfs_init_tree fuel fd metadata name_buffer _ rfl with h | h | ⟨m, h⟩ |
    ⟨m, new, h, _, hws, _⟩
  · rw [h] at ht; cases ht
  · rw [h] at ht; cases ht; cases he
  · rw [h] at ht; cases ht; cases he
  · rw [h] at ht
    cases ht
    have he2 : some (TreeEntry.mk (main_dol_filename (readAt fd 0 0x440))
        (main_dol_filename (readAt fd 0 0x440)).length
        ((BE_32 (readAt fd 0 0x440) 0x420).getD 0)
        (max_dol_section_offset (readAt fd ((BE_32 (readAt fd 0 0x440) 0x420).getD 0) 256)))
        = some e := by
      simpa only [List.singleton_append, List.cons_append, List.nil_append,
        List.getElem?_cons_succ, List.getElem?_cons_zero] using he
    cases he2
    have hlen : ((fd.drop 32).take 0x3E0).length = 0x3E0 := by
      have h1 := congrArg List.length (title_field fd)
      rw [← h1, List.length_take, List.length_drop, hws]
      rfl
    refine ⟨hname, hlen, ?_, hbytes, ?_, hex⟩
    · rfl
    · intro filename hf
      exact main_dol_filename_array_eq _ filename hf

theorem C11_witness :
    (gcfs_init 10 (exImage exReadme exReadmeStrings) (List.replicate 2048 0)
      (List.replicate 1024 0)).tree = some exContext.tree ∧
    (TreeEntry.mk (bytes "test-game-exe.dol") 17 0x440 0x260).name =
      specDolName (((exImage exReadme exReadmeStrings).drop 32).take 0x3E0) :=
  ⟨exReadme_init_tree,
    (C11_executable_name_is_sanitized_title 10 (exImage exReadme exReadmeStrings)
      (List.replicate 2048 0) (List.replicate 1024 0) exContext.tree
      (TreeEntry.mk (bytes "test-game-exe.dol") 17 0x440 0x260)
      exReadme_init_tree rfl).1⟩

theorem printableOrQuestion_ne_zero : ∀ c : Byte, printableOrQuestion c ≠ 0 := by decide!

theorem storeCodes_spec : ∀ (cs A T : List Byte), cs.length ≤ T.length →
    storeCodes cs (A ++ T) A.length =
      some (A ++ cs.map printableOrQuestion ++ T.drop cs.length, A.length + cs.length) := by
  intro cs
  induction cs with
  | nil => intro A T _; simp [storeCodes]
  | cons c cs ih =>
    intro A T hT
    obtain ⟨x, T1, hTx⟩ : ∃ x T1, T = x :: T1 := by
      cases T with
      | nil => simp at hT
      | cons x T1 => exact ⟨x, T1, rfl⟩
    subst hTx
    rw [storeCodes, store_append_cons]
    simp only
    have hP : A ++ printableOrQuestion c :: T1 = (A ++ [printableOrQuestion c]) ++ T1 := by simp
    have hl : A.length + 1 = (A ++ [printableOrQuestion c]).length := by simp
    rw [hP, hl, ih (A ++ [printableOrQuestion c]) T1 (by simpa using hT)]
    simp only [List.length_append, List.length_singleton, List.append_assoc,
      List.singleton_append, List.map_cons, List.length_cons, List.drop_succ_cons, Nat.add_assoc,
      Nat.add_comm 1, List.length_nil, Nat.zero_add]

theorem drop_eq_zero_cons (m : List Byte) (k : Nat) (h : m[k]? = some 0) :
    m.drop k = 0 :: m.drop (k + 1) := by
  obtain ⟨hk, hv⟩ := List.getElem?_eq_some_iff.1 h
  rw [List.drop_eq_getElem_cons hk, hv]

/-- `strcat` on an array that holds the string `A` and, behind its NUL, what
the array `m` holds there. -/
theorem strcat_tail (m A src : List Byte) (hA : ∀ b ∈ A, b ≠ 0)
    (h : A.length + src.length < m.length) :
    strcat (A ++ 0 :: m.drop (A.length + 1)) src =
      some ((A ++ src) ++ 0 :: m.drop ((A ++ src).length + 1)) := by
  rw [strcat_append_zero A _ src hA (by rw [List.length_drop]; omega), List.drop_drop,
    List.length_append]
  have e : A.length + 1 + src.length = A.length + src.length + 1 := by omega
  rw [e]

/-- The loop storing code bytes over the NUL of the string `A`: the string is
terminated again only if the array held a NUL behind the last byte stored. -/
theorem storeCodes_tail (m A cs : List Byte) (hcs : 1 ≤ cs.length)
    (h : A.length + cs.length < m.length)
    (h0 : m[A.length + cs.length]? = some 0) :
    storeCodes cs (A ++ 0 :: m.drop (A.length + 1)) A.length =
      some ((A ++ cs.map printableOrQuestion) ++
        0 :: m.drop ((A ++ cs.map printableOrQuestion).length + 1), A.length + cs.length) := by
  rw [storeCodes_spec cs A _ (by rw [List.length_cons, List.length_drop]; omega)]
  obtain ⟨k, hk⟩ : ∃ k, cs.length = k + 1 := ⟨cs.length - 1, by omega⟩
  have e : (0 :: m.drop (A.length + 1)).drop cs.length = m.drop (A.length + cs.length) := by
    rw [hk, List.drop_succ_cons, List.drop_drop]
    congr 1
    omega
  rw [e, drop_eq_zero_cons m _ h0, List.length_append, List.length_map]

theorem noNul_append (A B : List Byte) (hA : ∀ b ∈ A, b ≠ 0) (hB : ∀ b ∈ B, b ≠ 0) :
    ∀ b ∈ A ++ B, b ≠ 0 := by
  intro b hb
  rcases List.mem_append.1 hb with h | h
  · exact hA b h
  · exact hB b h

theorem noNul_codes (cs : List Byte) : ∀ b ∈ cs.map printableOrQuestion, b ≠ 0 := by
  intro b hb
  obtain ⟨c, _, hc⟩ := List.mem_map.1 hb
  rw [← hc]
  exact printableOrQuestion_ne_zero c

theorem ite_prop (P : List Byte → Prop) (c : Prop) [Decidable c] (a b : List Byte)
    (ha : P a) (hb : P b) : P (if c then a else b) := by
  split
  · exact ha
  · exact hb

theorem gamecube_publisher_name_bound (c1 c2 : Byte) :
    (gamecube_publisher_name c1 c2).length ≤ 17 ∧
    ∀ b ∈ gamecube_publisher_name c1 c2, b ≠ 0 := by
  unfold gamecube_publisher_name
  repeat (refine ite_prop (fun l => l.length ≤ 17 ∧ ∀ b ∈ l, b ≠ 0) _ _ _ (by decide!) ?_)
  decide!

theorem strncat_CRLF (dst : List Byte) : strncat dst CRLF CRLF.length = strcat dst CRLF := by
  unfold strncat
  have hcr : (CRLF.take CRLF.length).takeWhile (fun b => b != 0) = CRLF := by decide
  rw [hcr]

theorem metadataGameCode_spec (workspace metadata : List Byte)
    (hws : 4 ≤ workspace.length) (hm : 18 ≤ metadata.length)
    (h15 : metadata[15]? = some 0) :
    metadataGameCode workspace metadata =
      some ((bytes "Game code: " ++ (workspace.take 4).map printableOrQuestion ++ CRLF)
        ++ 0 :: metadata.drop ((bytes "Game code: " ++
          (workspace.take 4).map printableOrQuestion ++ CRLF).length + 1)) := by
  unfold metadataGameCode
  obtain ⟨x, M, hM⟩ : ∃ x M, metadata = x :: M := by
    cases metadata with
    | nil => simp at hm
    | cons x M => exact ⟨x, M, rfl⟩
  have hM1 : M = metadata.drop (([] : List Byte).length + 1) := by rw [hM]; rfl
  have h0 : store metadata 0 0 = some ([] ++ 0 :: metadata.drop (([] : List Byte).length + 1)) := by
    rw [← hM1, hM]; exact store_append_cons [] M x 0
  have hG : (bytes "Game code: ").length = 11 := by decide
  have hGz : ∀ b ∈ bytes "Game code: ", b ≠ 0 := by decide!
  have hc4 : (workspace.take 4).length = 4 := by rw [List.length_take]; omega
  have h1 := strcat_tail metadata [] (bytes "Game code: ") (by simp)
    (by simp only [List.length_nil, hG]; omega)
  have h2 : strlen (bytes "Game code: " ++ 0 :: metadata.drop ((bytes "Game code: ").length + 1))
      = some (bytes "Game code: ").length := strlen_append_zero _ _ hGz
  have h3 := storeCodes_tail metadata (bytes "Game code: ") (workspace.take 4) (by omega)
    (by omega) (by rw [hG, hc4]; exact h15)
  have h4 := strcat_tail metadata (bytes "Game code: " ++ (workspace.take 4).map printableOrQuestion)
    CRLF (noNul_append _ _ hGz (noNul_codes _))
    (by rw [List.length_append, List.length_map, hG, hc4]; exact hm)
  rw [h0]
  simp only [Option.bind_eq_bind, Option.some_bind]
  rw [h1]
  simp only [Option.some_bind, List.nil_append]
  rw [h2]
  simp only [Option.some_bind]
  rw [h3]
  simp only [Option.some_bind]
  rw [strncat_CRLF]
  exact h4

theorem metadataPublisher_spec (workspace m S : List Byte)
    (hws : 6 ≤ workspace.length) (hS : ∀ b ∈ S, b ≠ 0) (hm : S.length + 40 < m.length)
    (h0 : m[S.length + 18]? = some 0) :
    metadataPublisher workspace (S ++ 0 :: m.drop (S.length + 1)) =
      some ((S ++ bytes "Publisher code: " ++ ((workspace.drop 4).take 2).map printableOrQuestion
          ++ bytes " (" ++ gamecube_publisher_name (workspace.getD 4 0) (workspace.getD 5 0)
          ++ bytes ")" ++ CRLF)
        ++ 0 :: m.drop ((S ++ bytes "Publisher code: " ++
          ((workspace.drop 4).take 2).map printableOrQuestion
          ++ bytes " (" ++ gamecube_publisher_name (workspace.getD 4 0) (workspace.getD 5 0)
          ++ bytes ")" ++ CRLF).length + 1)) := by
  unfold metadataPublisher
  obtain ⟨hNl, hNz⟩ := gamecube_publisher_name_bound (workspace.getD 4 0) (workspace.getD 5 0)
  generalize gamecube_publisher_name (workspace.getD 4 0) (workspace.getD 5 0) = N at hNl hNz ⊢
  have hP : (bytes "Publisher code: ").length = 16 := by decide
  have hPz : ∀ b ∈ bytes "Publisher code: ", b ≠ 0 := by decide!
  have hO : (bytes " (").length = 2 := by decide
  have hOz : ∀ b ∈ bytes " (", b ≠ 0 := by decide!
  have hC : (bytes ")").length = 1 := by decide
  have hCz : ∀ b ∈ bytes ")", b ≠ 0 := by decide!
  have hR : CRLF.length = 2 := rfl
  have hc2 : ((workspace.drop 4).take 2).length = 2 := by
    rw [List.length_take, List.length_drop]; omega
  generalize hcs : (workspace.drop 4).take 2 = cs at hc2 ⊢
  have z1 := noNul_append _ _ hS hPz
  have z2 := noNul_append _ _ z1 (noNul_codes cs)
  have z3 := noNul_append _ _ z2 hOz
  have z4 := noNul_append _ _ z3 hNz
  have z5 := noNul_append _ _ z4 hCz
  have h1 := strcat_tail m S (bytes "Publisher code: ") hS (by omega)
  have h2 := strlen_append_zero (S ++ bytes "Publisher code: ")
    (m.drop ((S ++ bytes "Publisher code: ").length + 1)) z1
  have h3 := storeCodes_tail m (S ++ bytes "Publisher code: ") cs (by omega)
    (by rw [List.length_append]; omega)
    (by rw [List.length_append, hP, hc2]; exact h0)
  have h4 := strcat_tail m _ (bytes " (") z2
    (by simp only [List.length_append, List.length_map]; omega)
  have h5 := strcat_tail m _ N z3
    (by simp only [List.length_append, List.length_map]; omega)
  have h6 := strcat_tail m _ (bytes ")") z4
    (by simp only [List.length_append, List.length_map]; omega)
  have h7 := strcat_tail m _ CRLF z5
    (by simp only [List.length_append, List.length_map]; omega)
  simp only [Option.bind_eq_bind]
  rw [h1]
  simp only [Option.some_bind]
  rw [h2]
  simp only [Option.some_bind]
  rw [h3]
  simp only [Option.some_bind]
  rw [h4]
  simp only [Option.some_bind]
  rw [h5]
  simp only [Option.some_bind]
  rw [h6]
  simp only [Option.some_bind]
  rw [strncat_CRLF]
  exact h7

theorem metadataTitle_spec (workspace m S : List Byte)
    (hS : ∀ b ∈ S, b ≠ 0) (hm : m.length = METADATA_FILE_MAX_SIZE)
    (hl : S.length + 1001 < METADATA_FILE_MAX_SIZE - 1) :
    ∃ tail, metadataTitle workspace (S ++ 0 :: m.drop (S.length + 1)) =
      some ((S ++ bytes "Title: " ++
          ((workspace.drop 32).take 0x3E0).takeWhile (fun b => b != 0) ++ CRLF) ++ 0 :: tail,
        (S ++ bytes "Title: " ++
          ((workspace.drop 32).take 0x3E0).takeWhile (fun b => b != 0) ++ CRLF).length) ∧
      ((S ++ bytes "Title: " ++
          ((workspace.drop 32).take 0x3E0).takeWhile (fun b => b != 0) ++ CRLF) ++ 0 :: tail).length
        = METADATA_FILE_MAX_SIZE := by
  unfold metadataTitle strncat
  have hMx : METADATA_FILE_MAX_SIZE = 2048 := rfl
  rw [hMx] at hm hl ⊢
  have hT : (bytes "Title: ").length = 7 := by decide
  have hTz : ∀ b ∈ bytes "Title: ", b ≠ 0 := by decide!
  have hR : CRLF.length = 2 := rfl
  have hRz : ∀ b ∈ CRLF, b ≠ 0 := by decide!
  have hcr : (CRLF.take CRLF.length).takeWhile (fun b => b != 0) = CRLF := by decide
  have htl : (((workspace.drop 32).take 0x3E0).takeWhile (fun b => b != 0)).length ≤ 0x3E0 :=
    le_trans (List.takeWhile_prefix _).length_le (by rw [List.length_take]; exact min_le_left _ _)
  have htz : ∀ b ∈ ((workspace.drop 32).take 0x3E0).takeWhile (fun b => b != 0), b ≠ 0 := by
    intro b hb
    simpa using List.mem_takeWhile_imp hb
  generalize ((workspace.drop 32).take 0x3E0).takeWhile (fun b => b != 0) = title at htl htz ⊢
  have z1 := noNul_append _ _ hS hTz
  have z2 := noNul_append _ _ z1 htz
  have z3 := noNul_append _ _ z2 hRz
  have h1 := strcat_tail m S (bytes "Title: ") hS (by omega)
  have h2 := strcat_tail m _ title z1 (by simp only [List.length_append]; omega)
  have h3 := strcat_tail m _ CRLF z2 (by simp only [List.length_append]; omega)
  have hlen : (S ++ bytes "Title: " ++ title ++ CRLF).length < 2047 := by
    simp only [List.length_append]; omega
  generalize S ++ bytes "Title: " ++ title ++ CRLF = text at z3 h3 hlen ⊢
  obtain ⟨k, hk⟩ : ∃ k, 2048 - 1 = text.length + (k + 1) :=
    ⟨2046 - text.length, by omega⟩
  have hRl : (m.drop (text.length + 1)).length = 2047 - text.length := by
    rw [List.length_drop]; omega
  have h4 : store (text ++ 0 :: m.drop (text.length + 1)) (2048 - 1) 0 =
      some (text ++ 0 :: (m.drop (text.length + 1)).set k 0) := by
    unfold store
    rw [if_pos (by simp only [List.length_append, List.length_cons, hRl]; omega), hk,
      List.set_append_right _ _ (by omega)]
    have e : text.length + (k + 1) - text.length = k + 1 := by omega
    rw [e, List.set_cons_succ]
  have h5 := strlen_append_zero text ((m.drop (text.length + 1)).set k 0) z3
  refine ⟨(m.drop (text.length + 1)).set k 0, ?_, ?_⟩
  · simp only [Option.bind_eq_bind, Option.pure_def]
    rw [h1]
    simp only [Option.some_bind]
    rw [h2]
    simp only [Option.some_bind]
    rw [hcr, h3]
    simp only [Option.some_bind]
    rw [h4]
    simp only [Option.some_bind]
    rw [h5]
    simp only [Option.some_bind]
  · simp only [List.length_append, List.length_cons, List.length_set, hRl]
    omega

/-- The metadata assembly of `gcfs_init` gives the text of the specification
when the array `malloc` returned holds a NUL at index 15 (behind the game
code bytes) and at index 35 (behind the publisher code bytes). -/
theorem build_metadata_spec (workspace metadata : List Byte)
    (hws : workspace.length = 0x440) (hm : metadata.length = METADATA_FILE_MAX_SIZE)
    (h15 : metadata[15]? = some 0) (h35 : metadata[35]? = some 0) :
    ∃ tail, build_metadata workspace metadata =
        some (specMetadata workspace ++ 0 :: tail, (specMetadata workspace).length) ∧
      (specMetadata workspace ++ 0 :: tail).length = METADATA_FILE_MAX_SIZE := by
  have hMx : METADATA_FILE_MAX_SIZE = 2048 := rfl
  have hG : (bytes "Game code: ").length = 11 := by decide
  have hGz : ∀ b ∈ bytes "Game code: ", b ≠ 0 := by decide!
  have hP : (bytes "Publisher code: ").length = 16 := by decide
  have hPz : ∀ b ∈ bytes "Publisher code: ", b ≠ 0 := by decide!
  have hO : (bytes " (").length = 2 := by decide
  have hOz : ∀ b ∈ bytes " (", b ≠ 0 := by decide!
  have hC : (bytes ")").length = 1 := by decide
  have hCz : ∀ b ∈ bytes ")", b ≠ 0 := by decide!
  have hR : CRLF.length = 2 := rfl
  have hRz : ∀ b ∈ CRLF, b ≠ 0 := by decide!
  have hc4 : (workspace.take 4).length = 4 := by rw [List.length_take]; omega
  have hc2 : ((workspace.drop 4).take 2).length = 2 := by
    rw [List.length_take, List.length_drop]; omega
  obtain ⟨hNl, hNz⟩ := gamecube_publisher_name_bound (workspace.getD 4 0) (workspace.getD 5 0)
  have y1 := noNul_append _ _ (noNul_append _ _ hGz (noNul_codes (workspace.take 4))) hRz
  have l1 : (bytes "Game code: " ++ (workspace.take 4).map printableOrQuestion ++ CRLF).length
      = 17 := by
    simp only [List.length_append, List.length_map, hG, hc4, hR]
  have s1 := metadataGameCode_spec workspace metadata (by omega) (by omega) h15
  have s2 := metadataPublisher_spec workspace metadata _ (by omega) y1 (by omega)
    (by rw [l1]; exact h35)
  have y2 := noNul_append _ _ (noNul_append _ _ (noNul_append _ _ (noNul_append _ _
    (noNul_append _ _ (noNul_append _ _ y1 hPz) (noNul_codes ((workspace.drop 4).take 2))) hOz) hNz) hCz) hRz
  have l2 : (bytes "Game code: " ++ (workspace.take 4).map printableOrQuestion ++ CRLF
      ++ bytes "Publisher code: " ++ ((workspace.drop 4).take 2).map printableOrQuestion
      ++ bytes " (" ++ gamecube_publisher_name (workspace.getD 4 0) (workspace.getD 5 0)
      ++ bytes ")" ++ CRLF).length ≤ 57 := by
    simp only [List.length_append, List.length_map, hG, hc4, hR, hP, hc2, hO, hC]
    omega
  obtain ⟨tail, s3, s4⟩ := metadataTitle_spec workspace metadata _ y2 hm (by rw [hMx]; omega)
  refine ⟨tail, ?_, ?_⟩
  · unfold build_metadata
    rw [s1]
    simp only
    rw [s2]
    simp only
    rw [s3]
    rfl
  · exact s4

theorem store_length (a : List Byte) (idx : Nat) (b : Byte) (r : List Byte)
    (h : store a idx b = some r) : r.length = a.length := by
  unfold store at h
  split at h
  · cases h; simp
  · cases h

theorem strlen_lt (a : List Byte) (n : Nat) (h : strlen a = some n) : n < a.length := by
  unfold strlen strlenFrom at h
  simp only [Nat.zero_add] at h
  split at h
  · cases h; assumption
  · cases h

theorem strcat_length (dst src r : List Byte) (h : strcat dst src = some r) :
    r.length = dst.length := by
  unfold strcat at h
  split at h
  · cases h
  · split at h
    · cases h
      simp only [List.length_append, List.length_take, List.length_drop, List.length_singleton]
      omega
    · cases h

theorem storeCodes_length : ∀ (cs a : List Byte) (k : Nat) (r : List Byte × Nat),
    storeCodes cs a k = some r → r.1.length = a.length := by
  intro cs
  induction cs with
  | nil => intro a k r h; rw [storeCodes] at h; cases h; rfl
  | cons c cs ih =>
    intro a k r h
    rw [storeCodes] at h
    split at h
    · cases h
    · rename_i a2 h2
      rw [ih a2 _ r h, store_length a k _ a2 h2]

theorem metadataGameCode_length (workspace metadata r : List Byte)
    (h : metadataGameCode workspace metadata = some r) : r.length = metadata.length := by
  unfold metadataGameCode strncat at h
  simp only [Option.bind_eq_bind, Option.bind_eq_some] at h
  obtain ⟨a1, h1, a2, h2, n, _, p, h4, h5⟩ := h
  rw [strcat_length _ _ _ h5, storeCodes_length _ _ _ _ h4, strcat_length _ _ _ h2,
    store_length _ _ _ _ h1]

theorem metadataPublisher_length (workspace metadata r : List Byte)
    (h : metadataPublisher workspace metadata = some r) : r.length = metadata.length := by
  unfold metadataPublisher strncat at h
  simp only [Option.bind_eq_bind, Option.bind_eq_some] at h
  obtain ⟨a1, h1, n, _, p, h3, a4, h4, a5, h5, a6, h6, h7⟩ := h
  rw [strcat_length _ _ _ h7, strcat_length _ _ _ h6, strcat_length _ _ _ h5,
    strcat_length _ _ _ h4, storeCodes_length _ _ _ _ h3, strcat_length _ _ _ h1]

theorem metadataTitle_length (workspace metadata : List Byte) (r : List Byte × Nat)
    (h : metadataTitle workspace metadata = some r) :
    r.1.length = metadata.length ∧ r.2 < metadata.length ∧ strlen r.1 = some r.2 := by
  unfold metadataTitle strncat at h
  simp only [Option.bind_eq_bind, Option.bind_eq_some, Option.pure_def, Option.some.injEq] at h
  obtain ⟨a1, h1, a2, h2, a3, h3, a4, h4, n, h5, h6⟩ := h
  have hl : a4.length = metadata.length := by
    rw [store_length _ _ _ _ h4, strcat_length _ _ _ h3, strcat_length _ _ _ h2,
      strcat_length _ _ _ h1]
  rw [← h6]
  exact ⟨hl, hl ▸ strlen_lt a4 n h5, h5⟩

/-- Whenever the metadata assembly stays inside the array, the array keeps its
length and `metadata_size` is the length of the string in it, below the length
of the array. -/
theorem build_metadata_size (workspace metadata : List Byte) (r : List Byte × Nat)
    (h : build_metadata workspace metadata = some r) :
    r.1.length = metadata.length ∧ r.2 < metadata.length ∧ strlen r.1 = some r.2 := by
  unfold build_metadata at h
  split at h
  · cases h
  · rename_i m1 h1
    split at h
    · cases h
    · rename_i m2 h2
      have := metadataTitle_length workspace m2 r h
      rw [metadataPublisher_length _ _ _ h2, metadataGameCode_length _ _ _ h1] at this
      exact this

/-- The context `gcfs_init` returns holds the array and the size that the
metadata assembly gave. -/
theorem gcfs_init_metadata (fuel : Nat) (fd metadata name_buffer : List Byte) (r : InitResult)
    (hr : gcfs_init fuel fd metadata name_buffer = r) (g : Gcfsfile)
    (hg : r.outcome = InitOutcome.context g) :
    (readAt fd 0 0x440).length = 0x440 ∧
    ∃ n : Nat, build_metadata (readAt fd 0 0x440) metadata = some (g.metadata, n) ∧
      g.metadata_size = (n : Int) := by
  unfold gcfs_init at hr
  dsimp only at hr
  split at hr
  · rw [← hr] at hg; cases hg
  · rename_i hws
    refine ⟨by simpa using hws, ?_⟩
    split at hr
    · rw [← hr] at hg; cases hg
    · rename_i m n hb
      split at hr
      · rw [← hr] at hg; cases hg
      · split at hr
        · rw [← hr] at hg; cases hg
        · split at hr
          · rw [← hr] at hg; cases hg
          · split at hr
            · rw [← hr] at hg; cases hg
            · split at hr
              · rw [← hr] at hg; cases hg
              · split at hr
                · rw [← hr] at hg; cases hg
                · split at hr
                  · rw [← hr] at hg; cases hg
                  · rw [← hr] at hg
                    cases hg
                    exact ⟨n, hb, rfl⟩

/-- The part of C12 that holds: when the array `malloc` returned holds a NUL
at its indices 15 and 35, the blob of the context `gcfs_init` returns is the
text of the specification, NUL-terminated, and `metadata_size` its length. -/
theorem gcfs_init_blob_spec (fuel : Nat) (fd metadata name_buffer : List Byte) (g : Gcfsfile)
    (hg : (gcfs_init fuel fd metadata name_buffer).outcome = InitOutcome.context g)
    (hm : metadata.length = METADATA_FILE_MAX_SIZE)
    (h15 : metadata[15]? = some 0) (h35 : metadata[35]? = some 0) :
    (∃ tail, g.metadata = specMetadata (readAt fd 0 0x440) ++ 0 :: tail) ∧
    g.metadata_size = ((specMetadata (readAt fd 0 0x440)).length : Int) := by
  obtain ⟨hws, n, hb, hn⟩ := gcfs_init_metadata fuel fd metadata name_buffer _ rfl g hg
  obtain ⟨tail, hs, _⟩ := build_metadata_spec (readAt fd 0 0x440) metadata hws hm h15 h35
  rw [hs] at hb
  have e := Option.some.inj hb
  have e1 : specMetadata (readAt fd 0 0x440) ++ 0 :: tail = g.metadata := congrArg Prod.fst e
  have e2 : (specMetadata (readAt fd 0 0x440)).length = n := congrArg Prod.snd e
  exact ⟨⟨tail, e1.symm⟩, by rw [hn, e2]⟩

/-- The part of C19 that holds: in a context that `gcfs_init` returns,
`metadata_size` is at most `METADATA_FILE_MAX_SIZE - 1`, it is the length of
the string in the `metadata` array, and it is the size `gcfs_getattr` reports
for the metadata path. -/
theorem gcfs_init_metadata_size_le (fuel : Nat) (fd metadata name_buffer : List Byte)
    (g : Gcfsfile)
    (hg : (gcfs_init fuel fd metadata name_buffer).outcome = InitOutcome.context g)
    (hm : metadata.length = METADATA_FILE_MAX_SIZE) :
    0 ≤ g.metadata_size ∧ g.metadata_size ≤ (METADATA_FILE_MAX_SIZE : Int) - 1 ∧
    strlen g.metadata = some g.metadata_size.toNat ∧
    gcfs_getattr_metadata_size g = g.metadata_size := by
  obtain ⟨_, n, hb, hn⟩ := gcfs_init_metadata fuel fd metadata name_buffer _ rfl g hg
  obtain ⟨_, h2, h3⟩ := build_metadata_size _ _ _ hb
  simp only at h2 h3
  rw [hm] at h2
  have hMx : METADATA_FILE_MAX_SIZE = 2048 := rfl
  rw [hMx] at h2 ⊢
  refine ⟨by omega, by push_cast; omega, ?_, rfl⟩
  rw [hn, Int.toNat_ofNat]
  exact h3

theorem exGarbage_init :
    (gcfs_init 10 (exImage exReadme exReadmeStrings) exGarbage
      (List.replicate 1024 0)).outcome =
      InitOutcome.context (Gcfsfile.mk (exImage exReadme exReadmeStrings).length
        [TreeEntry.mk (bytes ".metadata") 10 0 81,
         TreeEntry.mk (bytes "test-game-exe.dol") 17 0x440 0x260,
         TreeEntry.mk (bytes "readme.txt") 10 0x1000 10]
        (padTo 2048 exGarbageText) 81) := by
  decide!

theorem exHeader_specMetadata :
    specMetadata (readAt (exImage exReadme exReadmeStrings) 0 0x440) = exMetadataText := by
  decide!

/-- C12, the code at the failing input: on the example image (game code
"GAFE", publisher code "01", title "Test Game") with a `metadata` array that
`malloc` returned holding 'A' at indices 15 to 29, `gcfs_init` returns a
context whose blob is "Game code: GAFEAAAAAAAAAAAAAAA" followed by the rest of
the text, 81 bytes long, while the text the claim describes is the 66 bytes
"Game code: GAFE", CRLF, "Publisher code: 01 (Nintendo)", CRLF,
"Title: Test Game", CRLF. -/
theorem C12_blob_includes_allocated_bytes :
    (gcfs_init 10 (exImage exReadme exReadmeStrings) exGarbage
      (List.replicate 1024 0)).outcome =
      InitOutcome.context (Gcfsfile.mk (exImage exReadme exReadmeStrings).length
        [TreeEntry.mk (bytes ".metadata") 10 0 81,
         TreeEntry.mk (bytes "test-game-exe.dol") 17 0x440 0x260,
         TreeEntry.mk (bytes "readme.txt") 10 0x1000 10]
        (padTo 2048 exGarbageText) 81) ∧
    exGarbage.length = METADATA_FILE_MAX_SIZE ∧
    (padTo 2048 exGarbageText).take 81 = exGarbageText ∧
    specMetadata (readAt (exImage exReadme exReadmeStrings) 0 0x440) = exMetadataText ∧
    exMetadataText.length = 66 ∧
    exGarbageText ≠ exMetadataText :=
  ⟨exGarbage_init, by decide!, by decide!, exHeader_specMetadata, by decide!, by decide!⟩

/-- C19, the code at the failing input: on the example header with a
`metadata` array that `malloc` returned holding 'A' at indices 0 to 2039, the
first stage leaves a string of length 2042 in the array (the CRLF after the
game code is appended behind the 'A's), so the `strcat` of the 16 bytes
"Publisher code: " and its NUL stores at indices 2042 to 2058 of an array of
2048 bytes; the run stops at that store. -/
theorem C19_write_outside_metadata_array :
    exGarbageLong.length = METADATA_FILE_MAX_SIZE ∧
    (∃ m, metadataGameCode (readAt (exImage exReadme exReadmeStrings) 0 0x440)
        exGarbageLong = some m ∧
      m.length = METADATA_FILE_MAX_SIZE ∧
      strlen m = some 2042 ∧
      strcat m (bytes "Publisher code: ") = none ∧
      METADATA_FILE_MAX_SIZE ≤ 2042 + (bytes "Publisher code: ").length) ∧
    build_metadata (readAt (exImage exReadme exReadmeStrings) 0 0x440) exGarbageLong = none ∧
    (gcfs_init 10 (exImage exReadme exReadmeStrings) exGarbageLong
      (List.replicate 1024 0)).outcome = InitOutcome.stopped Fault.other := by
  refine ⟨by decide!, ⟨bytes "Game code: GAFE" ++ List.replicate 2025 0x41 ++ CRLF ++
    List.replicate 6 0, ?_, ?_, ?_, ?_, ?_⟩, ?_, ?_⟩ <;> decide!

/-- C20, the code at the failing input: two runs of `gcfs_init` on the same
image, one with the `metadata` array zeroed and one with 'A' at its indices 15
to 29, both return a context; the first has the 66-byte text and
`metadata_size` 66, the second the 81-byte text with the fifteen 'A's behind
the game code and `metadata_size` 81. -/
theorem C20_metadata_depends_on_allocated_memory :
    ∃ g1 g2 : Gcfsfile,
      (List.replicate 2048 (0 : Byte)).length = METADATA_FILE_MAX_SIZE ∧
      exGarbage.length = METADATA_FILE_MAX_SIZE ∧
      (gcfs_init 10 (exImage exReadme exReadmeStrings) (List.replicate 2048 0)
        (List.replicate 1024 0)).outcome = InitOutcome.context g1 ∧
      (gcfs_init 10 (exImage exReadme exReadmeStrings) exGarbage
        (List.replicate 1024 0)).outcome = InitOutcome.context g2 ∧
      g1.metadata_size = 66 ∧ g2.metadata_size = 81 ∧
      g1.metadata.take 66 = exMetadataText ∧ g2.metadata.take 81 = exGarbageText ∧
      g1.metadata ≠ g2.metadata :=
  ⟨_, _, by decide!, by decide!, exContext_from_init, exGarbage_init, rfl, rfl,
    by decide!, by decide!, by decide!⟩

/-- C13 as amended: in every context that `gcfs_init` returns, each entry
emitted from the directory table (the entries behind the metadata entry and
the executable entry) has a byte offset and a byte size below 2^32; they are
32-bit fields of a record, taken as read. -/
theorem C13_entry_ranges_are_32_bit (fuel : Nat) (fd metadata name_buffer : List Byte)
    (g : Gcfsfile)
    (hg : (gcfs_init fuel fd metadata name_buffer).outcome = InitOutcome.context g) :
    ∀ e ∈ g.tree.drop 2, e.offset < 4294967296 ∧ e.size < 4294967296 := by
  obtain ⟨ht, _⟩ := gcfs_init_context fuel fd metadata name_buffer _ rfl g hg
  rcases gcfs_init_tree fuel fd metadata name_buffer _ rfl with h | h | ⟨m, h⟩ |
    ⟨m, new, h, _, _, hb⟩
  · rw [h] at ht; cases ht
  · rw [h] at ht
    have e := Option.some.inj ht
    rw [← e]
    intro e he
    cases he
  · rw [h] at ht
    have e := Option.some.inj ht
    rw [← e]
    intro e he
    cases he
  · rw [h] at ht
    have e := Option.some.inj ht
    rw [← e]
    intro e he
    exact hb e he

theorem C13_witness :
    exContext.tree.drop 2 = [TreeEntry.mk (bytes "readme.txt") 10 0x1000 10] ∧
    (TreeEntry.mk (bytes "readme.txt") 10 0x1000 10).offset < 4294967296 ∧
    (TreeEntry.mk (bytes "readme.txt") 10 0x1000 10).size < 4294967296 :=
  ⟨rfl, C13_entry_ranges_are_32_bit 10 (exImage exReadme exReadmeStrings)
    (List.replicate 2048 0) (List.replicate 1024 0) exContext exContext_from_init
    (TreeEntry.mk (bytes "readme.txt") 10 0x1000 10) (List.mem_singleton.2 rfl)⟩

/-- C13 as stated fails: `gcfs_init` accepts the example image, whose one
table entry "readme.txt" has byte offset 0x1000 and byte size 10, while the
image is 1379 bytes long. -/
theorem C13_counterexample :
    ¬ (∀ (fd : List Byte) (g : Gcfsfile),
        (gcfs_init 10 fd (List.replicate 2048 0) (List.replicate 1024 0)).outcome =
          InitOutcome.context g →
        ∀ e ∈ g.tree.drop 2, e.offset + e.size ≤ fd.length) := by
  intro h
  have h1 := h (exImage exReadme exReadmeStrings) exContext exContext_from_init
    (TreeEntry.mk (bytes "readme.txt") 10 0x1000 10) (by decide!)
  revert h1
  decide!

/-- One pass of the loop body over record 2 of `exLoopTable` leaves the loop
index at 2: the walk started there runs out of any amount of fuel, having
executed the loop body for record 2 that many times. -/
theorem loop_returns_to_record_2 : ∀ (fuel : Nat) (w : Walk),
    w.fault = none → w.name_buffer.length = NAME_MAX_SIZE →
    (recurseLoop exLoopTable (exImage exLoopTable exLoopStrings) 0x558 fuel 2 2 0 2 w).fault =
      some Fault.outOfFuel ∧
    (recurseLoop exLoopTable (exImage exLoopTable exLoopStrings) 0x558 fuel 2 2 0 2 w).trace =
      w.trace ++ List.replicate fuel (Visit.mk 2 2 2) := by
  have hN : NAME_MAX_SIZE = 1024 := rfl
  have h0 : recordField exLoopTable 2 0 = some 0x01000000 := by decide!
  have h4 : recordField exLoopTable 2 4 = some 0 := by decide!
  have h8 : recordField exLoopTable 2 8 = some 1 := by decide!
  have hpos : ((0x01000000 &&& 0xFEFFFFFF) + 0x558) % 4294967296 = 0x558 := by decide
  have hdir : (0x01000000 &&& 0x01000000 : Nat) ≠ 0 := by decide
  have htw : ((exImage exLoopTable exLoopStrings).drop 0x558).takeWhile isprint = bytes "d" := by
    decide!
  have hfl : (exImage exLoopTable exLoopStrings).length = 1370 := by decide!
  have hd : (bytes "d").length = 1 := by decide
  have hs : wrap32 ((2 : Int) + 1) = 3 := by decide!
  have he : wrap32 ((1 : Nat) : Int) = 1 := by decide!
  have hnext : wrap32 (wrap32 ((2 : Int) + wrap32 (wrap32 (1 - 3) + 1)) + 1) = 2 := by decide!
  intro fuel
  induction fuel with
  | zero =>
    intro w _ _
    rw [recurseLoop]
    exact ⟨rfl, by simp⟩
  | succ fuel ih =>
    intro w hw hl
    obtain ⟨wnb, wtree, wtrace, wfault⟩ := w
    simp only at hw hl
    subst hw
    have hg := getFilename_spec (exImage exLoopTable exLoopStrings) 0x558 [] wnb
      (by rw [htw, hfl, hd]; decide) (by rw [List.nil_append]; exact hl)
      (by rw [htw, hd, hN]; decide)
    rw [htw, hd] at hg
    simp only [List.nil_append, List.length_nil, Nat.zero_add] at hg
    obtain ⟨y, X, hX⟩ : ∃ y X, wnb.drop 2 = y :: X := by
      cases hT : wnb.drop 2 with
      | nil =>
        have := congrArg List.length hT
        rw [List.length_drop, hl, hN] at this
        cases this
      | cons y X => exact ⟨y, X, rfl⟩
    have hXl : X.length = 1021 := by
      have := congrArg List.length hX
      rw [List.length_drop, hl, hN, List.length_cons] at this
      omega
    rw [hX] at hg
    have ha := appendSlash_spec (bytes "d") X 0 y
    rw [hd] at ha
    rw [recurseLoop_step _ _ _ _ _ _ _ _ _ (by decide) _ _ _ h0 h4 h8, hpos]
    simp only
    rw [hg]
    simp only
    rw [if_pos hdir, ha]
    simp only
    rw [hs, he, hnext]
    cases fuel with
    | zero =>
      rw [recurseLoop]
      exact ⟨rfl, rfl⟩
    | succ fuel =>
      rw [recurseLoop_done _ _ _ _ _ _ _ _ _ (by decide)]
      simp only [Option.isSome_none, Bool.false_eq_true, if_false]
      obtain ⟨i1, i2⟩ := ih (Walk.mk (bytes "d" ++ 0x2F :: 0 :: X) wtree
        (wtrace ++ [Visit.mk 2 2 2]) none) rfl
        (by simp only [List.length_append, List.length_cons, hd, hXl, hN])
      refine ⟨i1, ?_⟩
      rw [i2]
      simp only [List.append_assoc, List.singleton_append, ← List.replicate_succ]

/-- The run of `gcfs_init` on the image with the table `exLoopTable`, cut off
after 5 nested loop entries. -/
theorem exLoop_init :
    gcfs_init 5 (exImage exLoopTable exLoopStrings) (List.replicate 2048 0)
      (List.replicate 1024 0) =
      InitResult.mk (InitOutcome.stopped Fault.outOfFuel)
        (some [TreeEntry.mk (bytes ".metadata") 10 0 66,
           TreeEntry.mk (bytes "test-game-exe.dol") 17 0x440 0x260])
        (List.replicate 5 (Visit.mk 2 2 2)) := by
  decide!

/-- C16, the code at the failing input: on the 2-record table whose record 2
is a directory with third field 1, the walk `gcfs_recurse_directory(records,
2, 2, ...)` does not terminate: cut off after any number `fuel` of nested loop
entries it has not returned, and the loop bodies it executed are `fuel` passes
over record 2, so the loop index goes from 2 to 2; `gcfs_init` reaches the
walk with this table. -/
theorem C16_walk_does_not_terminate :
    ∀ fuel : Nat,
      (gcfs_recurse_directory fuel exLoopTable 2 2 0 (exImage exLoopTable exLoopStrings) 0x558
        (Walk.mk (List.replicate 1024 0) [] [] none)).1.fault = some Fault.outOfFuel ∧
      (gcfs_recurse_directory fuel exLoopTable 2 2 0 (exImage exLoopTable exLoopStrings) 0x558
        (Walk.mk (List.replicate 1024 0) [] [] none)).1.trace =
          List.replicate fuel (Visit.mk 2 2 2) ∧
      (gcfs_init 5 (exImage exLoopTable exLoopStrings) (List.replicate 2048 0)
        (List.replicate 1024 0)).outcome = InitOutcome.stopped Fault.outOfFuel ∧
      (gcfs_init 5 (exImage exLoopTable exLoopStrings) (List.replicate 2048 0)
        (List.replicate 1024 0)).trace = List.replicate 5 (Visit.mk 2 2 2) := by
  intro fuel
  obtain ⟨h1, h2⟩ := loop_returns_to_record_2 fuel (Walk.mk (List.replicate 1024 0) [] [] none)
    rfl (by decide!)
  refine ⟨h1, ?_, by rw [exLoop_init], by rw [exLoop_init]⟩
  rw [gcfs_recurse_directory, h2]
  rfl

/-- The name loop on a name whose printable bytes reach the end of
`name_buffer`: it stops through `name_index++ < NAME_MAX_SIZE - 1` being false
at `name_index = NAME_MAX_SIZE - 1`, after the increment, so it leaves
`name_index = NAME_MAX_SIZE`. -/
theorem readName_full (fd : List Byte) :
    ∀ (n pos : Nat) (name_buffer : List Byte) (name_index : Nat),
      name_buffer.length = NAME_MAX_SIZE →
      name_index < NAME_MAX_SIZE →
      NAME_MAX_SIZE - name_index ≤ n →
      NAME_MAX_SIZE - name_index ≤ ((fd.drop pos).takeWhile isprint).length →
      ∃ nb : List Byte, nb.length = NAME_MAX_SIZE ∧
        readName fd n pos name_buffer name_index = .ok (nb, NAME_MAX_SIZE) := by
  have hN : NAME_MAX_SIZE = 1024 := rfl
  intro n
  induction n with
  | zero => intro pos nb idx _ h2 h3 _; omega
  | succ n ih =>
    intro pos nb idx hl hidx hn hname
    have hpos : pos < fd.length := by
      by_contra hc
      rw [List.drop_eq_nil_of_le (not_lt.1 hc)] at hname
      simp only [List.takeWhile_nil, List.length_nil] at hname
      omega
    have hdrop : fd.drop pos = fd[pos] :: fd.drop (pos + 1) := List.drop_eq_getElem_cons hpos
    have hget : fd[pos]? = some fd[pos] := List.getElem?_eq_getElem hpos
    have hp : isprint fd[pos] = true := by
      by_contra hc
      have hp' : isprint fd[pos] = false := by simpa using hc
      rw [hdrop, List.takeWhile_cons] at hname
      simp only [hp', Bool.false_eq_true, if_false, List.length_nil] at hname
      omega
    have htw : (fd.drop pos).takeWhile isprint =
        fd[pos] :: (fd.drop (pos + 1)).takeWhile isprint := by
      rw [hdrop, List.takeWhile_cons, if_pos hp]
    rw [htw, List.length_cons] at hname
    rw [readName, if_neg (by omega)]
    simp only [hget, if_pos hpos]
    have hgetD : (nb.set idx fd[pos]).getD idx 0 = fd[pos] := by
      rw [List.getD_eq_getElem?_getD, List.getElem?_set_self (by omega)]
      rfl
    rw [hgetD, if_pos hp]
    by_cases hlt : idx < NAME_MAX_SIZE - 1
    · rw [if_pos hlt]
      exact ih (pos + 1) (nb.set idx fd[pos]) (idx + 1) (by rw [List.length_set]; exact hl)
        (by omega) (by omega) (by omega)
    · rw [if_neg hlt]
      refine ⟨nb.set idx fd[pos], by rw [List.length_set]; exact hl, ?_⟩
      have : idx + 1 = NAME_MAX_SIZE := by omega
      rw [this]

/-- Lines 176-183 on a name whose printable bytes reach the end of
`name_buffer`: `name_buffer[name_index] = 0` is a store at index
`NAME_MAX_SIZE`. -/
theorem getFilename_full (fd : List Byte) (pos : Nat) (name_buffer : List Byte)
    (starting_name_index : Nat)
    (hl : name_buffer.length = NAME_MAX_SIZE) (hs : starting_name_index < NAME_MAX_SIZE)
    (hname : NAME_MAX_SIZE - starting_name_index ≤ ((fd.drop pos).takeWhile isprint).length) :
    getFilename fd pos name_buffer starting_name_index = .error NAME_MAX_SIZE := by
  obtain ⟨nb, hnl, hr⟩ := readName_full fd NAME_MAX_SIZE pos name_buffer starting_name_index
    hl hs (Nat.sub_le _ _) hname
  unfold getFilename
  rw [hr]
  simp only
  unfold store
  rw [if_neg (by rw [hnl]; exact lt_irrefl _)]

/-- Lines 186-187 behind a directory name that ends at the last index of
`name_buffer`: the '/' is stored at index `NAME_MAX_SIZE - 1` and its NUL at
index `NAME_MAX_SIZE`. -/
theorem appendSlash_full (name_buffer : List Byte) (hl : name_buffer.length = NAME_MAX_SIZE) :
    appendSlash name_buffer (NAME_MAX_SIZE - 1) = .error NAME_MAX_SIZE := by
  have hN : NAME_MAX_SIZE = 1024 := rfl
  unfold appendSlash store
  rw [if_pos (by rw [hl, hN]; decide)]
  simp only
  rw [if_neg (by rw [List.length_set, hl, hN]; decide)]
  rfl

/-- C17, the code where the claim fails: whenever the walk reaches a
decodable record with a prefix that lies inside `name_buffer` and the name at
the record's name offset has at least `NAME_MAX_SIZE - starting_name_index`
printable bytes, the name loop leaves `name_index` at `NAME_MAX_SIZE` and the
terminating NUL is stored at index `NAME_MAX_SIZE` = 1024, one past the end of
the array of 1024 bytes; the run stops there, in this loop body. -/
theorem C17_terminator_written_past_name_buffer (buffer fd : List Byte) (base fuel : Nat)
    (s e : Int) (starting_name_index : Nat) (w : Walk) (f0 f1 f2 : Nat)
    (hse : ¬ e < s)
    (h0 : recordField buffer s 0 = some f0) (h4 : recordField buffer s 4 = some f1)
    (h8 : recordField buffer s 8 = some f2)
    (hl : w.name_buffer.length = NAME_MAX_SIZE) (hs : starting_name_index < NAME_MAX_SIZE)
    (hname : NAME_MAX_SIZE - starting_name_index ≤
      ((fd.drop (((f0 &&& 0xFEFFFFFF) + base) % 4294967296)).takeWhile isprint).length) :
    (gcfs_recurse_directory (fuel + 1) buffer s e starting_name_index fd base w).1.fault =
      some (Fault.nameBufferOverflow NAME_MAX_SIZE) ∧
    (gcfs_recurse_directory (fuel + 1) buffer s e starting_name_index fd base w).1.trace =
      w.trace ++ [Visit.mk s s e] := by
  unfold gcfs_recurse_directory
  simp only
  rw [recurseLoop_step _ _ _ _ _ _ _ _ _ hse _ _ _ h0 h4 h8,
    getFilename_full fd _ w.name_buffer starting_name_index hl hs hname]
  exact ⟨rfl, rfl⟩

theorem C17_witness :
    (gcfs_recurse_directory 1 exOneFile 2 2 0 (exImage exOneFile exLongName) 0x558
      (Walk.mk (List.replicate 1024 0) [] [] none)).1.fault =
      some (Fault.nameBufferOverflow 1024) ∧
    (gcfs_recurse_directory 1 exOneFile 2 2 0 (exImage exOneFile exLongName) 0x558
      (Walk.mk (List.replicate 1024 0) [] [] none)).1.trace = [Visit.mk 2 2 2] :=
  C17_terminator_written_past_name_buffer exOneFile (exImage exOneFile exLongName) 0x558 0
    2 2 0 (Walk.mk (List.replicate 1024 0) [] [] none) 0 0x1000 10 (by decide)
    (by decide!) (by decide!) (by decide!) (by decide!) (by decide!) (by decide!)

theorem mem_enclosingDirs (buffer : List Byte) (lo j d : Nat) :
    d ∈ enclosingDirs buffer lo j ↔
      lo ≤ d ∧ d < j ∧ isDirRecord buffer (d : Nat) = true ∧
        (j : Int) ≤ subtreeEnd buffer (d : Nat) := by
  unfold enclosingDirs
  rw [List.mem_filter, List.mem_range'_1]
  simp only [Bool.and_eq_true, decide_eq_true_eq]
  constructor
  · rintro ⟨⟨h1, h2⟩, h3, h4⟩
    exact ⟨h1, by omega, h3, h4⟩
  · rintro ⟨h1, h2, h3, h4⟩
    exact ⟨⟨h1, by omega⟩, h3, h4⟩

/-- In a well-nested table the directories that enclose a directory `d` are
the directories before `d` that enclose any record `j` inside `d`. -/
theorem enclosingDirs_split (buffer : List Byte) (N j d : Nat) (hnest : WellNested buffer N)
    (hj : j ≤ N) (hd : d ∈ enclosingDirs buffer 2 j) :
    ∃ rest, enclosingDirs buffer 2 j = enclosingDirs buffer 2 d ++ d :: rest ∧
      ∀ k ∈ rest, d < k := by
  obtain ⟨h2, hdj, hdir, hend⟩ := (mem_enclosingDirs buffer 2 j d).1 hd
  have hsplit : List.range' 2 (j - 2) =
      List.range' 2 (d - 2) ++ d :: List.range' (d + 1) (j - (d + 1)) := by
    have e1 : j - 2 = (j - d) + (d - 2) := by omega
    rw [e1, ← List.range'_append_1]
    have e2 : 2 + (d - 2) = d := by omega
    have e3 : j - d = (j - (d + 1)) + 1 := by omega
    rw [e2, e3, List.range'_succ]
  refine ⟨(List.range' (d + 1) (j - (d + 1))).filter
    (fun k => isDirRecord buffer (k : Nat) && decide ((j : Int) ≤ subtreeEnd buffer (k : Nat))),
    ?_, ?_⟩
  · unfold enclosingDirs
    rw [hsplit, List.filter_append, List.filter_cons]
    have hp : (isDirRecord buffer (d : Nat) &&
        decide ((j : Int) ≤ subtreeEnd buffer (d : Nat))) = true := by
      simp [hdir, hend]
    rw [if_pos hp]
    congr 1
    apply List.filter_congr
    intro k hk
    rw [List.mem_range'_1] at hk
    by_cases hkd : isDirRecord buffer (k : Nat) = true
    · obtain ⟨_, _, hin⟩ := hnest k hk.1 (by omega) hkd
      simp only [hkd, Bool.true_and]
      by_cases hc : (d : Int) ≤ subtreeEnd buffer (k : Nat)
      · have := hin d (by omega) (by omega) hc hdir
        have h1 : (j : Int) ≤ subtreeEnd buffer (k : Nat) := by omega
        simp [hc, h1]
      · have h1 : ¬ (j : Int) ≤ subtreeEnd buffer (k : Nat) := by omega
        simp [hc, h1]
    · have : isDirRecord buffer (k : Nat) = false := by simpa using hkd
      simp [this]
  · intro k hk
    rw [List.mem_filter, List.mem_range'_1] at hk
    omega

/-- The chain of record `z`: its enclosing directories, outermost first, then
the record itself. Every member of the chain has as its own enclosing
directories the part of the chain before it. -/
theorem chain_take (buffer : List Byte) (N z : Nat) (hnest : WellNested buffer N)
    (hz2 : 2 ≤ z) (hz : z ≤ N) (p : Nat) (a : Nat)
    (ha : (enclosingDirs buffer 2 z ++ [z])[p]? = some a) :
    enclosingDirs buffer 2 a = (enclosingDirs buffer 2 z ++ [z]).take p ∧ 2 ≤ a ∧ a ≤ N := by
  by_cases hp : p < (enclosingDirs buffer 2 z).length
  · rw [List.getElem?_append_left hp] at ha
    have hmem : a ∈ enclosingDirs buffer 2 z := List.getElem?_mem ha
    obtain ⟨h2, haz, _, _⟩ := (mem_enclosingDirs buffer 2 z a).1 hmem
    obtain ⟨rest, hdec, hrest⟩ := enclosingDirs_split buffer N z a hnest hz hmem
    have hlt : ∀ k ∈ enclosingDirs buffer 2 a, k < a := fun k hk =>
      ((mem_enclosingDirs buffer 2 a k).1 hk).2.1
    have hpe : p = (enclosingDirs buffer 2 a).length := by
      rw [hdec] at ha
      rcases lt_trichotomy p (enclosingDirs buffer 2 a).length with h | h | h
      · rw [List.getElem?_append_left h] at ha
        have := hlt a (List.getElem?_mem ha)
        omega
      · exact h
      · rw [List.getElem?_append_right (by omega)] at ha
        obtain ⟨q, hq⟩ : ∃ q, p - (enclosingDirs buffer 2 a).length = q + 1 :=
          ⟨p - (enclosingDirs buffer 2 a).length - 1, by omega⟩
        rw [hq, List.getElem?_cons_succ] at ha
        have := hrest a (List.getElem?_mem ha)
        omega
    refine ⟨?_, h2, by omega⟩
    rw [List.take_append_of_le_length (by omega), hdec, hpe, List.take_left]
  · have hlen : (enclosingDirs buffer 2 z ++ [z]).length = (enclosingDirs buffer 2 z).length + 1 := by
      simp
    have hlt : p < (enclosingDirs buffer 2 z ++ [z]).length := by
      by_contra hc
      rw [List.getElem?_eq_none (by omega)] at ha
      cases ha
    have hpe : p = (enclosingDirs buffer 2 z).length := by omega
    rw [hpe, List.getElem?_append_right (le_refl _), Nat.sub_self] at ha
    simp only [List.getElem?_cons_zero, Option.some.injEq] at ha
    subst ha
    refine ⟨?_, hz2, hz⟩
    rw [hpe, List.take_left]

/-- Two strings cut at a separator that neither head contains agree in head
and tail. -/
theorem append_sep_inj (c : Byte) : ∀ (a b X Y : List Byte), c ∉ a → c ∉ b →
    a ++ c :: X = b ++ c :: Y → a = b ∧ X = Y := by
  intro a
  induction a with
  | nil =>
    intro b X Y _ hb h
    cases b with
    | nil => simp only [List.nil_append, List.cons.injEq, true_and] at h; exact ⟨rfl, h⟩
    | cons b0 b1 =>
      simp only [List.nil_append, List.cons_append, List.cons.injEq] at h
      exact absurd (h.1 ▸ List.mem_cons_self _ _) hb
  | cons a0 a1 ih =>
    intro b X Y ha hb h
    cases b with
    | nil =>
      simp only [List.nil_append, List.cons_append, List.cons.injEq] at h
      exact absurd (h.1 ▸ List.mem_cons_self _ _) ha
    | cons b0 b1 =>
      simp only [List.cons_append, List.cons.injEq] at h
      obtain ⟨e1, e2⟩ := ih b1 X Y (fun hc => ha (List.mem_cons_of_mem _ hc))
        (fun hc => hb (List.mem_cons_of_mem _ hc)) h.2
      exact ⟨by rw [h.1, e1], e2⟩

/-- A path determines its components when no component contains '/'. -/
theorem segments_inj : ∀ (L1 L2 : List (List Byte)) (n1 n2 : List Byte),
    (∀ a ∈ L1, (0x2F : Byte) ∉ a) → (∀ a ∈ L2, (0x2F : Byte) ∉ a) →
    (0x2F : Byte) ∉ n1 → (0x2F : Byte) ∉ n2 →
    L1.flatMap (fun a => a ++ [0x2F]) ++ n1 = L2.flatMap (fun a => a ++ [0x2F]) ++ n2 →
    L1 = L2 ∧ n1 = n2 := by
  intro L1
  induction L1 with
  | nil =>
    intro L2 n1 n2 _ h2 hn1 _ h
    cases L2 with
    | nil => exact ⟨rfl, by simpa using h⟩
    | cons b L2 =>
      exfalso
      apply hn1
      simp only [List.flatMap_nil, List.nil_append, List.flatMap_cons, List.append_assoc] at h
      rw [h]
      simp
  | cons a L1 ih =>
    intro L2 n1 n2 h1 h2 hn1 hn2 h
    cases L2 with
    | nil =>
      exfalso
      apply hn2
      simp only [List.flatMap_nil, List.nil_append, List.flatMap_cons, List.append_assoc] at h
      rw [← h]
      simp
    | cons b L2 =>
      simp only [List.flatMap_cons, List.append_assoc, List.singleton_append] at h
      obtain ⟨e1, e2⟩ := append_sep_inj 0x2F a b _ _ (h1 a (List.mem_cons_self _ _))
        (h2 b (List.mem_cons_self _ _)) h
      obtain ⟨e3, e4⟩ := ih L2 n1 n2 (fun x hx => h1 x (List.mem_cons_of_mem _ hx))
        (fun x hx => h2 x (List.mem_cons_of_mem _ hx)) hn1 hn2 e2
      exact ⟨by rw [e1, e3], e4⟩

/-- In a well-nested table whose sibling names are distinct, two records with
the same names along their chains have the same chain. -/
theorem chain_eq_of_names (buffer fd : List Byte) (base N : Nat) (hnest : WellNested buffer N)
    (hsib : SiblingNamesDistinct buffer fd base N) (x y : Nat)
    (hx2 : 2 ≤ x) (hx : x ≤ N) (hy2 : 2 ≤ y) (hy : y ≤ N)
    (hmap : (enclosingDirs buffer 2 x ++ [x]).map (fun k : Nat => recordName buffer fd base (k : Nat))
      = (enclosingDirs buffer 2 y ++ [y]).map (fun k : Nat => recordName buffer fd base (k : Nat))) :
    enclosingDirs buffer 2 x ++ [x] = enclosingDirs buffer 2 y ++ [y] := by
  have hlen : (enclosingDirs buffer 2 x ++ [x]).length = (enclosingDirs buffer 2 y ++ [y]).length := by
    have := congrArg List.length hmap
    simpa only [List.length_map] using this
  have key : ∀ p : Nat, (enclosingDirs buffer 2 x ++ [x]).take p =
      (enclosingDirs buffer 2 y ++ [y]).take p := by
    intro p
    induction p with
    | zero => rfl
    | succ p ih =>
      rw [List.take_succ, List.take_succ, ih]
      congr 1
      by_cases hp : p < (enclosingDirs buffer 2 x ++ [x]).length
      · have ha := List.getElem?_eq_getElem hp
        have hb := List.getElem?_eq_getElem (hlen ▸ hp)
        generalize (enclosingDirs buffer 2 x ++ [x])[p] = a at ha
        generalize (enclosingDirs buffer 2 y ++ [y])[p] = b at hb
        obtain ⟨ea, ha2, haN⟩ := chain_take buffer N x hnest hx2 hx p a ha
        obtain ⟨eb, hb2, hbN⟩ := chain_take buffer N y hnest hy2 hy p b hb
        have hn := congrArg (fun l => l[p]?) hmap
        simp only [List.getElem?_map, ha, hb, Option.map_some'] at hn
        have hname : recordName buffer fd base (a : Nat) = recordName buffer fd base (b : Nat) :=
          Option.some.inj hn
        have hab : a = b := by
          by_contra hne
          exact hsib a ha2 haN b hb2 hbN hne (by unfold parentDir; rw [ea, eb, ih]) hname
        rw [ha, hb, hab]
      · rw [List.getElem?_eq_none (by omega), List.getElem?_eq_none (by omega)]
  have h1 := key (enclosingDirs buffer 2 x ++ [x]).length
  rw [List.take_of_length_le (le_refl _), List.take_of_length_le (by omega)] at h1
  exact h1

/-- In a well-nested table whose names contain no '/' and whose sibling names
are distinct, `specPath` tells the records apart. -/
theorem specPath_inj (buffer fd : List Byte) (base N : Nat) (hnest : WellNested buffer N)
    (hslash : NoSlashInNames buffer fd base N)
    (hsib : SiblingNamesDistinct buffer fd base N) (x y : Nat)
    (hx2 : 2 ≤ x) (hx : x ≤ N) (hy2 : 2 ≤ y) (hy : y ≤ N)
    (h : specPath buffer fd base x = specPath buffer fd base y) : x = y := by
  unfold specPath dirPrefixFrom at h
  have hm : ∀ z : Nat, (enclosingDirs buffer 2 z).flatMap
      (fun k : Nat => recordName buffer fd base (k : Nat) ++ [0x2F]) =
      ((enclosingDirs buffer 2 z).map (fun k : Nat => recordName buffer fd base (k : Nat))).flatMap
        (fun a => a ++ [0x2F]) := by
    intro z
    rw [List.flatMap_map]
  rw [hm x, hm y] at h
  have hs : ∀ z : Nat, z ≤ N → ∀ a ∈ (enclosingDirs buffer 2 z).map
      (fun k : Nat => recordName buffer fd base (k : Nat)), (0x2F : Byte) ∉ a := by
    intro z hz a ha
    obtain ⟨d, hd, rfl⟩ := List.mem_map.1 ha
    obtain ⟨h2, hdz, _, _⟩ := (mem_enclosingDirs buffer 2 z d).1 hd
    exact hslash d h2 (by omega)
  obtain ⟨e1, e2⟩ := segments_inj _ _ _ _ (hs x hx) (hs y hy) (hslash x hx2 hx)
    (hslash y hy2 hy) h
  have hc := chain_eq_of_names buffer fd base N hnest hsib x y hx2 hx hy2 hy
    (by rw [List.map_append, List.map_append, e1]; simp only [List.map_cons, List.map_nil, e2])
  have hl := congrArg List.getLast? hc
  rw [List.getLast?_concat, List.getLast?_concat] at hl
  exact Option.some.inj hl

/-- The walk of a well-nested table whose names are terminated and fit
completes and inserts the entries of `specEntries`. -/
theorem walk_inserts_specEntries (buffer fd : List Byte)
    (base N fuel : Nat) (name_buffer : List Byte) (tree : List TreeEntry)
    (hN : 1 ≤ N) (hlen : buffer.length = 12 * N) (hsz : 12 * N < 2147483648)
    (hnest : WellNested buffer N) (hfuel : N ≤ fuel)
    (hbuf : name_buffer.length = NAME_MAX_SIZE)
    (hnames : ∀ j : Nat, 2 ≤ j → j ≤ N → NameTerminated buffer fd base (j : Nat) ∧
      (combinedPath buffer fd base j).length < NAME_MAX_SIZE) :
    (gcfs_recurse_directory fuel buffer 2 N 0 fd base
      (Walk.mk name_buffer tree [] none)).1.fault = none ∧
    (gcfs_recurse_directory fuel buffer 2 N 0 fd base
      (Walk.mk name_buffer tree [] none)).1.tree = tree ++ specEntries buffer fd base N := by
  have hcl : ∀ j : Nat, 2 ≤ j → j ≤ N → isDirRecord buffer (j : Nat) = true →
      subtreeEnd buffer (j : Nat) ≤ N := fun j h1 h2 h3 => (hnest j h1 h2 h3).2.1
  have h2N : 2 ≤ N + 1 := by omega
  have hf : N + 2 ≤ fuel + 2 := by omega
  have hn : ∀ j : Nat, 2 ≤ j → j ≤ N → NameTerminated buffer fd base (j : Nat) ∧
      ([] : List Byte).length + (dirPrefixFrom buffer fd base 2 j).length
        + (recordName buffer fd base (j : Nat)).length
        + (if isDirRecord buffer (j : Nat) = true then 1 else 0) < NAME_MAX_SIZE := by
    intro j h1 h2
    obtain ⟨ht, hl⟩ := hnames j h1 h2
    refine ⟨ht, ?_⟩
    unfold combinedPath specPath at hl
    by_cases hd : isDirRecord buffer (j : Nat) = true
    · rw [if_pos hd] at hl ⊢
      simp only [List.length_append, List.length_singleton, List.length_nil] at hl ⊢
      omega
    · rw [if_neg hd] at hl ⊢
      simp only [List.length_append, List.length_nil] at hl ⊢
      omega
  obtain ⟨T1, trace1, hrun, _⟩ := loop_paths buffer fd base N hlen hsz hnest fuel 2 N 2 []
    name_buffer tree [] (le_refl _) h2N (le_refl _) hf (by simpa using hbuf)
    (by intro b hb; simp at hb) hcl hn
  unfold gcfs_recurse_directory
  simp only [List.length_nil, List.nil_append, Nat.cast_ofNat] at hrun
  rw [hrun, specEntries_eq]
  exact ⟨rfl, rfl⟩

/-- C14 as amended: for a well-nested table of `N` records whose names are
terminated in the image and fit `name_buffer`, in which no name contains '/'
and the records lying directly in the same directory (or directly under the
root) have pairwise distinct names, the walk completes and the paths of the
file entries it inserts are pairwise distinct. -/
theorem C14_paths_distinct_when_names_have_no_slash (buffer fd : List Byte)
    (base N fuel : Nat) (name_buffer : List Byte)
    (hN : 1 ≤ N) (hlen : buffer.length = 12 * N) (hsz : 12 * N < 2147483648)
    (hnest : WellNested buffer N) (hfuel : N ≤ fuel)
    (hbuf : name_buffer.length = NAME_MAX_SIZE)
    (hnames : ∀ j : Nat, 2 ≤ j → j ≤ N → NameTerminated buffer fd base (j : Nat) ∧
      (combinedPath buffer fd base j).length < NAME_MAX_SIZE)
    (hslash : NoSlashInNames buffer fd base N)
    (hsib : SiblingNamesDistinct buffer fd base N) :
    (gcfs_recurse_directory fuel buffer 2 N 0 fd base
      (Walk.mk name_buffer [] [] none)).1.fault = none ∧
    ((gcfs_recurse_directory fuel buffer 2 N 0 fd base
      (Walk.mk name_buffer [] [] none)).1.tree.map TreeEntry.name).Nodup := by
  obtain ⟨h1, h2⟩ := walk_inserts_specEntries buffer fd base N fuel name_buffer [] hN hlen hsz
    hnest hfuel hbuf hnames
  refine ⟨h1, ?_⟩
  rw [h2, List.nil_append]
  unfold specEntries
  rw [List.map_map]
  apply List.Nodup.map_on
  · intro x hx y hy hxy
    rw [List.mem_filter, List.mem_range'_1] at hx hy
    exact specPath_inj buffer fd base N hnest hslash hsib x y hx.1.1 (by omega) hy.1.1
      (by omega) hxy
  · exact (List.nodup_range' 2 (N - 1)).filter _

theorem C14_witness :
    (gcfs_recurse_directory 4 exNested 2 (4 : Nat) 0 exStrings 0
      (Walk.mk (List.replicate 1024 0) [] [] none)).1.fault = none ∧
    ((gcfs_recurse_directory 4 exNested 2 (4 : Nat) 0 exStrings 0
      (Walk.mk (List.replicate 1024 0) [] [] none)).1.tree.map TreeEntry.name).Nodup :=
  C14_paths_distinct_when_names_have_no_slash exNested exStrings 0 4 4
    (List.replicate 1024 0) (by decide) (by decide) (by decide) (by decide!) (by decide)
    (by decide!) (by decide!) (by decide!) (by decide!)

/-- C14 as stated fails: the table `exSlash` is well nested and the names of
its siblings are pairwise distinct ("a/b" and "a" under the root, "b" alone in
the directory "a"), the walk completes, and the two file entries it inserts
both have the path "a/b". -/
theorem C14_counterexample :
    WellNested exSlash 4 ∧ SiblingNamesDistinct exSlash exSlashStrings 0 4 ∧
    (gcfs_recurse_directory 4 exSlash 2 (4 : Nat) 0 exSlashStrings 0
      (Walk.mk (List.replicate 1024 0) [] [] none)).1.fault = none ∧
    (gcfs_recurse_directory 4 exSlash 2 (4 : Nat) 0 exSlashStrings 0
      (Walk.mk (List.replicate 1024 0) [] [] none)).1.tree =
        [TreeEntry.mk (bytes "a/b") 3 0x100 10, TreeEntry.mk (bytes "a/b") 3 0x200 20] ∧
    ¬ ((gcfs_recurse_directory 4 exSlash 2 (4 : Nat) 0 exSlashStrings 0
      (Walk.mk (List.replicate 1024 0) [] [] none)).1.tree.map TreeEntry.name).Nodup := by
  refine ⟨by decide!, by decide!, by decide!, by decide!, by decide!⟩

/-- The name loop from `name_index` on: it leaves the bytes before
`name_index` alone, every byte it leaves between `name_index` and the index it
stops at is printable, and the `k`-th of them is the byte of the image at
offset `pos + k` whenever that offset lies inside the image. -/
theorem readName_bytes (fd : List Byte) :
    ∀ (n pos : Nat) (name_buffer : List Byte) (name_index : Nat) (nb1 : List Byte) (idx : Nat),
      readName fd n pos name_buffer name_index = .ok (nb1, idx) →
      name_index ≤ idx ∧ nb1.length = name_buffer.length ∧
      (∀ j, j < name_index → nb1[j]? = name_buffer[j]?) ∧
      (∀ k, name_index + k < idx →
        (∃ b, nb1[name_index + k]? = some b ∧ isprint b = true) ∧
        (pos + k < fd.length → nb1[name_index + k]? = fd[pos + k]?)) := by
  intro n
  induction n with
  | zero =>
    intro pos nb idx0 nb1 idx h
    rw [readName] at h
    cases h
    exact ⟨le_refl _, rfl, fun _ _ => rfl, fun k hk => absurd hk (by omega)⟩
  | succ n ih =>
    intro pos nb idx0 nb1 idx h
    rw [readName] at h
    by_cases hlen : nb.length ≤ idx0
    · rw [if_pos hlen] at h; cases h
    · rw [if_neg hlen] at h
      have aux : ∀ nb2 : List Byte, nb2.length = nb.length →
          (∀ j, j < idx0 → nb2[j]? = nb[j]?) →
          (pos < fd.length → nb2[idx0]? = fd[pos]?) →
          (if isprint (nb2.getD idx0 0) = true then
            if idx0 < NAME_MAX_SIZE - 1 then
              readName fd n (if pos < fd.length then pos + 1 else pos) nb2 (idx0 + 1)
            else Except.ok (nb2, idx0 + 1)
          else Except.ok (nb2, idx0)) = Except.ok (nb1, idx) →
          idx0 ≤ idx ∧ nb1.length = nb.length ∧
          (∀ j, j < idx0 → nb1[j]? = nb[j]?) ∧
          (∀ k, idx0 + k < idx →
            (∃ b, nb1[idx0 + k]? = some b ∧ isprint b = true) ∧
            (pos + k < fd.length → nb1[idx0 + k]? = fd[pos + k]?)) := by
        intro nb2 hl2 hpre2 hat2 h
        have hgetD : ∀ b0 : Byte, nb2.getD idx0 b0 = nb2[idx0]?.getD b0 := fun b0 =>
          List.getD_eq_getElem?_getD _ _ _
        by_cases hp : isprint (nb2.getD idx0 0) = true
        · rw [if_pos hp] at h
          have hpr : ∃ b, nb2[idx0]? = some b ∧ isprint b = true := by
            have hlt : idx0 < nb2.length := by omega
            refine ⟨nb2[idx0], List.getElem?_eq_getElem hlt, ?_⟩
            rw [hgetD, List.getElem?_eq_getElem hlt] at hp
            exact hp
          by_cases hlim : idx0 < NAME_MAX_SIZE - 1
          · rw [if_pos hlim] at h
            obtain ⟨h1, h2, h3, h4⟩ := ih _ nb2 (idx0 + 1) nb1 idx h
            refine ⟨by omega, by rw [h2, hl2], ?_, ?_⟩
            · intro j hj
              rw [h3 j (by omega), hpre2 j hj]
            · intro k hk
              cases k with
              | zero =>
                rw [Nat.add_zero, h3 idx0 (by omega)]
                exact ⟨hpr, fun hp0 => hat2 hp0⟩
              | succ k =>
                have e1 : idx0 + (k + 1) = idx0 + 1 + k := by omega
                rw [e1]
                obtain ⟨g1, g2⟩ := h4 k (by omega)
                refine ⟨g1, ?_⟩
                intro hp0
                have hp1 : pos < fd.length := by omega
                rw [if_pos hp1] at g2
                have e2 : pos + (k + 1) = pos + 1 + k := by omega
                rw [e2]
                exact g2 (by omega)
          · rw [if_neg hlim] at h
            cases h
            refine ⟨by omega, hl2, fun j hj => hpre2 j hj, ?_⟩
            intro k hk
            have hk0 : k = 0 := by omega
            subst hk0
            exact ⟨hpr, fun hp0 => hat2 hp0⟩
        · rw [if_neg hp] at h
          cases h
          exact ⟨le_refl _, hl2, fun j hj => hpre2 j hj, fun k hk => absurd hk (by omega)⟩
      cases hf : fd[pos]? with
      | none =>
        rw [hf] at h
        refine aux nb rfl (fun _ _ => rfl) ?_ h
        intro hp
        rw [List.getElem?_eq_getElem hp] at hf
        cases hf
      | some b =>
        rw [hf] at h
        refine aux (nb.set idx0 b) (List.length_set _ _ _) ?_ ?_ h
        · intro j hj
          rw [List.getElem?_set_ne (by omega)]
        · intro _
          rw [List.getElem?_set_self (by omega), hf]

/-- Lines 176-183: the seek to `filename_offset`, the name loop and the
terminating NUL.  The name stands in `name_buffer` from `starting_name_index`
up to the NUL; its bytes are printable, and the `k`-th is the byte of the image
at offset `filename_offset + k` whenever that offset lies inside the image. -/
theorem getFilename_bytes (fd : List Byte) (filename_offset : Nat) (name_buffer : List Byte)
    (starting_name_index : Nat) (nb1 : List Byte) (idx : Nat)
    (h : getFilename fd filename_offset name_buffer starting_name_index = .ok (nb1, idx)) :
    starting_name_index ≤ idx ∧ nb1.length = name_buffer.length ∧ nb1[idx]? = some 0 ∧
    (∀ j, j < starting_name_index → nb1[j]? = name_buffer[j]?) ∧
    (∀ k, starting_name_index + k < idx →
      (∃ b, nb1[starting_name_index + k]? = some b ∧ isprint b = true) ∧
      (filename_offset + k < fd.length →
        nb1[starting_name_index + k]? = fd[filename_offset + k]?)) := by
  unfold getFilename at h
  cases hr : readName fd NAME_MAX_SIZE filename_offset name_buffer starting_name_index with
  | error e => rw [hr] at h; cases h
  | ok p =>
    obtain ⟨nb2, idx2⟩ := p
    rw [hr] at h
    simp only at h
    obtain ⟨h1, h2, h3, h4⟩ := readName_bytes fd _ _ _ _ _ _ hr
    unfold store at h
    by_cases hlt : idx2 < nb2.length
    · rw [if_pos hlt] at h
      cases h
      refine ⟨h1, by rw [List.length_set, h2], List.getElem?_set_self hlt, ?_, ?_⟩
      · intro j hj
        rw [List.getElem?_set_ne (by omega), h3 j hj]
      · intro k hk
        rw [List.getElem?_set_ne (by omega)]
        exact h4 k hk
    · rw [if_neg hlt] at h
      cases h

theorem take_eq_of_getElem? (a b : List Byte) (n : Nat) (h : ∀ j, j < n → a[j]? = b[j]?) :
    a.take n = b.take n := by
  apply List.ext_getElem?
  intro k
  rw [List.getElem?_take, List.getElem?_take]
  by_cases hk : k < n
  · rw [if_pos hk, if_pos hk, h k hk]
  · rw [if_neg hk, if_neg hk]

/-- Lines 176-183 seen from the buffer: the bytes before
`starting_name_index` stay, a name read at `filename_offset` follows them,
and the NUL stands behind it. -/
theorem getFilename_name (fd : List Byte) (filename_offset : Nat) (name_buffer : List Byte)
    (starting_name_index : Nat) (nb1 : List Byte) (idx : Nat)
    (h : getFilename fd filename_offset name_buffer starting_name_index = .ok (nb1, idx)) :
    starting_name_index ≤ idx ∧ idx < nb1.length ∧ nb1.length = name_buffer.length ∧
    nb1[idx]? = some 0 ∧
    (∀ j, j < starting_name_index → nb1[j]? = name_buffer[j]?) ∧
    ∃ S, nb1.take idx = name_buffer.take starting_name_index ++ S ∧
      NameAt fd filename_offset S := by
  obtain ⟨h1, h2, h3, h4, h5⟩ := getFilename_bytes fd _ _ _ _ _ h
  have hlt : idx < nb1.length := (List.getElem?_eq_some_iff.1 h3).1
  refine ⟨h1, hlt, h2, h3, h4, (nb1.take idx).drop starting_name_index, ?_, ?_, ?_⟩
  · have e : (nb1.take idx).take starting_name_index =
        name_buffer.take starting_name_index := by
      rw [List.take_take, Nat.min_eq_left h1]
      exact take_eq_of_getElem? _ _ _ h4
    rw [← e, List.take_append_drop]
  · intro b hb
    obtain ⟨n, hn⟩ := List.mem_iff_getElem?.1 hb
    rw [List.getElem?_drop, List.getElem?_take] at hn
    by_cases hk : starting_name_index + n < idx
    · rw [if_pos hk] at hn
      obtain ⟨⟨b2, g1, g2⟩, _⟩ := h5 n hk
      rw [g1] at hn
      cases hn
      exact g2
    · rw [if_neg hk] at hn
      cases hn
  · intro k hk hin
    rw [List.length_drop, List.length_take] at hk
    have hk2 : starting_name_index + k < idx := by omega
    rw [List.getElem?_drop, List.getElem?_take, if_pos hk2]
    exact (h5 k hk2).2 hin

theorem cstring_eq_take (nb : List Byte) (idx : Nat) (hz : ∀ b ∈ nb.take idx, b ≠ 0)
    (h0 : nb[idx]? = some 0) : cstring nb = nb.take idx := by
  obtain ⟨hlt, hv⟩ := List.getElem?_eq_some_iff.1 h0
  have hd : nb.drop idx = 0 :: nb.drop (idx + 1) := by
    rw [List.drop_eq_getElem_cons hlt, hv]
  have e : nb = nb.take idx ++ 0 :: nb.drop (idx + 1) := by
    rw [← hd, List.take_append_drop]
  conv_lhs => rw [e]
  exact cstring_append_zero _ _ hz

/-- Lines 186-187 seen from the buffer. -/
theorem appendSlash_take (nb : List Byte) (ni : Nat) (nb2 : List Byte) (ni2 : Nat)
    (h : appendSlash nb ni = .ok (nb2, ni2)) :
    ni2 = ni + 1 ∧ nb2.length = nb.length ∧ nb2.take (ni + 1) = nb.take ni ++ [0x2F] ∧
    ∀ j, j < ni → nb2[j]? = nb[j]? := by
  unfold appendSlash store at h
  by_cases h1 : ni < nb.length
  · rw [if_pos h1] at h
    simp only at h
    by_cases h2 : ni + 1 < (nb.set ni 0x2F).length
    · rw [if_pos h2] at h
      simp only [Except.ok.injEq, Prod.mk.injEq] at h
      obtain ⟨e1, e2⟩ := h
      subst e1 e2
      refine ⟨rfl, by simp, ?_, ?_⟩
      · apply List.ext_getElem?
        intro n
        rw [List.getElem?_take]
        by_cases hn : n < ni
        · rw [if_pos (by omega), List.getElem?_set_ne (by omega), List.getElem?_set_ne (by omega),
            List.getElem?_append_left (by rw [List.length_take]; omega),
            List.getElem?_take, if_pos hn]
        · by_cases hn2 : n = ni
          · subst hn2
            rw [if_pos (by omega), List.getElem?_set_ne (by omega), List.getElem?_set_self h1,
              List.getElem?_append_right (by rw [List.length_take]; omega)]
            have e : n - (List.take n nb).length = 0 := by rw [List.length_take]; omega
            rw [e]
            rfl
          · rw [if_neg (by omega), List.getElem?_eq_none]
            rw [List.length_append, List.length_take, List.length_singleton]
            omega
      · intro j hj
        rw [List.getElem?_set_ne (by omega), List.getElem?_set_ne (by omega)]
    · rw [if_neg h2] at h
      cases h
  · rw [if_neg h1] at h
    cases h

theorem PathFrom_mono (buffer fd : List Byte) (base : Nat) (V1 V2 : List Visit)
    (hsub : ∀ v ∈ V1, v ∈ V2) (P : List Byte) (h : PathFrom buffer fd base V1 P) :
    PathFrom buffer fd base V2 P := by
  induction h with
  | root => exact PathFrom.root
  | dir P S i f0 _ hv h0 hd hn ih =>
    obtain ⟨v, hv1, hv2⟩ := hv
    exact PathFrom.dir P S i f0 ih ⟨v, hsub v hv1, hv2⟩ h0 hd hn

theorem PathFrom_ne_zero (buffer fd : List Byte) (base : Nat) (V : List Visit)
    (P : List Byte) (h : PathFrom buffer fd base V P) : ∀ b ∈ P, b ≠ 0 := by
  induction h with
  | root => intro b hb; cases hb
  | dir P S i f0 _ _ _ _ hn ih =>
    intro b hb
    rcases List.mem_append.1 hb with h1 | h1
    · rcases List.mem_append.1 h1 with h2 | h2
      · exact ih b h2
      · exact isprint_ne_zero b (hn.1 b h2)
    · rw [List.mem_singleton.1 h1]
      decide

theorem EntryFrom_mono (buffer fd : List Byte) (base : Nat) (V1 V2 : List Visit)
    (t : TreeEntry) (hsub : ∀ v ∈ V1, v ∈ V2) (h : EntryFrom buffer fd base V1 t) :
    EntryFrom buffer fd base V2 t := by
  obtain ⟨P, S, i, f0, f1, f2, hP, ⟨v, hv, hvi⟩, rest⟩ := h
  exact ⟨P, S, i, f0, f1, f2, PathFrom_mono _ _ _ V1 V2 hsub P hP, ⟨v, hsub v hv, hvi⟩, rest⟩

/-- On every table and from every state whose prefix in `name_buffer` is a
directory prefix of the walk so far: the loop leaves that prefix in place, and
each entry it inserts is a directory prefix of the walk followed by the name of
a file record, every name read at its record's name offset. -/
theorem loop_provenance (buffer fd : List Byte) (base : Nat) :
    ∀ (fuel : Nat) (s e : Int) (sni : Nat) (i : Int) (w : Walk),
      PathFrom buffer fd base w.trace (w.name_buffer.take sni) →
      ∃ (newT : List TreeEntry) (newV : List Visit),
        (recurseLoop buffer fd base fuel s e sni i w).tree = w.tree ++ newT ∧
        (recurseLoop buffer fd base fuel s e sni i w).trace = w.trace ++ newV ∧
        (∀ j, j < sni →
          (recurseLoop buffer fd base fuel s e sni i w).name_buffer[j]? = w.name_buffer[j]?) ∧
        ∀ t ∈ newT, EntryFrom buffer fd base (w.trace ++ newV) t := by
  intro fuel
  induction fuel with
  | zero =>
    intro s e sni i w _
    exact ⟨[], [], by simp [recurseLoop], by simp [recurseLoop], fun _ _ => by simp [recurseLoop],
      by simp⟩
  | succ fuel ih =>
    intro s e sni i w hP
    by_cases hdone : e < i
    · rw [recurseLoop_done _ _ _ _ _ _ _ _ _ hdone]
      exact ⟨[], [], by simp, by simp, fun _ _ => rfl, by simp⟩
    · rcases recordField_cases buffer i with ⟨f0, f1, f2, h0, h4, h8⟩ | hnone
      · rw [recurseLoop_step buffer fd base fuel s e sni i w hdone f0 f1 f2 h0 h4 h8]
        cases hg : getFilename fd (((f0 &&& 0xFEFFFFFF) + base) % 4294967296) w.name_buffer sni with
        | error idx => exact ⟨[], [Visit.mk i s e], by simp, rfl, fun _ _ => rfl, by simp⟩
        | ok p =>
          obtain ⟨nb, ni⟩ := p
          simp only
          obtain ⟨g1, g2, g3, g4, g5, S, gS, gN⟩ := getFilename_name fd _ _ _ _ _ hg
          have hsubV : ∀ v ∈ w.trace, v ∈ w.trace ++ [Visit.mk i s e] :=
            fun v hv => List.mem_append_left _ hv
          have hvis : ∃ v ∈ w.trace ++ [Visit.mk i s e], v.i = i :=
            ⟨Visit.mk i s e, List.mem_append_right _ (List.mem_singleton.2 rfl), rfl⟩
          by_cases hdir : f0 &&& 0x01000000 ≠ 0
          · rw [if_pos hdir]
            cases ha : appendSlash nb ni with
            | error idx => exact ⟨[], [Visit.mk i s e], by simp, rfl, fun _ _ => rfl, by simp⟩
            | ok q =>
              obtain ⟨nb2, ni2⟩ := q
              simp only
              obtain ⟨a1, a2, a3, a4⟩ := appendSlash_take nb ni nb2 ni2 ha
              subst a1
              generalize hw1 : Walk.mk nb2 w.tree (w.trace ++ [Visit.mk i s e]) w.fault = w1
              have hw1r : w1.tree = w.tree := by rw [← hw1]
              have hw1t : w1.trace = w.trace ++ [Visit.mk i s e] := by rw [← hw1]
              have hw1n : w1.name_buffer = nb2 := by rw [← hw1]
              have hP1 : PathFrom buffer fd base w1.trace (w1.name_buffer.take (ni + 1)) := by
                rw [hw1n, hw1t, a3, gS]
                exact PathFrom.dir _ S i f0 (PathFrom_mono _ _ _ _ _ hsubV _ hP) hvis h0 hdir gN
              obtain ⟨new1, v1, ht1, hv1, hp1, hb1⟩ :=
                ih (wrap32 (i + 1)) (wrap32 f2) (ni + 1) (wrap32 (i + 1)) w1 hP1
              have hpre1 : ∀ j, j < sni →
                  (recurseLoop buffer fd base fuel (wrap32 (i + 1)) (wrap32 f2) (ni + 1)
                    (wrap32 (i + 1)) w1).name_buffer[j]? = w.name_buffer[j]? := by
                intro j hj
                rw [hp1 j (by omega), hw1n, a4 j (by omega), g5 j hj]
              have hl1 : w.trace ++ Visit.mk i s e :: v1 = w1.trace ++ v1 := by
                rw [hw1t]; simp
              by_cases hsub : (recurseLoop buffer fd base fuel (wrap32 (i + 1)) (wrap32 f2)
                  (ni + 1) (wrap32 (i + 1)) w1).fault.isSome = true
              · rw [if_pos hsub]
                refine ⟨new1, Visit.mk i s e :: v1, by rw [ht1, hw1r], by rw [hv1, hl1],
                  hpre1, ?_⟩
                intro t ht
                rw [hl1]
                exact hb1 t ht
              · rw [if_neg hsub]
                have hP2 : PathFrom buffer fd base
                    (recurseLoop buffer fd base fuel (wrap32 (i + 1)) (wrap32 f2) (ni + 1)
                      (wrap32 (i + 1)) w1).trace
                    ((recurseLoop buffer fd base fuel (wrap32 (i + 1)) (wrap32 f2) (ni + 1)
                      (wrap32 (i + 1)) w1).name_buffer.take sni) := by
                  rw [take_eq_of_getElem? _ _ _ hpre1, hv1, ← hl1]
                  exact PathFrom_mono _ _ _ _ _ (fun v hv => List.mem_append_left _ hv) _ hP
                obtain ⟨new2, v2, ht2, hv2, hp2, hb2⟩ := ih s e sni
                  (wrap32 (wrap32 (i + wrap32 (wrap32 (wrap32 f2 - wrap32 (i + 1)) + 1)) + 1))
                  (recurseLoop buffer fd base fuel (wrap32 (i + 1)) (wrap32 f2) (ni + 1)
                    (wrap32 (i + 1)) w1) hP2
                have hl2 : w.trace ++ Visit.mk i s e :: (v1 ++ v2) =
                    (recurseLoop buffer fd base fuel (wrap32 (i + 1)) (wrap32 f2) (ni + 1)
                      (wrap32 (i + 1)) w1).trace ++ v2 := by
                  rw [hv1, hw1t]; simp
                refine ⟨new1 ++ new2, Visit.mk i s e :: (v1 ++ v2),
                  by rw [ht2, ht1, hw1r]; simp, by rw [hv2, hl2], ?_, ?_⟩
                · intro j hj
                  rw [hp2 j hj, hpre1 j hj]
                · intro t ht
                  rcases List.mem_append.1 ht with h | h
                  · refine EntryFrom_mono _ _ _ (w1.trace ++ v1) _ t ?_ (hb1 t h)
                    intro v hv
                    rw [← hl1] at hv
                    rcases List.mem_append.1 hv with h1 | h1
                    · exact List.mem_append_left _ h1
                    · rcases List.mem_cons.1 h1 with h2 | h2
                      · exact List.mem_append_right _ (h2 ▸ List.mem_cons_self _ _)
                      · exact List.mem_append_right _
                          (List.mem_cons_of_mem _ (List.mem_append_left _ h2))
                  · rw [hl2]
                    exact hb2 t h
          · rw [if_neg hdir]
            have hz : ∀ b ∈ nb.take ni, b ≠ 0 := by
              rw [gS]
              intro b hb
              rcases List.mem_append.1 hb with h1 | h1
              · exact PathFrom_ne_zero _ _ _ _ _ hP b h1
              · exact isprint_ne_zero b (gN.1 b h1)
            have hcs : cstring nb = w.name_buffer.take sni ++ S := by
              rw [cstring_eq_take nb ni hz g4, gS]
            generalize hw2 : Walk.mk nb
              (w.tree ++ [TreeEntry.mk (cstring nb) (cstring nb).length f1 f2])
              (w.trace ++ [Visit.mk i s e]) w.fault = w2
            have hw2r : w2.tree =
                w.tree ++ [TreeEntry.mk (cstring nb) (cstring nb).length f1 f2] := by rw [← hw2]
            have hw2t : w2.trace = w.trace ++ [Visit.mk i s e] := by rw [← hw2]
            have hw2n : w2.name_buffer = nb := by rw [← hw2]
            have hP2 : PathFrom buffer fd base w2.trace (w2.name_buffer.take sni) := by
              rw [hw2n, hw2t, take_eq_of_getElem? _ _ _ g5]
              exact PathFrom_mono _ _ _ _ _ hsubV _ hP
            obtain ⟨new2, v2, ht2, hv2, hp2, hb2⟩ := ih s e sni (wrap32 (i + 1)) w2 hP2
            have hl2 : w.trace ++ Visit.mk i s e :: v2 = w2.trace ++ v2 := by
              rw [hw2t]; simp
            refine ⟨TreeEntry.mk (cstring nb) (cstring nb).length f1 f2 :: new2,
              Visit.mk i s e :: v2, by rw [ht2, hw2r]; simp, by rw [hv2, hl2], ?_, ?_⟩
            · intro j hj
              rw [hp2 j hj, hw2n, g5 j hj]
            · intro t ht
              rcases List.mem_cons.1 ht with h | h
              · refine ⟨w.name_buffer.take sni, S, i, f0, f1, f2,
                  PathFrom_mono _ _ _ _ _ (fun v hv => List.mem_append_left _ hv) _ hP,
                  ⟨Visit.mk i s e, List.mem_append_right _ (List.mem_cons_self _ _), rfl⟩,
                  h0, h4, h8, not_not.1 hdir, gN, ?_⟩
                rw [h, hcs]
              · rw [hl2]
                exact hb2 t h
      · rw [recurseLoop_oob buffer fd base fuel s e sni i w hdone hnone]
        exact ⟨[], [Visit.mk i s e], by simp, rfl, fun _ _ => rfl, by simp⟩

/-- In a run of `gcfs_init` that returns a context for a table of `N` records
with `12 * N` in the range of `int`, the two reads of the table were complete
and the walk was started on records 2..N with
`filename_base_offset = directoryTableOffset + 12 * N`; the tree and the
loop bodies of the run are those of that walk. -/
theorem gcfs_init_walk (fuel : Nat) (fd metadata name_buffer : List Byte) (r : InitResult)
    (hr : gcfs_init fuel fd metadata name_buffer = r)
    (hacc : r.outcome.isContext = true) (hsz : 12 * recordCount fd < 2147483648) :
    ∃ (nb : List Byte) (m d : TreeEntry), store name_buffer 0 0 = some nb ∧
      1 ≤ recordCount fd ∧ (directoryTable fd).length = 12 * recordCount fd ∧
      (gcfs_recurse_directory fuel (directoryTable fd) 2 (recordCount fd) 0 fd
        (stringTableBase fd) (Walk.mk nb [m, d] [] none)).1.fault = none ∧
      r.tree = some (gcfs_recurse_directory fuel (directoryTable fd) 2 (recordCount fd) 0 fd
        (stringTableBase fd) (Walk.mk nb [m, d] [] none)).1.tree ∧
      r.trace = (gcfs_recurse_directory fuel (directoryTable fd) 2 (recordCount fd) 0 fd
        (stringTableBase fd) (Walk.mk nb [m, d] [] none)).1.trace := by
  have hb1 : -2147483648 ≤ (recordCount fd : Int) := by omega
  have hb2 : (recordCount fd : Int) < 2147483648 := by omega
  have hb3 : -2147483648 ≤ (recordCount fd : Int) * 12 := by omega
  have hb4 : (recordCount fd : Int) * 12 < 2147483648 := by omega
  have hn : ((recordCount fd : Int) * 12).toNat = 12 * recordCount fd := by omega
  have hc : wrap32 ((recordCount fd : Nat) : Int) = (recordCount fd : Int) :=
    wrap32_eq_self _ hb1 hb2
  have hs : wrap32 ((recordCount fd : Int) * 12) = (recordCount fd : Int) * 12 :=
    wrap32_eq_self _ hb3 hb4
  have hN : (BE_32 (readAt fd ((BE_32 (readAt fd 0 0x440) 0x424).getD 0) 12) 8).getD 0
      = recordCount fd := rfl
  unfold gcfs_init at hr
  dsimp only at hr
  split at hr
  · rw [← hr] at hacc; cases hacc
  · split at hr
    · rw [← hr] at hacc; cases hacc
    · split at hr
      · rw [← hr] at hacc; cases hacc
      · split at hr
        · rw [← hr] at hacc; cases hacc
        · rename_i hfirst
          split at hr
          · rw [← hr] at hacc; cases hacc
          · split at hr
            · rw [← hr] at hacc; cases hacc
            · rename_i h12
              split at hr
              · rw [← hr] at hacc; cases hacc
              · rename_i hrest
                split at hr
                · rw [← hr] at hacc; cases hacc
                · rename_i nb hstore
                  split at hr
                  · rw [← hr] at hacc; cases hacc
                  · rename_i hfault
                    rw [hN, hc, hs] at h12
                    rw [hN, hc, hs, hn] at hrest
                    rw [hN, hc, hs, hn] at hfault
                    rw [hN, hc, hs, hn] at hr
                    have hrl : (readAt fd ((BE_32 (readAt fd 0 0x440) 0x424).getD 0 + 12)
                        (12 * recordCount fd - 12)).length = 12 * recordCount fd - 12 := by
                      simpa using hrest
                    have hfl : (readAt fd ((BE_32 (readAt fd 0 0x440) 0x424).getD 0) 12).length
                        = 12 := by simpa using hfirst
                    have h1 : 1 ≤ recordCount fd := by omega
                    rw [hrl] at hfault hr
                    have hbase : (BE_32 (readAt fd 0 0x440) 0x424).getD 0 + 12
                        + (12 * recordCount fd - 12) = stringTableBase fd := by
                      unfold stringTableBase directoryTableOffset
                      omega
                    rw [hbase] at hfault hr
                    refine ⟨nb, _, _, hstore, h1, ?_, hfault, ?_, ?_⟩
                    · unfold directoryTable directoryTableOffset
                      rw [List.length_append, hfl, hrl]
                      omega
                    · rw [← hr]
                      rfl
                    · rw [← hr]
                      rfl

/-- Conditions under which `gcfs_init` returns a context: the header, the
executable header and the table of `N ≥ 1` records (with `12 * N` in the range
of `int`) are read in full, the metadata assembly and `name_buffer[0] = 0`
stay inside their arrays, and the walk with
`filename_base_offset = directoryTableOffset + 12 * N` ends without a fault. -/
theorem gcfs_init_accepts (fuel : Nat) (fd metadata name_buffer m : List Byte) (n : Nat)
    (nb : List Byte)
    (hws : (readAt fd 0 0x440).length = 0x440)
    (hmeta : build_metadata (readAt fd 0 0x440) metadata = some (m, n))
    (hdol : (readAt fd ((BE_32 (readAt fd 0 0x440) 0x420).getD 0) 256).length = 256)
    (hsz : 12 * recordCount fd < 2147483648) (h1 : 1 ≤ recordCount fd)
    (hlen : (directoryTable fd).length = 12 * recordCount fd)
    (hstore : store name_buffer 0 0 = some nb)
    (hfault : (gcfs_recurse_directory fuel (directoryTable fd) 2 (recordCount fd) 0 fd
      (stringTableBase fd) (Walk.mk nb
        [TreeEntry.mk METADATA_FILE_NAME (METADATA_FILE_NAME.length + 1) 0 n,
         TreeEntry.mk (main_dol_filename (readAt fd 0 0x440))
          (main_dol_filename (readAt fd 0 0x440)).length
          ((BE_32 (readAt fd 0 0x440) 0x420).getD 0)
          (max_dol_section_offset (readAt fd ((BE_32 (readAt fd 0 0x440) 0x420).getD 0) 256))]
        [] none)).1.fault = none) :
    (gcfs_init fuel fd metadata name_buffer).outcome.isContext = true ∧
    (gcfs_init fuel fd metadata name_buffer).tree =
      some (gcfs_recurse_directory fuel (directoryTable fd) 2 (recordCount fd) 0 fd
      (stringTableBase fd) (Walk.mk nb
        [TreeEntry.mk METADATA_FILE_NAME (METADATA_FILE_NAME.length + 1) 0 n,
         TreeEntry.mk (main_dol_filename (readAt fd 0 0x440))
          (main_dol_filename (readAt fd 0 0x440)).length
          ((BE_32 (readAt fd 0 0x440) 0x420).getD 0)
          (max_dol_section_offset (readAt fd ((BE_32 (readAt fd 0 0x440) 0x420).getD 0) 256))]
        [] none)).1.tree := by
  have hb1 : -2147483648 ≤ (recordCount fd : Int) := by omega
  have hb2 : (recordCount fd : Int) < 2147483648 := by omega
  have hb3 : -2147483648 ≤ (recordCount fd : Int) * 12 := by omega
  have hb4 : (recordCount fd : Int) * 12 < 2147483648 := by omega
  have hn : ((recordCount fd : Int) * 12).toNat = 12 * recordCount fd := by omega
  have hge0 : ¬ (recordCount fd : Int) * 12 < 0 := by omega
  have hge12 : ¬ (recordCount fd : Int) * 12 < 12 := by omega
  have hl1 := readAt_length fd ((BE_32 (readAt fd 0 0x440) 0x424).getD 0) 12
  have hl2 := readAt_length fd ((BE_32 (readAt fd 0 0x440) 0x424).getD 0 + 12)
    (12 * recordCount fd - 12)
  have hlen2 : (readAt fd ((BE_32 (readAt fd 0 0x440) 0x424).getD 0) 12).length +
      (readAt fd ((BE_32 (readAt fd 0 0x440) 0x424).getD 0 + 12)
        (12 * recordCount fd - 12)).length = 12 * recordCount fd := by
    rw [← List.length_append]; exact hlen
  have hfl : (readAt fd ((BE_32 (readAt fd 0 0x440) 0x424).getD 0) 12).length = 12 := by
    omega
  have hrl : (readAt fd ((BE_32 (readAt fd 0 0x440) 0x424).getD 0 + 12)
      (12 * recordCount fd - 12)).length = 12 * recordCount fd - 12 := by omega
  have hbase : (BE_32 (readAt fd 0 0x440) 0x424).getD 0 + 12
      + (12 * recordCount fd - 12) = stringTableBase fd := by
    unfold stringTableBase directoryTableOffset
    omega
  clear hl1 hl2 hlen2
  have hc : wrap32 ((recordCount fd : Nat) : Int) = (recordCount fd : Int) :=
    wrap32_eq_self _ hb1 hb2
  have hs : wrap32 ((recordCount fd : Int) * 12) = (recordCount fd : Int) * 12 :=
    wrap32_eq_self _ hb3 hb4
  have hN : (BE_32 (readAt fd ((BE_32 (readAt fd 0 0x440) 0x424).getD 0) 12) 8).getD 0
      = recordCount fd := rfl
  have key : ∀ r, gcfs_init fuel fd metadata name_buffer = r →
      r.outcome.isContext = true ∧ r.tree =
      some (gcfs_recurse_directory fuel (directoryTable fd) 2 (recordCount fd) 0 fd
      (stringTableBase fd) (Walk.mk nb
        [TreeEntry.mk METADATA_FILE_NAME (METADATA_FILE_NAME.length + 1) 0 n,
         TreeEntry.mk (main_dol_filename (readAt fd 0 0x440))
          (main_dol_filename (readAt fd 0 0x440)).length
          ((BE_32 (readAt fd 0 0x440) 0x420).getD 0)
          (max_dol_section_offset (readAt fd ((BE_32 (readAt fd 0 0x440) 0x420).getD 0) 256))]
        [] none)).1.tree := by
    intro r hr
    unfold gcfs_init at hr
    dsimp only at hr
    split at hr
    · rename_i h; exact absurd hws h
    · split at hr
      · rename_i h; rw [hmeta] at h; cases h
      · rename_i m1 n1 hm
        rw [hmeta] at hm
        have e := Option.some.inj hm
        have e1 : m = m1 := congrArg Prod.fst e
        have e2 : n = n1 := congrArg Prod.snd e
        subst e1 e2
        split at hr
        · rename_i h; exact absurd hdol h
        · split at hr
          · rename_i h; exact absurd hfl h
          · split at hr
            · rename_i h; rw [hN, hc, hs] at h; exact absurd h hge0
            · split at hr
              · rename_i h; rw [hN, hc, hs] at h; exact absurd h hge12
              · split at hr
                · rename_i h
                  rw [hN, hc, hs, hn] at h
                  exact absurd hrl h
                · split at hr
                  · rename_i h; rw [hstore] at h; cases h
                  · rename_i nb1 hst
                    rw [hstore] at hst
                    have e3 : nb = nb1 := Option.some.inj hst
                    subst e3
                    rw [hN, hc, hs, hn, hrl, hbase] at hr
                    split at hr
                    · rename_i f hf
                      have hf2 : (gcfs_recurse_directory fuel (directoryTable fd) 2
                          (recordCount fd) 0 fd (stringTableBase fd) (Walk.mk nb
                          [TreeEntry.mk METADATA_FILE_NAME (METADATA_FILE_NAME.length + 1) 0 n,
                           TreeEntry.mk (main_dol_filename (readAt fd 0 0x440))
                            (main_dol_filename (readAt fd 0 0x440)).length
                            ((BE_32 (readAt fd 0 0x440) 0x420).getD 0)
                            (max_dol_section_offset
                              (readAt fd ((BE_32 (readAt fd 0 0x440) 0x420).getD 0) 256))]
                          [] none)).1.fault = some f := hf
                      rw [hfault] at hf2
                      cases hf2
                    · rw [← hr]
                      exact ⟨rfl, rfl⟩
  exact key _ rfl

theorem exFarPadding_length : exFarPadding.length = 0x1000000 := by
  unfold exFarPadding
  rw [List.length_replicate]

theorem exFar_prefix_length : (exFarHeader ++ exDol ++ exFarPadding).length = 0x1000540 := by
  have hH : exFarHeader.length = 0x440 := by decide!
  have hD : exDol.length = 256 := by decide!
  rw [List.length_append, List.length_append, hH, hD, exFarPadding_length]

theorem exFar_length : exFarImage.length = 0x1000558 := by
  have hT : exFarTable.length = 24 := by decide!
  unfold exFarImage
  rw [List.length_append, exFar_prefix_length, hT]

theorem exFar_header : readAt exFarImage 0 0x440 = exFarHeader := by
  have hH : exFarHeader.length = 0x440 := by decide!
  unfold readAt exFarImage
  rw [List.drop_zero, List.append_assoc, List.append_assoc, List.take_left' hH]

theorem exFar_dol : readAt exFarImage 0x440 256 = exDol := by
  have hH : exFarHeader.length = 0x440 := by decide!
  have hD : exDol.length = 256 := by decide!
  unfold readAt exFarImage
  rw [List.append_assoc, List.append_assoc, List.drop_left' hH, List.take_left' hD]

theorem exFar_first : readAt exFarImage 0x1000540 12 = record12 0x01000000 0 2 := by
  unfold readAt exFarImage
  rw [List.drop_left' exFar_prefix_length]
  decide!

theorem exFar_rest : readAt exFarImage (0x1000540 + 12) (12 * 2 - 12) =
    record12 0xFEFFFAC8 0x100 10 := by
  unfold readAt exFarImage
  rw [← exFar_prefix_length, List.drop_append]
  decide!

theorem exFar_name : (exFarImage.drop 0x20).takeWhile isprint = bytes "Test Game" := by
  have hH : 0x20 ≤ exFarHeader.length := by decide!
  have hX : exFarHeader.drop 0x20 = bytes "Test Game" ++ 0 :: exFarHeader.drop 0x2A := by decide!
  unfold exFarImage
  rw [List.append_assoc, List.append_assoc, List.drop_append_of_le_length hH, hX,
    List.append_assoc, List.cons_append,
    List.takeWhile_append_of_pos (by decide!)]
  simp only [List.takeWhile_cons, List.append_right_eq_self]
  rfl

theorem name_past_end (fd : List Byte) (k : Nat) (h : fd.length ≤ k) :
    (fd.drop k).takeWhile isprint = [] := by
  rw [List.drop_eq_nil_of_le h]
  rfl

/-- A run of `gcfs_init` on an image of 0x1000558 bytes with the header
`exFarHeader`, the executable header `exDol` at 0x440 and the table
`exFarTable` at 0x1000540, in which the bytes at offset 0x20 are the title
"Test Game": the image is accepted, the position behind the 2 records is
0x1000558, record 2 has first field 0xFEFFFAC8, and the name its entry gets
is "Test Game", read at offset 0x20. -/
theorem far_image_run (fd : List Byte) (fuel : Nat)
    (hheader : readAt fd 0 0x440 = exFarHeader) (hdol : readAt fd 0x440 256 = exDol)
    (hfirst : readAt fd 0x1000540 12 = record12 0x01000000 0 2)
    (hrest : readAt fd (0x1000540 + 12) (12 * 2 - 12) = record12 0xFEFFFAC8 0x100 10)
    (hlength : fd.length = 0x1000558)
    (hname : (fd.drop 0x20).takeWhile isprint = bytes "Test Game") :
    (gcfs_init (fuel + 2) fd (List.replicate 2048 0)
      (List.replicate 1024 0)).outcome.isContext = true ∧
    ((gcfs_init (fuel + 2) fd (List.replicate 2048 0)
      (List.replicate 1024 0)).tree.getD []).drop 2 =
        [TreeEntry.mk (bytes "Test Game") 9 0x100 10] ∧
    recordField (directoryTable fd) 2 0 = some 0xFEFFFAC8 ∧
    directoryTableOffset fd = 0x1000540 ∧ recordCount fd = 2 := by
  have hT : directoryTableOffset fd = 0x1000540 := by
    unfold directoryTableOffset
    rw [hheader]
    decide!
  have hNc : recordCount fd = 2 := by
    unfold recordCount
    rw [hT, hfirst]
    decide!
  have hTab : directoryTable fd = exFarTable := by
    unfold directoryTable
    rw [hT, hNc, hfirst, hrest]
    rfl
  have hBase : stringTableBase fd = 0x1000558 := by
    unfold stringTableBase
    rw [hT, hNc]
  have hmeta : build_metadata (readAt fd 0 0x440) (List.replicate 2048 0) =
      some (padTo 2048 exMetadataText, 66) := by
    rw [hheader]
    decide!
  have hdolOff : (BE_32 (readAt fd 0 0x440) 0x420).getD 0 = 0x440 := by
    rw [hheader]
    decide!
  have hstore : store (List.replicate 1024 (0 : Byte)) 0 0 = some (List.replicate 1024 0) := by
    decide!
  -- the walk
  have hN : NAME_MAX_SIZE = 1024 := rfl
  have h0 : recordField exFarTable 2 0 = some 0xFEFFFAC8 := by decide!
  have h4 : recordField exFarTable 2 4 = some 0x100 := by decide!
  have h8 : recordField exFarTable 2 8 = some 10 := by decide!
  have hpos : ((0xFEFFFAC8 &&& 0xFEFFFFFF) + 0x1000558) % 4294967296 = 0x20 := by decide
  have hfile : ¬ ((0xFEFFFAC8 &&& 0x01000000 : Nat) ≠ 0) := by decide
  have hd : (bytes "Test Game").length = 9 := by decide
  have hz : ∀ b ∈ bytes "Test Game", b ≠ 0 := by decide!
  have hs : wrap32 ((2 : Int) + 1) = 3 := by decide!
  have hg := getFilename_spec fd 0x20 [] (List.replicate 1024 0)
    (by rw [hname, hlength, hd]; decide) (by decide!)
    (by rw [hname, hd, hN]; decide)
  rw [hname, hd] at hg
  simp only [List.nil_append, List.length_nil, Nat.zero_add] at hg
  have hw : ∀ tree : List TreeEntry,
      (gcfs_recurse_directory (fuel + 2) exFarTable 2 (2 : Nat) 0 fd 0x1000558
        (Walk.mk (List.replicate 1024 0) tree [] none)).1.fault = none ∧
      (gcfs_recurse_directory (fuel + 2) exFarTable 2 (2 : Nat) 0 fd 0x1000558
        (Walk.mk (List.replicate 1024 0) tree [] none)).1.tree =
          tree ++ [TreeEntry.mk (bytes "Test Game") 9 0x100 10] := by
    intro tree
    unfold gcfs_recurse_directory
    simp only [Nat.cast_ofNat]
    rw [recurseLoop_step _ _ _ _ _ _ _ _ _ (by decide) _ _ _ h0 h4 h8, hpos]
    simp only
    rw [hg]
    simp only
    rw [if_neg hfile, hs, recurseLoop_done _ _ _ _ _ _ _ _ _ (by decide),
      cstring_append_zero _ _ hz, hd]
    exact ⟨rfl, rfl⟩
  have hacc := gcfs_init_accepts (fuel + 2) fd (List.replicate 2048 0) (List.replicate 1024 0)
    (padTo 2048 exMetadataText) 66 (List.replicate 1024 0)
    (by rw [hheader]; decide!) hmeta
    (by rw [hdolOff, hdol]; decide!)
    (by rw [hNc]; decide) (by rw [hNc]; decide)
    (by rw [hTab, hNc]; decide!) hstore
    (by rw [hTab, hNc, hBase]; exact (hw _).1)
  refine ⟨hacc.1, ?_, ?_, hT, hNc⟩
  · rw [hacc.2, hTab, hNc, hBase, (hw _).2]
    rfl
  · rw [hTab]
    exact h0

/-- C18 as stated fails: `gcfs_init` accepts the image `exFarImage`, whose
directory table of N = 2 records stands at 0x1000540, so that the position
behind the records is 0x1000540 + 12 * 2 = 0x1000558; record 2 has first
field 0xFEFFFAC8, and 0xFEFFFAC8 + 0x1000558 = 0x100000020 lies behind the
end of the image, where no name can be read; the name the entry gets is
"Test Game", the bytes at offset 0x20 = 0x100000020 mod 2^32. -/
theorem C18_counterexample :
    ((gcfs_init (8 + 2) exFarImage (List.replicate 2048 0)
      (List.replicate 1024 0)).outcome.isContext = true ∧
    ((gcfs_init (8 + 2) exFarImage (List.replicate 2048 0)
      (List.replicate 1024 0)).tree.getD []).drop 2 =
        [TreeEntry.mk (bytes "Test Game") 9 0x100 10] ∧
    recordField (directoryTable exFarImage) 2 0 = some 0xFEFFFAC8 ∧
    directoryTableOffset exFarImage = 0x1000540 ∧ recordCount exFarImage = 2) ∧
    (0xFEFFFAC8 &&& 0xFEFFFFFF) + (0x1000540 + 12 * 2) = 0x100000020 ∧
    exFarImage.length = 0x1000558 ∧
    (exFarImage.drop 0x100000020).takeWhile isprint = [] ∧
    (exFarImage.drop (0x100000020 % 4294967296)).takeWhile isprint = bytes "Test Game" :=
  ⟨far_image_run exFarImage 8 exFar_header exFar_dol exFar_first exFar_rest exFar_length
    exFar_name, by decide, exFar_length,
    name_past_end exFarImage 0x100000020 (by rw [exFar_length]; decide), exFar_name⟩

/-- C18 as amended: in every run of `gcfs_init` that returns a context for a
table of `N` records with `12 * N` in the range of `int`, the walk is started
with `filename_base_offset = directoryTableOffset + 12 * N`, the position
behind the `N` records, and every name is read at
`((field0 with bit 24 cleared) + directoryTableOffset + 12 * N) mod 2^32`:
each entry inserted from the table belongs to a file record whose loop body
was executed, and its name consists of the names of directory records whose
loop bodies were executed, each followed by '/', and the name of the file
record, every one of these names being the printable bytes stored by the name
loop after the seek to that offset computed from its own record, byte `k` of
the name being the byte of the image at that offset plus `k` wherever this
lies inside the image.  When moreover the table is well nested and the names
are terminated and fit `name_buffer`, the entries are those of `specEntries`
for that base. -/
theorem C18_names_read_at_base_mod_2_32 (fuel : Nat) (fd metadata name_buffer : List Byte)
    (hacc : (gcfs_init fuel fd metadata name_buffer).outcome.isContext = true)
    (hsz : 12 * recordCount fd < 2147483648) :
    (∃ (nb : List Byte) (m d : TreeEntry), store name_buffer 0 0 = some nb ∧
      (gcfs_init fuel fd metadata name_buffer).tree =
        some (gcfs_recurse_directory fuel (directoryTable fd) 2 (recordCount fd) 0 fd
          (directoryTableOffset fd + 12 * recordCount fd) (Walk.mk nb [m, d] [] none)).1.tree ∧
      (gcfs_init fuel fd metadata name_buffer).trace =
        (gcfs_recurse_directory fuel (directoryTable fd) 2 (recordCount fd) 0 fd
          (directoryTableOffset fd + 12 * recordCount fd) (Walk.mk nb [m, d] [] none)).1.trace) ∧
    (∀ t ∈ ((gcfs_init fuel fd metadata name_buffer).tree.getD []).drop 2,
      EntryFrom (directoryTable fd) fd (directoryTableOffset fd + 12 * recordCount fd)
        (gcfs_init fuel fd metadata name_buffer).trace t) ∧
    (WellNested (directoryTable fd) (recordCount fd) → recordCount fd ≤ fuel →
      name_buffer.length = NAME_MAX_SIZE →
      (∀ j : Nat, 2 ≤ j → j ≤ recordCount fd →
        NameTerminated (directoryTable fd) fd
          (directoryTableOffset fd + 12 * recordCount fd) (j : Nat) ∧
        (combinedPath (directoryTable fd) fd
          (directoryTableOffset fd + 12 * recordCount fd) j).length < NAME_MAX_SIZE) →
      ((gcfs_init fuel fd metadata name_buffer).tree.getD []).drop 2 =
        specEntries (directoryTable fd) fd (directoryTableOffset fd + 12 * recordCount fd)
          (recordCount fd)) := by
  obtain ⟨nb, m, d, hstore, h1, hlen, _, htree, htrace⟩ :=
    gcfs_init_walk fuel fd metadata name_buffer _ rfl hacc hsz
  have hbase : stringTableBase fd = directoryTableOffset fd + 12 * recordCount fd := rfl
  rw [hbase] at htree htrace
  refine ⟨⟨nb, m, d, hstore, htree, htrace⟩, ?_, ?_⟩
  · obtain ⟨newT, newV, ht, hv, _, hb⟩ := loop_provenance (directoryTable fd) fd
      (directoryTableOffset fd + 12 * recordCount fd) fuel 2 (recordCount fd) 0 2
      (Walk.mk nb [m, d] [] none) PathFrom.root
    have ht2 : (gcfs_recurse_directory fuel (directoryTable fd) 2 (recordCount fd) 0 fd
        (directoryTableOffset fd + 12 * recordCount fd) (Walk.mk nb [m, d] [] none)).1.tree =
        [m, d] ++ newT := ht
    have hv2 : (gcfs_recurse_directory fuel (directoryTable fd) 2 (recordCount fd) 0 fd
        (directoryTableOffset fd + 12 * recordCount fd) (Walk.mk nb [m, d] [] none)).1.trace =
        [] ++ newV := hv
    rw [htree, htrace, ht2, hv2]
    intro t ht3
    exact hb t ht3
  · intro hnest hfuel hbuf hnames
    have hnb : nb.length = NAME_MAX_SIZE := by
      rw [store_length _ _ _ _ hstore]; exact hbuf
    obtain ⟨_, hw⟩ := walk_inserts_specEntries (directoryTable fd) fd
      (directoryTableOffset fd + 12 * recordCount fd)
      (recordCount fd) fuel nb [m, d] h1 hlen hsz hnest hfuel hnb hnames
    rw [htree, hw]
    rfl

theorem C18_witness :
    ((gcfs_init 10 (exImage exNested exStrings) (List.replicate 2048 0)
      (List.replicate 1024 0)).tree.getD []).drop 2 =
      specEntries (directoryTable (exImage exNested exStrings)) (exImage exNested exStrings)
        (directoryTableOffset (exImage exNested exStrings)
          + 12 * recordCount (exImage exNested exStrings))
        (recordCount (exImage exNested exStrings)) :=
  (C18_names_read_at_base_mod_2_32 10 (exImage exNested exStrings) (List.replicate 2048 0)
    (List.replicate 1024 0) exNested_init_isContext (by decide!)).2.2 (by decide!) (by decide!)
    (by decide!) (by decide!)

end Gcfs
